import Mathlib

/-!
# lune3d: worker pool, promises, files, channels and event queue

A shallow embedding of the parts of `src/worker.cc`, `src/engine.cc`,
`src/sys/sync.cc`, `src/sys/thread_win32.cc`, `src/future.h`, `src/blob.h`,
`src/io/aio.h`, `src/io/aio.cc`, `src/io/file.h`, `src/io/file.cc`,
`src/lua/channel.cc` and `src/lune.cc` that the properties below are about, followed
by the theorems.

Conventions.
* Machine integers are natural numbers; every store of a `uint32_t` or
  `uint64_t` goes through `wrap32` or `wrap64`.
* Pointers are indices into explicit heaps (`World.groups`), `nullptr` is `none`.
* A step that would dereference a null or out-of-range pointer, or that is
  blocked in a wait, is `none`.
* Worker threads are interleaved at the granularity of one shared-memory access
  per step: every `fetch_add`, `wait_for`, `signal_inc`, `load` and `store` on the
  shared pool state is a step of its own; purely thread-local assignments are
  attached to the shared access that precedes them.
-/

namespace lune

/-! ## Machine words -/

/-- Truncation to `uint32_t`. -/
def wrap32 (n : Nat) : Nat := n % 2 ^ 32

/-- Truncation to `uint64_t`. -/
def wrap64 (n : Nat) : Nat := n % 2 ^ 64

/-- Binary exponent by which a `uint64_t` exceeds the 53-bit significand of a
`double`: the least `e` (searched upwards from `e`, at most `fuel` times) with
`n < 2 ^ (53 + e)`. -/
def doubleShift (n : Nat) : Nat → Nat → Nat
  | 0, e => e
  | fuel + 1, e => if n < 2 ^ (53 + e) then e else doubleShift n fuel (e + 1)

/-- Conversion `uint64_t → double` (the implicit conversion in
`self->event.id = id`), as the integer the resulting double denotes: round to
nearest, ties to even, on a 53-bit significand. -/
def u64ToDouble (n : Nat) : Nat :=
  let e := doubleShift n 11 0
  let q := n / 2 ^ e
  let r := n % 2 ^ e
  let half := 2 ^ e / 2
  if r > half ∨ (r = half ∧ 0 < e ∧ q % 2 = 1) then (q + 1) * 2 ^ e else q * 2 ^ e

/-! ## `sys/sync.h`: the sequence event -/

/-- The class `SeqEvent`: a monotonic 64-bit counter that threads wait on. -/
structure SeqEvent where
  data_ : Nat := 0
  deriving DecidableEq, Repr

/-- Method `SeqEvent::wait_for(seq)`: returns once `data_ >= seq`; `false` means
the caller is still blocked. -/
def SeqEvent.wait_for (e : SeqEvent) (seq : Nat) : Bool := !decide (e.data_ < seq)

/-- Method `SeqEvent::signal_at(seq)`. -/
def SeqEvent.signal_at (_e : SeqEvent) (seq : Nat) : SeqEvent := { data_ := wrap64 seq }

/-- Method `SeqEvent::signal_inc(v)`, `v` defaulting to 1 in the header. -/
def SeqEvent.signal_inc (e : SeqEvent) (v : Nat) : SeqEvent := { data_ := wrap64 (e.data_ + v) }

/-! ## `worker.h`: data model -/

/-- The five phase functions a `PoolThreadInfo::fn` can point to. -/
inductive PhaseFn
  | WorkFrameStart
  | WorkFrameEnd
  | WorkSyncThreads
  | WorkDoWork
  | WorkContinueWork
  deriving DecidableEq, Repr

/-- The struct `PoolWorkUnit`.  The function pointer `exec` is user code; what the
pool sees of it is the `uint64_t` each successive call returns, so the unit
carries the list of those values still to come (`0` once the list is used up). -/
structure PoolWorkUnit where
  exec_results : List Nat := []
  count : Nat := 0
  index : Nat := 0
  deriving DecidableEq, Repr

/-- One call `wu->exec(wu)`: the returned `uint64_t` and the unit afterwards. -/
def PoolWorkUnit.exec (u : PoolWorkUnit) : Nat × PoolWorkUnit :=
  match u.exec_results with
  | [] => (0, u)
  | r :: rest => (wrap64 r, { u with exec_results := rest })

/-- The struct `PoolWorkGroup`. -/
structure PoolWorkGroup where
  current_frame_index : Nat := 0
  num_valid : Nat := 0
  guid : Nat := 0
  work_units : List PoolWorkUnit := []
  deriving DecidableEq, Repr

/-- The struct `PoolThreadCommon`, zero-initialised as the global `g_PoolCommon` is;
`dt` is not read by the phase functions, and the two callbacks are the ones
`Engine::InitWorkers` and `LuneFirstFrame` install: `update_fn` is
`Engine.OnWorkDone`, `on_frame_done` is recorded in the trace. -/
structure PoolThreadCommon where
  frame_wait : SeqEvent := {}
  swap_wait : SeqEvent := {}
  seq : Nat := 0
  seq_wait : SeqEvent := {}
  num_threads : Nat := 0
  current_work_group : Option Nat := none
  deriving DecidableEq, Repr

/-- The struct `PoolThreadInfo::LuneEngineEventRef`: two doubles, both initialised
to `-1.0`; every value ever stored is integral, so they are integers here. -/
structure LuneEngineEventRef where
  type : Int := -1
  id : Int := -1
  deriving DecidableEq, Repr

/-- Where a worker stands inside the phase function it is executing. -/
inductive Pc
  /-- In the loop of `LunePopEngineEvent`, about to call `self->fn`. -/
  | run
  /-- In `WorkSyncThreads`, leader, before `common->update_fn(self->subseq)`. -/
  | sync_update
  /-- In `WorkSyncThreads`, leader, before `common->seq_wait.signal_inc()`. -/
  | sync_signal
  /-- In `WorkSyncThreads`, follower, in `common->seq_wait.wait_for(self->subseq)`. -/
  | sync_wait
  /-- In `WorkFrameEnd`, leader, in `common->swap_wait.wait_for(self->next_frame)`. -/
  | end_swap
  /-- In `WorkFrameEnd`, leader, before `common->seq.store(0)`. -/
  | end_store
  /-- In `WorkFrameEnd`, leader, before `common->on_frame_done()`. -/
  | end_done
  /-- In `WorkDoWork`, at the top of the loop, before the `fetch_add`. -/
  | work_claim
  /-- In `WorkDoWork`, index `i` claimed, before `wu->exec(wu)`. -/
  | work_exec (i : Nat)
  /-- In `WorkDoWork`, loop left, before `return WorkSyncThreads(self, common)`. -/
  | work_sync
  /-- The call `LunePopEngineEvent` returned `nullptr` because `exit` was set. -/
  | exited
  deriving DecidableEq, Repr

/-- The struct `PoolThreadInfo`, with the constructor's initial values, plus the
control point `pc` and the local variable `g` of `WorkDoWork`. -/
structure PoolThreadInfo where
  event : LuneEngineEventRef := {}
  fn : PhaseFn := PhaseFn.WorkFrameStart
  next_frame : Nat := 1
  subseq : Nat := 0
  expected_seq : Nat := 0
  wu : Option (Nat × Nat) := none
  exit : Bool := false
  pc : Pc := Pc.run
  g : Option Nat := none
  deriving DecidableEq, Repr

/-- What a run leaves behind, in the order it happened. -/
inductive Ev
  /-- Thread `t`: `g->current_frame_index.fetch_add(1)` on group `g` returned `i`. -/
  | claim (t g i : Nat)
  /-- Thread `t`: `wu->exec(wu)` in `WorkDoWork` on unit `i` of group `g` returned `r`. -/
  | exec (t g i r : Nat)
  /-- Thread `t`: `self->wu->exec(self->wu)` in `WorkContinueWork` returned `r`. -/
  | resume (t g i r : Nat)
  /-- Thread `t`: `seq.fetch_add(1)` in `WorkSyncThreads` at barrier `k` returned
  `prev`, compared with `expected`. -/
  | arrive (t k prev expected : Nat)
  /-- Thread `t` called `update_fn(k)`. -/
  | update (t k : Nat)
  /-- Thread `t`: `seq.fetch_add(1)` in `WorkFrameEnd` returned `prev`. -/
  | end_arrive (t prev expected : Nat)
  /-- Thread `t` called `on_frame_done()`. -/
  | frame_done (t : Nat)
  /-- Thread `t`: the phase function returned `suspend`. -/
  | ret (t : Nat) (suspend : Bool)
  deriving DecidableEq, Repr

/-- The pool and what it shares: `g_PoolCommon`, the `PoolThreadInfo` of every
worker, the work groups, `Engine::work_group_list_`, `g_ThreadSequence`. -/
structure World where
  common : PoolThreadCommon := {}
  threads : List PoolThreadInfo := []
  groups : List PoolWorkGroup := []
  work_group_list_ : List (Option Nat) := []
  g_ThreadSequence : List PhaseFn := []
  trace : List Ev := []
  deriving DecidableEq, Repr

/-! ## `engine.cc` and `lune.cc`: the two callbacks -/

/-- The method `Engine::OnWorkDone(id)`, bound to `update_fn` by `Engine::InitWorkers`:
publishes `work_group_list_[id + 1]` and releases it at index 0. -/
def Engine.OnWorkDone (w : World) (id : Nat) : Option World :=
  match w.work_group_list_[wrap32 (id + 1)]? with
  | none => none
  | some none => some { w with common := { w.common with current_work_group := none } }
  | some (some gi) =>
    match w.groups[gi]? with
    | none => none
    | some grp =>
      some { w with
        groups := w.groups.set gi { grp with current_frame_index := 0 }
        common := { w.common with current_work_group := some gi } }

/-! ## `lune.cc`: return to `LunePopEngineEvent` -/

/-- The phase function of thread `t` returns `suspend` to the loop
`while(!i->fn(i, i->common)) if(i->exit) return nullptr; return &i->event;`.
On `true` the event is handed to the driver, which re-enters `fn` later. -/
def leave (w : World) (t : Nat) (th : PoolThreadInfo) (suspend : Bool) : World :=
  let pc := if suspend then Pc.run else if th.exit then Pc.exited else Pc.run
  { w with
    threads := w.threads.set t { th with pc := pc }
    trace := w.trace ++ [Ev.ret t suspend] }

/-! ## `worker.cc`: the phase functions, one shared access per step -/

/-- Lines 18-20 of `WorkSyncThreads`: advance `expected_seq`, `subseq` and `fn`. -/
def WorkSyncThreads.finish (w : World) (t : Nat) (th : PoolThreadInfo) : Option World :=
  let subseq := wrap32 (th.subseq + 1)
  match w.g_ThreadSequence[subseq]? with
  | none => none
  | some f =>
    some (leave w t
      { th with
        expected_seq := wrap32 (th.expected_seq + w.common.num_threads)
        subseq := subseq
        fn := f } false)

/-- Line 12 of `WorkSyncThreads`: the `fetch_add` on `seq` and the comparison with
`expected_seq`. -/
def WorkSyncThreads.arrive (w : World) (t : Nat) (th : PoolThreadInfo) : Option World :=
  let prev := w.common.seq
  some { w with
    common := { w.common with seq := wrap32 (prev + 1) }
    threads := w.threads.set t
      { th with pc := if prev = th.expected_seq then Pc.sync_update else Pc.sync_wait }
    trace := w.trace ++ [Ev.arrive t th.subseq prev th.expected_seq] }

/-- Line 13 of `WorkSyncThreads`: the leader calls `update_fn(subseq)`. -/
def WorkSyncThreads.leader_update (w : World) (t : Nat) (th : PoolThreadInfo) : Option World :=
  match Engine.OnWorkDone w th.subseq with
  | none => none
  | some w1 =>
    some { w1 with
      threads := w1.threads.set t { th with pc := Pc.sync_signal }
      trace := w1.trace ++ [Ev.update t th.subseq] }

/-- Line 14 of `WorkSyncThreads`: the leader advances `seq_wait` by one. -/
def WorkSyncThreads.leader_signal (w : World) (t : Nat) (th : PoolThreadInfo) : Option World :=
  WorkSyncThreads.finish
    { w with common := { w.common with seq_wait := w.common.seq_wait.signal_inc 1 } } t th

/-- Line 16 of `WorkSyncThreads`: a follower waits for `seq_wait >= subseq`. -/
def WorkSyncThreads.follower_wait (w : World) (t : Nat) (th : PoolThreadInfo) : Option World :=
  if w.common.seq_wait.wait_for th.subseq then WorkSyncThreads.finish w t th else none

/-- The function `WorkFrameStart` (lines 26-30). -/
def WorkFrameStart (w : World) (t : Nat) (th : PoolThreadInfo) : Option World :=
  if w.common.frame_wait.wait_for th.next_frame then
    match w.g_ThreadSequence[0]? with
    | none => none
    | some f =>
      some (leave w t
        { th with
          subseq := 0
          expected_seq := wrap32 (w.common.num_threads + 2 ^ 32 - 1)
          fn := f } false)
  else none

/-- Lines 41-43 of `WorkFrameEnd`. -/
def WorkFrameEnd.finish (w : World) (t : Nat) (th : PoolThreadInfo) : Option World :=
  some (leave w t
    { th with next_frame := wrap64 (th.next_frame + 1), fn := PhaseFn.WorkFrameStart } false)

/-- Line 36 of `WorkFrameEnd`: the `fetch_add` on `seq`; a follower goes on to
lines 41-43 at once. -/
def WorkFrameEnd.arrive (w : World) (t : Nat) (th : PoolThreadInfo) : Option World :=
  let prev := w.common.seq
  let w1 : World :=
    { w with
      common := { w.common with seq := wrap32 (prev + 1) }
      trace := w.trace ++ [Ev.end_arrive t prev th.expected_seq] }
  if prev = th.expected_seq then
    some { w1 with threads := w1.threads.set t { th with pc := Pc.end_swap } }
  else WorkFrameEnd.finish w1 t th

/-- Line 37 of `WorkFrameEnd`: the leader waits for `swap_wait >= next_frame`. -/
def WorkFrameEnd.leader_wait (w : World) (t : Nat) (th : PoolThreadInfo) : Option World :=
  if w.common.swap_wait.wait_for th.next_frame then
    some { w with threads := w.threads.set t { th with pc := Pc.end_store } }
  else none

/-- Line 38 of `WorkFrameEnd`: the leader stores 0 to `seq`. -/
def WorkFrameEnd.leader_store (w : World) (t : Nat) (th : PoolThreadInfo) : Option World :=
  some { w with
    common := { w.common with seq := 0 }
    threads := w.threads.set t { th with pc := Pc.end_done } }

/-- Line 39 of `WorkFrameEnd`: the leader calls `on_frame_done()`, then lines 41-43. -/
def WorkFrameEnd.leader_done (w : World) (t : Nat) (th : PoolThreadInfo) : Option World :=
  WorkFrameEnd.finish { w with trace := w.trace ++ [Ev.frame_done t] } t th

/-- Line 48 of `WorkDoWork`: load `current_work_group` into the local `g`. -/
def WorkDoWork.load (w : World) (t : Nat) (th : PoolThreadInfo) : Option World :=
  some { w with
    threads := w.threads.set t { th with g := w.common.current_work_group, pc := Pc.work_claim } }

/-- Lines 50-53 of `WorkDoWork`: the `fetch_add` on `current_frame_index` and the
test against `num_valid`. -/
def WorkDoWork.claim (w : World) (t : Nat) (th : PoolThreadInfo) : Option World :=
  match th.g with
  | none => none
  | some gi =>
    match w.groups[gi]? with
    | none => none
    | some grp =>
      let i := grp.current_frame_index
      some { w with
        groups := w.groups.set gi { grp with current_frame_index := wrap32 (i + 1) }
        threads := w.threads.set t
          { th with pc := if i ≥ grp.num_valid then Pc.work_sync else Pc.work_exec i }
        trace := w.trace ++ [Ev.claim t gi i] }

/-- Lines 54-62 of `WorkDoWork`: call `exec` on the claimed unit; a non-zero
result is stored in the event and the function returns `true`. -/
def WorkDoWork.exec (w : World) (t : Nat) (th : PoolThreadInfo) (i : Nat) : Option World :=
  match th.g with
  | none => none
  | some gi =>
    match w.groups[gi]? with
    | none => none
    | some grp =>
      match grp.work_units[i]? with
      | none => none
      | some wu =>
        let id := wu.exec.1
        let w1 : World :=
          { w with
            groups := w.groups.set gi { grp with work_units := grp.work_units.set i wu.exec.2 }
            trace := w.trace ++ [Ev.exec t gi i id] }
        if id ≠ 0 then
          some (leave w1 t
            { th with
              fn := PhaseFn.WorkContinueWork
              event := { type := (grp.guid : Int), id := (u64ToDouble id : Int) }
              wu := some (gi, i) } true)
        else
          some { w1 with threads := w1.threads.set t { th with pc := Pc.work_claim } }

/-- The function `WorkContinueWork` (lines 69-75). -/
def WorkContinueWork (w : World) (t : Nat) (th : PoolThreadInfo) : Option World :=
  match th.wu with
  | none => none
  | some (gi, i) =>
    match w.groups[gi]? with
    | none => none
    | some grp =>
      match grp.work_units[i]? with
      | none => none
      | some wu =>
        let id := wu.exec.1
        let w1 : World :=
          { w with
            groups := w.groups.set gi { grp with work_units := grp.work_units.set i wu.exec.2 }
            trace := w.trace ++ [Ev.resume t gi i id] }
        if id ≠ 0 then
          some (leave w1 t
            { th with event := { th.event with id := (u64ToDouble id : Int) } } true)
        else
          some (leave w1 t { th with fn := PhaseFn.WorkDoWork } false)

/-- One step of thread `t`: the next shared access of the phase function it is in. -/
def step (w : World) (t : Nat) : Option World :=
  match w.threads[t]? with
  | none => none
  | some th =>
    match th.pc with
    | Pc.run =>
      match th.fn with
      | PhaseFn.WorkFrameStart => WorkFrameStart w t th
      | PhaseFn.WorkFrameEnd => WorkFrameEnd.arrive w t th
      | PhaseFn.WorkSyncThreads => WorkSyncThreads.arrive w t th
      | PhaseFn.WorkDoWork => WorkDoWork.load w t th
      | PhaseFn.WorkContinueWork => WorkContinueWork w t th
    | Pc.sync_update => WorkSyncThreads.leader_update w t th
    | Pc.sync_signal => WorkSyncThreads.leader_signal w t th
    | Pc.sync_wait => WorkSyncThreads.follower_wait w t th
    | Pc.end_swap => WorkFrameEnd.leader_wait w t th
    | Pc.end_store => WorkFrameEnd.leader_store w t th
    | Pc.end_done => WorkFrameEnd.leader_done w t th
    | Pc.work_claim => WorkDoWork.claim w t th
    | Pc.work_exec i => WorkDoWork.exec w t th i
    | Pc.work_sync => WorkSyncThreads.arrive w t th
    | Pc.exited => none

/-- An interleaving: the threads named by the schedule take one step each, in
that order; `none` if one of them cannot move when its turn comes. -/
def runSched (w : World) : List Nat → Option World
  | [] => some w
  | t :: rest =>
    match step w t with
    | none => none
    | some w1 => runSched w1 rest

/-- Whether a worker is inside the dispatch code of `WorkDoWork` and
`WorkContinueWork` (lines 46-63 and 67-76), before the call of `WorkSyncThreads`
on line 64. -/
def inDispatch (th : PoolThreadInfo) : Bool :=
  match th.pc with
  | Pc.run => decide (th.fn = PhaseFn.WorkDoWork) || decide (th.fn = PhaseFn.WorkContinueWork)
  | Pc.work_claim => true
  | Pc.work_exec _ => true
  | _ => false

/-- A step of thread `t` inside the dispatch code. -/
def stepWork (w : World) (t : Nat) : Option World :=
  match w.threads[t]? with
  | none => none
  | some th => if inDispatch th then step w t else none

/-- An interleaving of workers running `WorkDoWork` and `WorkContinueWork`. -/
def runWork (w : World) : List Nat → Option World
  | [] => some w
  | t :: rest =>
    match stepWork w t with
    | none => none
    | some w1 => runWork w1 rest

/-- The indices returned by the `fetch_add` on `current_frame_index`, in order. -/
def claimed (tr : List Ev) : List Nat :=
  tr.filterMap fun e => match e with
    | Ev.claim _ _ i => some i
    | _ => none

/-- The unit indices on which `WorkDoWork` called `exec`, in order. -/
def started (tr : List Ev) : List Nat :=
  tr.filterMap fun e => match e with
    | Ev.exec _ _ i _ => some i
    | _ => none

/-- The barriers on which `update_fn` was called, in order. -/
def updates (tr : List Ev) : List Nat :=
  tr.filterMap fun e => match e with
    | Ev.update _ k => some k
    | _ => none

/-- The threads whose `fetch_add` in `WorkSyncThreads` at barrier `k` returned their
`expected_seq`: the leaders of barrier `k`. -/
def leaders (tr : List Ev) (k : Nat) : List Nat :=
  tr.filterMap fun e => match e with
    | Ev.arrive t j prev expected => if j = k ∧ prev = expected then some t else none
    | _ => none

/-- The threads that did the `fetch_add` of `WorkSyncThreads` at barrier `k`. -/
def arrivals (tr : List Ev) (k : Nat) : List Nat :=
  tr.filterMap fun e => match e with
    | Ev.arrive t j _ _ => if j = k then some t else none
    | _ => none

/-- Whether thread `t` is back in the run loop with `fn = WorkFrameStart`. -/
def atFrameStart (w : World) (t : Nat) : Bool :=
  match w.threads[t]? with
  | none => false
  | some th => decide (th.pc = Pc.run) && decide (th.fn = PhaseFn.WorkFrameStart)

/-- Thread `t` alone runs its phase functions until `fn` is `WorkFrameStart`
again; `none` when it blocks, faults or needs more than `fuel` steps. -/
def runUntilFrameStart (t : Nat) : Nat → World → Option World
  | 0, _ => none
  | fuel + 1, w =>
    match step w t with
    | none => none
    | some w1 => if atFrameStart w1 t then some w1 else runUntilFrameStart t fuel w1

/-! ## `future.h`: `Promise<T>` -/

/-- What happens to a promise: its continuation is called with `(value_, ok)`, the
task `Run` is posted to a runner, the object is deleted. -/
inductive PromiseEv (α : Type)
  | call (fn : Nat) (value : α) (ok : Bool)
  | post (runner : Nat)
  | delete
  deriving DecidableEq, Repr

/-- The class `Promise<T>`.  A continuation (`std::function<void(T&, bool)>`) is
named by a number, an empty `std::function` is `none`; `log` records the calls,
posts and the `delete`, oldest first. -/
structure Promise (α : Type) where
  value_ : α
  then_ : Option Nat := none
  runner_ : Option Nat := none
  resolved_ : Bool := false
  null_ : Bool := false
  log : List (PromiseEv α) := []
  deriving DecidableEq, Repr

namespace Promise

variable {α : Type}

/-- Static `Promise::Make()`: `value_` default-constructed. -/
def Make [Inhabited α] : Promise α := { value_ := default }

/-- Static `Promise::Run(arg)` (lines 185-190): call `then_`, then `delete self`.
It is only reached with `then_` set. -/
def Run (p : Promise α) : Promise α :=
  match p.then_ with
  | none => p
  | some f =>
    { p with log := p.log ++ [PromiseEv.call f p.value_ (!p.null_), PromiseEv.delete] }

/-- Method `PostResolveLocked` (lines 168-183). -/
def PostResolveLocked (p : Promise α) : Promise α :=
  match p.then_ with
  | some _ =>
    match p.runner_ with
    | some r => { p with log := p.log ++ [PromiseEv.post r] }
    | none => Run p
  | none => { p with resolved_ := true }

/-- Method `ResolveNull` (lines 47-52). -/
def ResolveNull (p : Promise α) : Promise α :=
  PostResolveLocked { p with null_ := true }

/-- Method `Resolve(obj)` (lines 53-58). -/
def Resolve (p : Promise α) (obj : α) : Promise α :=
  PostResolveLocked { p with value_ := obj }

/-- Method `Ref::Then(fn)` without a runner (lines 94-107), on the promise the
future refers to. -/
def Then (p : Promise α) (fn : Nat) : Promise α :=
  if p.resolved_ then
    { p with log := p.log ++ [PromiseEv.call fn p.value_ (!p.null_), PromiseEv.delete] }
  else
    { p with then_ := some fn }

end Promise

/-! ## `future.h`: `Promisable<T>` -/

/-- What a promisable does with a continuation: call it with `ok`, or post the
bound call to a runner. -/
inductive PromisableEv
  | call (fn : Nat) (ok : Bool)
  | post (runner fn : Nat) (ok : Bool)
  deriving DecidableEq, Repr

/-- The class `Promisable<T>` (lines 206-268) and its specialisation
`Promisable<RefPtr<T>>` (lines 270-377), whose `Then` and `Resolved` have the same
bodies up to where the lock is released.  `then_` holds `(runner, fn)` pairs,
a null runner is `none`. -/
structure Promisable where
  resolved_ : Bool := false
  errored_ : Bool := false
  then_ : List (Option Nat × Nat) := []
  log : List PromisableEv := []
  deriving DecidableEq, Repr

namespace Promisable

/-- Method `Then(fn)` (lines 216-225 and 280-290). -/
def Then (p : Promisable) (fn : Nat) : Promisable :=
  if p.resolved_ then { p with log := p.log ++ [PromisableEv.call fn (!p.errored_)] }
  else { p with then_ := p.then_ ++ [(none, fn)] }

/-- Method `Then(runner, fn)` (lines 230-239 and 295-305). -/
def ThenOn (p : Promisable) (runner fn : Nat) : Promisable :=
  if p.resolved_ then { p with log := p.log ++ [PromisableEv.post runner fn (!p.errored_)] }
  else { p with then_ := p.then_ ++ [(some runner, fn)] }

/-- The body of the loop `for(auto &e : l)` in `Resolved(error)`. -/
def fire (error : Bool) (p : Promisable) (e : Option Nat × Nat) : Promisable :=
  match e.1 with
  | some r => { p with log := p.log ++ [PromisableEv.post r e.2 (!p.errored_)] }
  | none => { p with log := p.log ++ [PromisableEv.call e.2 (!error)] }

/-- Method `Resolved(error)` (lines 246-262 and 355-371). -/
def Resolved (p : Promisable) (error : Bool) : Promisable :=
  p.then_.foldl (fire error) { p with errored_ := error, resolved_ := true, then_ := [] }

end Promisable

/-! ## `io/file.cc`: the path filter and the split VFS -/

/-- Two's-complement `int`: the value an `int` holds after an increment. -/
def wrapInt32 (x : Int) : Int := (x + 2 ^ 31) % 2 ^ 32 - 2 ^ 31

/-- The loop of `SafeVFSImpl::CheckPath` (lines 322-339) from state `s`. -/
def SafeVFSImpl.CheckPath.loop (s : Int) : List Char → Bool
  | [] => s != 3
  | ch :: rest =>
    if ch = '\\' ∨ ch = '/' then
      if s = 3 then false else SafeVFSImpl.CheckPath.loop 1 rest
    else if ch = '.' then
      SafeVFSImpl.CheckPath.loop (if s > 0 then wrapInt32 (s + 1) else s) rest
    else SafeVFSImpl.CheckPath.loop 0 rest

/-- Method `SafeVFSImpl::CheckPath(p)` (lines 319-340). -/
def SafeVFSImpl.CheckPath (p : List Char) : Bool := SafeVFSImpl.CheckPath.loop 1 p

/-- The split of a path into segments at every `/` and `\`, as the property
is worded: a path with `k` separators has `k + 1` segments. -/
def pathSegments : List Char → List (List Char)
  | [] => [[]]
  | ch :: rest =>
    if ch = '\\' ∨ ch = '/' then [] :: pathSegments rest
    else
      match pathSegments rest with
      | [] => [[ch]]
      | seg :: segs => (ch :: seg) :: segs

/-- A path has a segment that is exactly `..`. -/
def hasDotDotSegment (p : List Char) : Prop := ['.', '.'] ∈ pathSegments p

instance (p : List Char) : Decidable (hasDotDotSegment p) := by
  unfold hasDotDotSegment; infer_instance

/-- The implementations of `VFSImpl` met here: `NullVFSImpl`, the operating
system's VFS (`VFSImpl::GetOsVfs()`), and `SafeVFSImpl(real, root_path)`. -/
inductive VFSImpl
  | null
  | os
  | safe (real_ : VFSImpl) (root_path_ : List Char)
  deriving DecidableEq, Repr

/-- The result of an `OpenFile`: the file (`none` for null) and the paths with
which the operating system's `OpenFile` was invoked on the way. -/
structure OpenResult where
  file : Option Nat
  os_calls : List (List Char)
  deriving DecidableEq, Repr

/-- Method `OpenFile(path, flags, mode)` of each implementation;
`SafeVFSImpl::OpenFile` is lines 258-265.  `osOpen` is what the operating system
answers. -/
def VFSImpl.OpenFile (osOpen : List Char → Nat → Nat → Option Nat) :
    VFSImpl → List Char → Nat → Nat → OpenResult
  | VFSImpl.null, _, _, _ => { file := none, os_calls := [] }
  | VFSImpl.os, path, flags, mode => { file := osOpen path flags mode, os_calls := [path] }
  | VFSImpl.safe real root, path, flags, mode =>
    if !SafeVFSImpl.CheckPath path then { file := none, os_calls := [] }
    else VFSImpl.OpenFile osOpen real (root ++ path) flags mode

/-- The class `SafeVFSSplit`: four standard roots and the custom entries
`(prefix, vfs)` in the order they were added. -/
structure SafeVFSSplit where
  data_vfs_ : VFSImpl
  game_vfs_ : VFSImpl
  save_vfs_ : VFSImpl := VFSImpl.null
  temp_vfs_ : VFSImpl
  custom_ : List (List Char × VFSImpl) := []
  deriving DecidableEq, Repr

/-- The loop over `custom_` in `SafeVFSSplit::Lookup` (lines 422-428), ending in
`null_vfs`. -/
def SafeVFSSplit.lookupCustom (p : List Char) : List (List Char × VFSImpl) → VFSImpl × List Char
  | [] => (VFSImpl.null, p)
  | e :: rest =>
    if e.1.isPrefixOf p then (e.2, p.drop e.1.length) else SafeVFSSplit.lookupCustom p rest

/-- Method `SafeVFSSplit::Lookup(p)` (lines 403-429): the VFS of the root and the
path with the root stripped. -/
def SafeVFSSplit.Lookup (s : SafeVFSSplit) (p : List Char) : VFSImpl × List Char :=
  if "/game/".toList.isPrefixOf p then (s.game_vfs_, p.drop 6)
  else if "/data/".toList.isPrefixOf p then (s.data_vfs_, p.drop 6)
  else if "/save/".toList.isPrefixOf p then (s.save_vfs_, p.drop 6)
  else if "/temp/".toList.isPrefixOf p then (s.temp_vfs_, p.drop 6)
  else SafeVFSSplit.lookupCustom p s.custom_

/-- Method `SafeVFSSplit::OpenFile` (lines 353-360); `Lookup` never returns a null
pointer, so the `if(!vfs)` is not taken. -/
def SafeVFSSplit.OpenFile (osOpen : List Char → Nat → Nat → Option Nat) (s : SafeVFSSplit)
    (path : List Char) (flags mode : Nat) : OpenResult :=
  let r := s.Lookup path
  r.1.OpenFile osOpen r.2 flags mode

/-! ## `event.h` and `lune.cc`: the host event queue -/

/-- The enum `LuneToLuaEv`. -/
inductive LuneToLuaEv
  | Callback | SysUpdate | Swap | NewFrame | UpdateDone | PendingChannelMessages
  | KeyPressed | KeyReleased | TextInput | MouseMoved | MousePressed | MouseReleased
  | WheelMoved | Focus | MouseFocus | Visible | Resized | UserDraw | UserUpdate
  | LateUserUpdate | EndFrame
  deriving DecidableEq, Repr

/-- A `double` that is only stored and copied: its IEEE-754 bit pattern. -/
structure Double where
  bits : Nat
  deriving DecidableEq, Repr

/-- The struct `LuaEvent`; `arg` is the array `double arg[5]`. -/
structure LuaEvent where
  type : LuneToLuaEv
  flags : Nat
  arg : List Double
  deriving DecidableEq, Repr

/-- The constructor `LuaEvent(ty, a0, a1, a2, a3, a4)`. -/
def LuaEvent.new (ty : LuneToLuaEv) (a0 a1 a2 a3 a4 : Double) : LuaEvent :=
  { type := ty, flags := 0, arg := [a0, a1, a2, a3, a4] }

/-- The struct `LuaEventList`: `ev` is the array the pointer refers to. -/
structure LuaEventList where
  ev : List LuaEvent
  valid : Nat
  deriving DecidableEq, Repr

/-- The globals `g_pendingEvents`, `g_currentEvents`, `g_eventList`, and how many
times `g_messageloop.PostHalt()` was called. -/
structure EventQueue where
  g_pendingEvents : List LuaEvent := []
  g_currentEvents : List LuaEvent := []
  g_eventList : LuaEventList := { ev := [], valid := 0 }
  halts : Nat := 0
  deriving DecidableEq, Repr

/-- The function `PostEvent(ev, a0, a1, a2, a3, a4)` (lines 207-214). -/
def PostEvent (q : EventQueue) (ev : LuneToLuaEv) (a0 a1 a2 a3 a4 : Double) : EventQueue :=
  { q with
    halts := if q.g_pendingEvents.isEmpty then q.halts + 1 else q.halts
    g_pendingEvents := q.g_pendingEvents ++ [LuaEvent.new ev a0 a1 a2 a3 a4] }

/-- The function `LunePopEvents()` (lines 190-205): `none` while it is blocked in
`RunUntilHalt` on an empty queue; otherwise the queue after the swap, whose
`g_eventList` is the view returned. -/
def LunePopEvents (q : EventQueue) : Option EventQueue :=
  if q.g_pendingEvents.isEmpty then none
  else
    some { q with
      g_pendingEvents := []
      g_currentEvents := q.g_pendingEvents
      g_eventList := { ev := q.g_pendingEvents, valid := wrap32 q.g_pendingEvents.length } }

/-- The arguments of one call `PostEvent(ev, a0, a1, a2, a3, a4)`. -/
structure PostArgs where
  ev : LuneToLuaEv
  a0 : Double
  a1 : Double
  a2 : Double
  a3 : Double
  a4 : Double
  deriving DecidableEq, Repr

/-- The event a call of `PostEvent` appends. -/
def PostArgs.event (a : PostArgs) : LuaEvent := LuaEvent.new a.ev a.a0 a.a1 a.a2 a.a3 a.a4

/-- A sequence of calls of `PostEvent`, in order. -/
def postAll (q : EventQueue) : List PostArgs → EventQueue
  | [] => q
  | a :: rest => postAll (PostEvent q a.ev a.a0 a.a1 a.a2 a.a3 a.a4) rest

/-! ## Auxiliary definitions for the proofs -/

/-- The indices that workers have claimed and not yet called `exec` on. -/
def pending (ths : List PoolThreadInfo) : List Nat :=
  ths.filterMap fun th => match th.pc with
    | Pc.work_exec i => some i
    | _ => none

/-- Whether a worker has left the loop of `WorkDoWork`. -/
def leftLoop (th : PoolThreadInfo) : Bool := decide (th.pc = Pc.work_sync)

/-- The invariant of the dispatch loop on group `gi` with `nv` valid units: the
`fetch_add` results so far are `0, 1, ..., current_frame_index - 1`; the counter
exceeds `nv` by at most one per worker that left the loop; the indices on which
`exec` was started, together with those claimed and still to start, are a
permutation of the claimed indices below `nv`. -/
structure WorkInv (gi nv : Nat) (w : World) : Prop where
  cur : w.common.current_work_group = some gi
  grp : ∃ grp, w.groups[gi]? = some grp ∧ grp.num_valid = nv ∧ nv ≤ grp.work_units.length ∧
      claimed w.trace = List.range grp.current_frame_index ∧
      grp.current_frame_index ≤ nv + w.threads.countP leftLoop ∧
      (started w.trace ++ pending w.threads).Perm
        (List.range (min grp.current_frame_index nv)) ∧
      (0 < w.threads.countP leftLoop → nv ≤ grp.current_frame_index)
  loaded : ∀ th ∈ w.threads,
      (th.pc = Pc.work_claim ∨ ∃ i, th.pc = Pc.work_exec i) → th.g = some gi
  bound : nv + w.threads.length < 2 ^ 32
  nonempty : w.threads ≠ []

/-- The threads that were leader in `WorkFrameEnd`: their `fetch_add` returned
`expected_seq`. -/
def endLeaders (tr : List Ev) : List Nat :=
  tr.filterMap fun e => match e with
    | Ev.end_arrive t prev expected => if prev = expected then some t else none
    | _ => none

/-- The threads that called `on_frame_done`, in order. -/
def frameDones (tr : List Ev) : List Nat :=
  tr.filterMap fun e => match e with
    | Ev.frame_done t => some t
    | _ => none

/-- The suspend flags returned by the phase functions, in order. -/
def returns (tr : List Ev) : List Bool :=
  tr.filterMap fun e => match e with
    | Ev.ret _ s => some s
    | _ => none

/-- The events of thread `t` claiming and executing units `0 .. n - 1` of group
`gi` one after the other, every `exec` returning 0. -/
def unitTrace (t gi : Nat) : Nat → List Ev
  | 0 => []
  | i + 1 => unitTrace t gi i ++ [Ev.claim t gi i, Ev.exec t gi i 0]

/-- The events of thread `t` claiming and executing the `k` units of group `gi` from
index `i` on, one after the other, every `exec` returning 0. -/
def unitTraceFrom (t gi i : Nat) : Nat → List Ev
  | 0 => []
  | k + 1 => [Ev.claim t gi i, Ev.exec t gi i 0] ++ unitTraceFrom t gi (i + 1) k

/-- The events of one frame of a single worker with the phase program
`[WorkDoWork, WorkFrameEnd]` on a group `gi` of `n` units that all return 0. -/
def frameTrace (gi n : Nat) : List Ev :=
  [Ev.ret 0 false] ++ unitTrace 0 gi n ++
    [Ev.claim 0 gi n, Ev.arrive 0 0 0 0, Ev.update 0 0, Ev.ret 0 false, Ev.end_arrive 0 1 1,
      Ev.frame_done 0, Ev.ret 0 false]

/-- A pool with the single worker `th`, shared state `c`, trace `tr`, the phase
program `[WorkDoWork, WorkFrameEnd]` and no work group after the first. -/
def OneThread (w : World) (c : PoolThreadCommon) (th : PoolThreadInfo) (tr : List Ev) : Prop :=
  w.common = c ∧ w.threads = [th] ∧ w.trace = tr ∧
    w.g_ThreadSequence = [PhaseFn.WorkDoWork, PhaseFn.WorkFrameEnd] ∧
    w.work_group_list_[1]? = some none

/-- Group `gi` stands at index `i`, has `n` valid units, and every unit from `i`
on returns 0 from its next `exec`. -/
def GroupAt (w : World) (gi i n : Nat) : Prop :=
  ∃ grp, w.groups[gi]? = some grp ∧ grp.current_frame_index = i ∧ grp.num_valid = n ∧
    n ≤ grp.work_units.length ∧
    ∀ j u, i ≤ j → j < n → grp.work_units[j]? = some u → u.exec.1 = 0

/-! ## Concrete pools -/

/-- Two workers at the start of the first frame, already released by the host
(`frame_wait = swap_wait = 1`), with the phase program
`[WorkSyncThreads, WorkFrameEnd]` and no work groups. -/
def twoWorkers : World :=
  { common := { num_threads := 2, frame_wait := { data_ := 1 }, swap_wait := { data_ := 1 } }
    threads := [{}, {}]
    work_group_list_ := [none, none]
    g_ThreadSequence := [PhaseFn.WorkSyncThreads, PhaseFn.WorkFrameEnd] }

/-- Two workers entering `WorkDoWork` on a group of three units released at index
0; the second unit yields the token 7 once. -/
def dispatchWorld : World :=
  { common := { num_threads := 2, current_work_group := some 0 }
    threads := [{ fn := PhaseFn.WorkDoWork }, { fn := PhaseFn.WorkDoWork }]
    groups := [{ num_valid := 3, guid := 9, work_units := [{}, { exec_results := [7] }, {}] }]
    work_group_list_ := [some 0, none]
    g_ThreadSequence := [PhaseFn.WorkDoWork, PhaseFn.WorkFrameEnd] }

/-- An interleaving of the two workers of `dispatchWorld` that runs until both
have left the loop. -/
def dispatchSched : List Nat := [0, 1, 0, 1, 1, 0, 1, 1, 0, 0, 1, 0]

/-- The pool `dispatchWorld` after `dispatchSched`. -/
def dispatchDone : World := (runWork dispatchWorld dispatchSched).getD {}

/-- One worker at the start of the first frame, released by the host, with the
phase program `[WorkDoWork, WorkFrameEnd]` and a group of three units that
return 0. -/
def frameWorld : World :=
  { common := { num_threads := 1, frame_wait := { data_ := 1 }, swap_wait := { data_ := 1 },
                current_work_group := some 0 }
    threads := [{}]
    groups := [{ num_valid := 3, guid := 5, work_units := [{}, {}, {}] }]
    work_group_list_ := [some 0, none]
    g_ThreadSequence := [PhaseFn.WorkDoWork, PhaseFn.WorkFrameEnd] }

/-- Four workers entering `WorkDoWork` on a group of eight units with guid 17;
unit 3 returns the token 42 on its first call and 0 on its second. -/
def yieldWorld : World :=
  { common := { num_threads := 4, current_work_group := some 0 }
    threads := [{ fn := PhaseFn.WorkDoWork }, { fn := PhaseFn.WorkDoWork },
      { fn := PhaseFn.WorkDoWork }, { fn := PhaseFn.WorkDoWork }]
    groups := [{ num_valid := 8, guid := 17,
                 work_units := [{}, {}, {}, { exec_results := [42, 0] }, {}, {}, {}, {}] }]
    work_group_list_ := [some 0, none]
    g_ThreadSequence := [PhaseFn.WorkDoWork, PhaseFn.WorkFrameEnd] }

/-- The pool `yieldWorld` once every worker has loaded the group and claimed one
index: worker 3 holds index 3 and is about to call `exec`. -/
def yieldAt : World := (runSched yieldWorld [0, 1, 2, 3, 0, 1, 2, 3]).getD {}

/-- One worker entering `WorkDoWork` on a group with a single unit that returns
the token `2 ^ 53 + 1`. -/
def bigTokenWorld : World :=
  { common := { num_threads := 1, current_work_group := some 0 }
    threads := [{ fn := PhaseFn.WorkDoWork }]
    groups := [{ num_valid := 1, guid := 17, work_units := [{ exec_results := [2 ^ 53 + 1] }] }]
    work_group_list_ := [some 0, none]
    g_ThreadSequence := [PhaseFn.WorkDoWork, PhaseFn.WorkFrameEnd] }

/-- A split VFS whose `/save` root is a `SafeVFSImpl` over the operating system's
VFS, as `SafeVFSSplit::Initialize` installs it. -/
def saveSplit : SafeVFSSplit :=
  { data_vfs_ := VFSImpl.safe VFSImpl.os "C:/game/data/".toList
    game_vfs_ := VFSImpl.safe VFSImpl.os "C:/game/data/".toList
    save_vfs_ := VFSImpl.safe VFSImpl.os "C:/Users/u/AppData/Local/app/".toList
    temp_vfs_ := VFSImpl.safe VFSImpl.os "C:/Temp/".toList }

/-- An operating system that opens whatever it is asked to. -/
def openAnything : List Char → Nat → Nat → Option Nat := fun _ _ _ => some 1

/-- Two calls of `PostEvent`: a `NewFrame` and a `KeyPressed` with three arguments. -/
def twoPosts : List PostArgs :=
  [{ ev := LuneToLuaEv.NewFrame, a0 := ⟨0⟩, a1 := ⟨0⟩, a2 := ⟨0⟩, a3 := ⟨0⟩, a4 := ⟨0⟩ },
   { ev := LuneToLuaEv.KeyPressed, a0 := ⟨4631530004285489152⟩, a1 := ⟨4629700416936869888⟩,
     a2 := ⟨4607182418800017408⟩, a3 := ⟨0⟩, a4 := ⟨0⟩ }]

/-! ## `lune.cc`: the coalesced channel event -/

/-- The function `PostPendingMessage()` (lines 216-224). -/
def PostPendingMessage (q : EventQueue) : EventQueue :=
  let q1 : EventQueue :=
    if q.g_pendingEvents.isEmpty then { q with halts := q.halts + 1 } else q
  if q1.g_pendingEvents.isEmpty ∨
      q1.g_pendingEvents.getLast?.map LuaEvent.type ≠ some LuneToLuaEv.PendingChannelMessages then
    { q1 with
      g_pendingEvents := q1.g_pendingEvents ++
        [LuaEvent.new LuneToLuaEv.PendingChannelMessages ⟨0⟩ ⟨0⟩ ⟨0⟩ ⟨0⟩ ⟨0⟩] }
  else q1

/-! ## `io/aio.h`: `IoBuffer` -/

/-- The class `IoBuffer`: the base address `ptr` and the three `uint32_t` cursors
(`end` is a keyword, so the field is `end_`). -/
structure IoBuffer where
  ptr : Nat
  rd : Nat
  wr : Nat
  end_ : Nat
  deriving DecidableEq, Repr

namespace IoBuffer

/-- Method `AllocRead(data, req, bytes)` (lines 20-30): `none` for `false`, else
`(*data, *bytes)`; the buffer itself is not written. -/
def AllocRead (b : IoBuffer) (req : Nat) : Option (Nat × Nat) :=
  if b.rd = b.wr then none
  else
    let n := wrap32 (b.wr + 2 ^ 32 - b.rd)
    some (b.ptr + b.rd, if n > req then req else n)

/-- Method `AllocWrite(data, req, bytes)` (lines 31-41). -/
def AllocWrite (b : IoBuffer) (req : Nat) : Option (Nat × Nat) :=
  if b.end_ = b.wr then none
  else
    let n := wrap32 (b.end_ + 2 ^ 32 - b.wr)
    some (b.ptr + b.wr, if n > req then req else n)

/-- Method `Read(n)` (line 43). -/
def Read (b : IoBuffer) (n : Nat) : IoBuffer := { b with rd := wrap32 (b.rd + n) }

/-- Method `Write(n)` (line 44). -/
def Write (b : IoBuffer) (n : Nat) : IoBuffer := { b with wr := wrap32 (b.wr + n) }

/-- Method `FillReadArea(n)` (lines 46-50): the returned pointer and `*n`. -/
def FillReadArea (b : IoBuffer) : Nat × Nat := (b.ptr, b.rd)

/-- Method `GetValidArea(n)` (lines 51-55): the returned pointer and `*n`. -/
def GetValidArea (b : IoBuffer) : Nat × Nat := (b.ptr + b.rd, wrap32 (b.wr + 2 ^ 32 - b.rd))

/-- Method `Reset()` (lines 57-60). -/
def Reset (b : IoBuffer) : IoBuffer := { b with rd := 0, wr := 0 }

/-- The invariant `0 ≤ rd ≤ wr ≤ end` of the data model, with `end` a `uint32_t`. -/
def Valid (b : IoBuffer) : Prop := b.rd ≤ b.wr ∧ b.wr ≤ b.end_ ∧ b.end_ < 2 ^ 32

instance (b : IoBuffer) : Decidable b.Valid := by unfold Valid; infer_instance

end IoBuffer

/-- The operations of an `IoBuffer`, with their arguments. -/
inductive IoBufferOp
  | Read (n : Nat)
  | Write (n : Nat)
  | Reset
  | AllocRead (req : Nat)
  | AllocWrite (req : Nat)
  | FillReadArea
  | GetValidArea
  deriving DecidableEq, Repr

/-- The buffer after an operation. -/
def IoBufferOp.apply (b : IoBuffer) : IoBufferOp → IoBuffer
  | IoBufferOp.Read n => b.Read n
  | IoBufferOp.Write n => b.Write n
  | IoBufferOp.Reset => b.Reset
  | IoBufferOp.AllocRead _ => b
  | IoBufferOp.AllocWrite _ => b
  | IoBufferOp.FillReadArea => b
  | IoBufferOp.GetValidArea => b

/-- Whether the argument of an operation stays inside the buffer: `Read(n)` within
the valid range `[rd, wr)`, `Write(n)` within the free space `[wr, end)`. -/
def IoBufferOp.inRange (b : IoBuffer) : IoBufferOp → Prop
  | IoBufferOp.Read n => n ≤ b.wr - b.rd
  | IoBufferOp.Write n => n ≤ b.end_ - b.wr
  | _ => True

instance (b : IoBuffer) (op : IoBufferOp) : Decidable (op.inRange b) := by
  cases op <;> unfold IoBufferOp.inRange <;> infer_instance

/-! ## `blob.h`: blobs -/

/-- The classes `Blob`, `OwnedMemoryBlob` and `DynamicBlob`: a promisable with the
pointer `mem_` (an address) and `size_`. -/
structure Blob extends Promisable where
  mem_ : Nat := 0
  size_ : Nat := 0
  deriving DecidableEq, Repr

namespace Blob

/-- Constructor `OwnedMemoryBlob(bytes)`: `mem` is what `malloc(bytes)` returned. -/
def OwnedMemoryBlob (mem bytes : Nat) : Blob := { mem_ := mem, size_ := bytes }

/-- Constructor `DynamicBlob()`: `OwnedMemoryBlob(nullptr, 0)`. -/
def DynamicBlob : Blob := { mem_ := 0, size_ := 0 }

/-- Method `GetContents()` (lines 51-54). -/
def GetContents (b : Blob) : Nat × Nat := (b.mem_, b.size_)

/-- Method `Resolved(error)` inherited from `Promisable`. -/
def Resolved (b : Blob) (error : Bool) : Blob :=
  { b with toPromisable := b.toPromisable.Resolved error }

/-- Method `Then(fn)` inherited from `Promisable`. -/
def Then (b : Blob) (fn : Nat) : Blob := { b with toPromisable := b.toPromisable.Then fn }

/-- Method `Then(runner, fn)` inherited from `Promisable`. -/
def ThenOn (b : Blob) (runner fn : Nat) : Blob :=
  { b with toPromisable := b.toPromisable.ThenOn runner fn }

/-- Method `DynamicBlob::Set(p, sz, err)` (lines 68-73). -/
def Set (b : Blob) (p sz : Nat) (err : Bool) : Blob :=
  Resolved { b with mem_ := p, size_ := sz } err

/-- Method `DynamicBlob::Copy(p, sz, err)` (lines 75-81); `q` is what `malloc(sz)`
returned. -/
def Copy (b : Blob) (_p sz : Nat) (err : Bool) (q : Nat) : Blob :=
  Resolved { b with mem_ := q, size_ := sz } err

/-- Methods `DynamicBlob::Set(const std::string &, err)` and `Set(const char *, err)`
(lines 83-96) on a string of `len` characters; `q` is what `malloc(len + 1)`
returned. -/
def SetString (b : Blob) (len : Nat) (err : Bool) (q : Nat) : Blob :=
  Resolved { b with mem_ := q, size_ := len } err

end Blob

/-- The operations on a blob, with their arguments. -/
inductive BlobOp
  | Set (p sz : Nat) (err : Bool)
  | Copy (p sz : Nat) (err : Bool) (q : Nat)
  | SetString (len : Nat) (err : Bool) (q : Nat)
  | Then (fn : Nat)
  | ThenOn (runner fn : Nat)
  | Resolved (error : Bool)
  | GetContents
  deriving DecidableEq, Repr

/-- The blob after an operation. -/
def BlobOp.apply (b : Blob) : BlobOp → Blob
  | BlobOp.Set p sz err => b.Set p sz err
  | BlobOp.Copy p sz err q => b.Copy p sz err q
  | BlobOp.SetString len err q => b.SetString len err q
  | BlobOp.Then fn => b.Then fn
  | BlobOp.ThenOn r fn => b.ThenOn r fn
  | BlobOp.Resolved e => b.Resolved e
  | BlobOp.GetContents => b

/-- The setters of `DynamicBlob`: `Set`, `Copy` and the string forms of `Set`. -/
def BlobOp.isSetter : BlobOp → Bool
  | BlobOp.Set _ _ _ => true
  | BlobOp.Copy _ _ _ _ => true
  | BlobOp.SetString _ _ _ => true
  | _ => false

/-! ## `io/aio.h`, `io/aio.cc`: `AsyncOp`

Objects are named by numbers: an op by the order of its allocation, a blob by its
index in the heap of blobs, runners, files and events by arbitrary numbers. What the
code does to the outside (allocating and releasing an op, posting a task, calling a
completion, taking and dropping a reference, signalling an event) is appended to a
log. -/

/-- Struct `SGBuf`. -/
structure SGBuf where
  len : Nat
  buf : Nat
  deriving DecidableEq, Repr

/-- The completion functions: the lambda of `File::AllocForBlobRead`
(`resolveBlob`), the lambda of `AsyncOp::SetCompleteOneshot` (`signalOneshot`), or
a function of the client. -/
inductive Completion
  | fn (id : Nat)
  | resolveBlob
  | signalOneshot
  deriving DecidableEq, Repr

/-- The routines stored in `AsyncOp::op` by the I/O layer. -/
inductive OpRoutine
  | CompleteOp
  deriving DecidableEq, Repr

/-- Struct `AsyncOp`; `id` names the object. -/
structure AsyncOp where
  id : Nat
  buffer : Option IoBuffer := none
  unref : Option Nat := none
  sg : List SGBuf := []
  nsg : Nat := 0
  offset : Nat := 0
  err : Int := 0
  transferred : Nat := 0
  op : Option OpRoutine := none
  runner : Option Nat := none
  completion : Option Completion := none
  completion_context : Nat := 0
  deriving DecidableEq, Repr

/-- What the I/O code does to the outside. -/
inductive AioEv
  | alloc (op : Nat)
  | release (op : Nat)
  | post (runner : Nat) (fn : Completion) (ctx : Nat) (op : Nat)
  | call (fn : Completion) (ctx : Nat) (op : Nat)
  | addRef (obj : Nat)
  | unref (obj : Nat)
  | signal (event : Nat)
  deriving DecidableEq, Repr

/-- The heap: how many ops were allocated, the blobs, and the log. -/
structure AioState where
  allocated : Nat := 0
  blobs : List Blob := []
  log : List AioEv := []
  deriving DecidableEq, Repr

/-- The call `completion(ctx, op)`: the blob lambda is
`b->Resolved(!!op->err)`, the one-shot lambda is `event->signal()`. -/
def Completion.invoke (s : AioState) (f : Completion) (ctx : Nat) (op : AsyncOp) : AioState :=
  let s := { s with log := s.log ++ [AioEv.call f ctx op.id] }
  match f with
  | Completion.fn _ => s
  | Completion.resolveBlob =>
    match s.blobs[ctx]? with
    | some b => { s with blobs := s.blobs.set ctx (b.Resolved (decide (op.err ≠ 0))) }
    | none => s
  | Completion.signalOneshot => { s with log := s.log ++ [AioEv.signal ctx] }

namespace AsyncOp

/-- Function `AsyncOp::Alloc()` (aio.cc lines 62-73). -/
def Alloc (s : AioState) : AsyncOp × AioState :=
  ({ id := s.allocated, runner := none, completion := none, unref := none },
   { s with allocated := s.allocated + 1, log := s.log ++ [AioEv.alloc s.allocated] })

/-- Method `Release()` (aio.cc lines 74-78). -/
def Release (s : AioState) (op : AsyncOp) : AioState :=
  { s with log := s.log ++ [AioEv.release op.id] }

/-- Method `SetCompletion(fn, ctx, r)` (aio.h lines 124-129). -/
def SetCompletion (op : AsyncOp) (fn : Option Completion) (ctx : Nat) (r : Option Nat) :
    AsyncOp :=
  { op with completion := fn, completion_context := ctx, runner := r }

/-- Method `Complete()` (aio.h lines 143-151). -/
def Complete (s : AioState) (op : AsyncOp) : AioState :=
  match op.completion with
  | none => Release s op
  | some f =>
    match op.runner with
    | some r => { s with log := s.log ++ [AioEv.post r f op.completion_context op.id] }
    | none => f.invoke s op.completion_context op

/-- Method `CompleteErr(err)` (aio.h lines 131-136). -/
def CompleteErr (s : AioState) (op : AsyncOp) (err : Int) : AsyncOp × AioState :=
  let op := { op with transferred := 0, err := err }
  (op, Complete s op)

/-- Method `Complete(n)` (aio.h lines 137-142). -/
def CompleteN (s : AioState) (op : AsyncOp) (n : Nat) : AsyncOp × AioState :=
  let op := { op with err := 0, transferred := n }
  (op, Complete s op)

/-- Function `AsyncOp::CompleteOp(op)` (aio.h lines 152-157). -/
def CompleteOp (s : AioState) (op : AsyncOp) : AioState :=
  let unref := op.unref
  let s := Complete s op
  match unref with
  | some u => { s with log := s.log ++ [AioEv.unref u] }
  | none => s

/-- Function `AsyncOp::AllocForMaxWrite(buffer)` (aio.cc lines 102-113): `none` is
the null pointer. -/
def AllocForMaxWrite (s : AioState) (buffer : IoBuffer) : Option AsyncOp × AioState :=
  let (op, s) := Alloc s
  let op := { op with nsg := 1, buffer := some buffer }
  match buffer.AllocWrite 0xFFFFFFFF with
  | none => (none, Release s op)
  | some (data, bytes) => (some { op with sg := [⟨bytes, data⟩] }, s)

/-- Function `AsyncOp::AllocForMaxRead(buffer)` (aio.cc lines 80-91). -/
def AllocForMaxRead (s : AioState) (buffer : IoBuffer) : Option AsyncOp × AioState :=
  let (op, s) := Alloc s
  let op := { op with nsg := 1, buffer := some buffer }
  match buffer.AllocRead 0xFFFFFFFF with
  | none => (none, Release s op)
  | some (data, bytes) => (some { op with sg := [⟨bytes, data⟩] }, s)

/-- Function `AsyncOp::AllocForSyncIo(event)` (aio.cc lines 115-125). -/
def AllocForSyncIo (s : AioState) (event : Nat) : AsyncOp × AioState :=
  let (op, s) := Alloc s
  (op.SetCompletion (some Completion.signalOneshot) event none, s)

end AsyncOp

/-- Function `IoBuffer::WrapEmptyBlob(b)` (aio.cc lines 57-60): a `BlobBuffer`
over the blob's memory, with `end = (uint32_t)b->GetSize()`. -/
def IoBuffer.WrapEmptyBlob (b : Blob) : IoBuffer :=
  { ptr := b.GetContents.1, rd := 0, wr := 0, end_ := wrap32 b.GetContents.2 }

/-! ## `io/file_win32.cc`, `sys/thread_win32.cc`: starting and completing a read -/

/-- Method `Win32File::BeginRead(op)` (file_win32.cc lines 74-93). `failed` is
`none` when `ReadFile` answers `ERROR_IO_PENDING` (the completion will arrive on
the completion port), `some err` for another error. -/
def Win32File.BeginRead (s : AioState) (file : Nat) (op : AsyncOp) (failed : Option Int) :
    AsyncOp × AioState :=
  let s := { s with log := s.log ++ [AioEv.addRef file] }
  let op := { op with op := some OpRoutine.CompleteOp, unref := some file }
  match failed with
  | none => (op, s)
  | some err => op.CompleteErr s err

/-- One completion taken from the port in `GQCSLoop` (thread_win32.cc lines
294-298): `ret` and `n` are what `GetQueuedCompletionStatus` returned, `ioerr` the
translated error; `none` if `op->op` is null. -/
def GQCSLoop.complete (s : AioState) (op : AsyncOp) (ret : Bool) (ioerr : Int) (n : Nat) :
    Option (AsyncOp × AioState) :=
  let op := { op with err := if ret then 0 else ioerr, transferred := n }
  match op.op with
  | some OpRoutine.CompleteOp => some (op, AsyncOp.CompleteOp s op)
  | none => none

/-! ## `io/file.cc`: file-level operations -/

/-- Method `File::AllocForBlobRead(op_out, size)` (lines 99-112): the blob, the op
and the heap; `mem` is what `malloc(size)` returned; `none` when the op is null and
is dereferenced. -/
def File.AllocForBlobRead (s : AioState) (size mem : Nat) : Option (Nat × AsyncOp × AioState) :=
  let b := s.blobs.length
  let blob := Blob.OwnedMemoryBlob mem size
  let s := { s with blobs := s.blobs ++ [blob] }
  let buf := IoBuffer.WrapEmptyBlob blob
  match AsyncOp.AllocForMaxWrite s buf with
  | (none, _) => none
  | (some op, s) =>
    some (b, { op with completion := some Completion.resolveBlob, completion_context := b }, s)

/-- Method `File::ReadToFutureBlob(offset, size)` (lines 114-130) on the file
`file` of size `filesz`: the blob, the op in flight (if any) and the heap. -/
def File.ReadToFutureBlob (s : AioState) (file filesz offset size mem : Nat)
    (failed : Option Int) : Option (Nat × Option AsyncOp × AioState) :=
  if filesz = 0 then
    some (s.blobs.length, none,
      { s with blobs := s.blobs ++ [(Blob.OwnedMemoryBlob mem 0).Resolved false] })
  else
    let size := if size = 0 then filesz else size
    match File.AllocForBlobRead s size mem with
    | none => none
    | some (b, op, s) =>
      let op := { op with offset := offset }
      let (op, s) := Win32File.BeginRead s file op failed
      some (b, some op, s)

/-- Method `File::ReadAbs(p, n, offset)` (lines 26-40) with the one-shot event
`wrev`: the read is started, the completion `(ret, ioerr, got)` arrives from the
port unless `ReadFile` failed at once, `wrev.wait()` returns once the event is
signalled (`none`: it never is), and the op is released. Returns `transferred`. -/
def File.ReadAbs (s : AioState) (file wrev p n offset : Nat) (failed : Option Int)
    (ret : Bool) (ioerr : Int) (got : Nat) : Option (Nat × AioState) :=
  let (op, s) := AsyncOp.AllocForSyncIo s wrev
  let op := { op with sg := [⟨n, p⟩], nsg := 1, offset := offset }
  let (op, s) := Win32File.BeginRead s file op failed
  let done : Option (AsyncOp × AioState) :=
    match failed with
    | none => GQCSLoop.complete s op ret ioerr got
    | some _ => some (op, s)
  match done with
  | none => none
  | some (op, s) =>
    if AioEv.signal wrev ∈ s.log then some (op.transferred, op.Release s) else none

/-- The ops allocated so far, in order. -/
def AioState.allocs (s : AioState) : List Nat :=
  s.log.filterMap fun e => match e with | AioEv.alloc o => some o | _ => none

/-- The ops released so far, in order. -/
def AioState.releases (s : AioState) : List Nat :=
  s.log.filterMap fun e => match e with | AioEv.release o => some o | _ => none

/-! ## `lua/channel.h`, `lua/channel.cc`: Lua channels

The clock (`sys/clock_win32.cc`) counts microseconds: `ClkGetRealtime()` returns the
value cached by the thread, `ClkUpdateRealtime()` reads the clock anew;
`wait_direct(lock, ms)` (`sys/sync.cc`) takes milliseconds. A timeout `to` is a
`double`: a rational number in exact arithmetic, an infinity, or not a number. -/

/-- Struct `LuaChannelMessage`: the `sz` bytes copied to `mem`. -/
structure LuaChannelMessage where
  mem : List Nat
  sz : Nat
  deriving DecidableEq, Repr

/-- Struct `LuaChannel` (the lock and the condition variables are left to the
scheduling of the operations). -/
structure LuaChannel where
  rd : Nat := 0
  wr : Nat := 0
  messages : List LuaChannelMessage := []
  name : String := ""
  push_event : Bool := false
  deriving DecidableEq, Repr

/-- Function `chan_clear` (lines 196-201). -/
def chan_clear (c : LuaChannel) : LuaChannel := { c with messages := [] }

/-- The first part of `chan_push` (lines 218-223): the message is copied and queued,
`r = c->wr++`. Returns `r` and the channel. -/
def chan_push.enqueue (c : LuaChannel) (v : List Nat) (l : Nat) : Nat × LuaChannel :=
  (c.wr, { c with messages := c.messages ++ [⟨v.take l, l⟩], wr := wrap32 (c.wr + 1) })

/-- Function `chan_get_count` (lines 235-241). -/
def chan_get_count (c : LuaChannel) : Nat := wrap32 c.messages.length

/-- Function `chan_peek_str` (lines 247-250): `none` when the queue is empty. -/
def chan_peek_str (c : LuaChannel) : Option (List Nat) := c.messages.head?.map (·.mem)

/-- Function `chan_peek_sz` (lines 251-254): `none` when the queue is empty. -/
def chan_peek_sz (c : LuaChannel) : Option Nat := c.messages.head?.map (·.sz)

/-- Function `chan_read` (lines 255-259). -/
def chan_read (c : LuaChannel) : LuaChannel := { c with rd := wrap32 (c.rd + 1) }

/-- The operations that change a channel, as the threads sharing it perform them
under its lock; a push is its first part, which fixes the id it returns. -/
inductive ChanOp
  | push (v : List Nat) (l : Nat)
  | read
  | clear
  deriving DecidableEq, Repr

/-- The channel after an operation. -/
def ChanOp.apply (c : LuaChannel) : ChanOp → LuaChannel
  | ChanOp.push v l => (chan_push.enqueue c v l).2
  | ChanOp.read => chan_read c
  | ChanOp.clear => chan_clear c

/-- One call of `wait_direct` as the caller sees it: what the other threads did to
the channel while the lock was released, the clock value `ClkUpdateRealtime()`
returned for this call, and whether `SleepConditionVariableCS` returned `TRUE` (the
wait ended by a notification) or `FALSE` (it timed out). -/
structure WaitTick where
  now : Nat
  woken : Bool
  during : List ChanOp := []
  deriving DecidableEq, Repr

/-- The Windows error code `ERROR_TIMEOUT`. -/
def ERROR_TIMEOUT : Nat := 1460

/-- Method `CondVarImpl::wait_direct(lock, milliseconds)` (`sys/sync.cc` lines
64-67): `SleepConditionVariableCS(...) != ERROR_TIMEOUT`, where the call returns the
`BOOL` 1 (`TRUE`) when `woken` and 0 (`FALSE`) on a timeout. -/
def CondVarImpl.wait_direct (woken : Bool) : Bool :=
  decide ((if woken then 1 else 0) ≠ ERROR_TIMEOUT)

/-- A `double` argument: a rational number (the finite values, in exact arithmetic),
an infinity, or not a number. -/
inductive DoubleVal
  | num (x : ℚ)
  | inf (negative : Bool)
  | nan
  deriving DecidableEq

/-- The test `!to` on a `double`. -/
def DoubleVal.isZero : DoubleVal → Bool
  | DoubleVal.num x => decide (x = 0)
  | _ => false

/-- The conversion `(uint64_t)y` of a `double` in exact arithmetic: the value is
truncated towards zero; undefined (`none`) when the truncated value is not a
`uint64_t`. -/
def toUInt64? (y : ℚ) : Option Nat :=
  if -1 < y ∧ y < 2 ^ 64 then some ⌊y⌋.toNat else none

/-- The deadline `ClkGetRealtime() + (uint64_t)(to * 1000.0)`; `none` when the
conversion is undefined. -/
def chan_target (clkNow : Nat) : DoubleVal → Option Nat
  | DoubleVal.num x => (toUInt64? (x * 1000)).map fun us => wrap64 (clkNow + us)
  | _ => none

/-- The argument `(uint32_t)((target - ClkUpdateRealtime()) / 1000)` of
`wait_direct`. -/
def chan_wait_ms (target now : Nat) : Nat := wrap32 (wrap64 (target + 2 ^ 64 - now) / 1000)

/-- What a call of `chan_demand` has done when the ticks end: the value returned
(`none` while the caller is still in the loop) and the arguments of the calls of
`wait_direct`, in order. -/
structure DemandCall where
  result : Option Bool
  waits : List Nat
  deriving DecidableEq, Repr

/-- The loop of `chan_demand` (lines 207-211). -/
def chan_demand.loop (target : Nat) : LuaChannel → List WaitTick → DemandCall
  | c, ticks =>
    if !c.messages.isEmpty then { result := some true, waits := [] }
    else
      match ticks with
      | [] => { result := none, waits := [] }
      | t :: rest =>
        let ms := chan_wait_ms target t.now
        if CondVarImpl.wait_direct t.woken then
          let r := chan_demand.loop target (t.during.foldl ChanOp.apply c) rest
          { result := r.result, waits := ms :: r.waits }
        else { result := some false, waits := [ms] }

/-- Function `chan_demand(c, to)` (lines 203-213) called when the cached clock
value is `clkNow`; `none` when the conversion of the timeout is undefined. -/
def chan_demand (c : LuaChannel) (to_ : DoubleVal) (clkNow : Nat) (ticks : List WaitTick) :
    Option DemandCall :=
  if to_.isZero then some { result := some (!c.messages.isEmpty), waits := [] }
  else (chan_target clkNow to_).map fun target => chan_demand.loop target c ticks

/-- The loop of `chan_push` (line 227): whether the loop has ended when the ticks
end, the channel, and the arguments of the calls of `wait_direct`. -/
def chan_push.wait (target r : Nat) : LuaChannel → List WaitTick → Bool × LuaChannel × List Nat
  | c, ticks =>
    if c.rd < r then
      match ticks with
      | [] => (false, c, [])
      | t :: rest =>
        let ms := chan_wait_ms target t.now
        let c1 := t.during.foldl ChanOp.apply c
        if CondVarImpl.wait_direct t.woken then
          let x := chan_push.wait target r c1 rest
          (x.1, x.2.1, ms :: x.2.2)
        else (true, c1, [ms])
    else (true, c, [])

/-- What a call of `chan_push` has done when the ticks end: the id returned (`none`
while the caller is still in the loop), the channel, the event queue and the
arguments of the calls of `wait_direct`. -/
structure PushCall where
  id : Option Nat
  chan : LuaChannel
  queue : EventQueue
  waits : List Nat
  deriving DecidableEq, Repr

/-- Function `chan_push(c, v, l, to)` (lines 215-233); `none` when the conversion of
the timeout is undefined. -/
def chan_push (c : LuaChannel) (q : EventQueue) (v : List Nat) (l : Nat) (to_ : DoubleVal)
    (clkNow : Nat) (ticks : List WaitTick) : Option PushCall :=
  let (r, c) := chan_push.enqueue c v l
  let waited : Option (Bool × LuaChannel × List Nat) :=
    if to_.isZero then some (true, c, [])
    else (chan_target clkNow to_).map fun target => chan_push.wait target r c ticks
  waited.map fun x =>
    if x.1 then
      { id := some r, chan := x.2.1,
        queue := if x.2.1.push_event then PostPendingMessage q else q, waits := x.2.2 }
    else { id := none, chan := x.2.1, queue := q, waits := x.2.2 }

/-- Whether an operation is a push. -/
def ChanOp.isPush : ChanOp → Bool
  | ChanOp.push _ _ => true
  | _ => false

/-- How many pushes a sequence of operations has. -/
def pushes (ops : List ChanOp) : Nat := ops.countP ChanOp.isPush

/-! ## Concrete runs of the I/O code and concrete channels -/

/-- The call `ReadToFutureBlob(0, 0)` on the file 7 of 16 bytes, `malloc` returning
1000 and `ReadFile` answering `ERROR_IO_PENDING`, followed by the completion of the
read (success, 16 bytes) taken from the port: the blob and the heap. -/
def blobReadPending : Option (Nat × AioState) :=
  match File.ReadToFutureBlob {} 7 16 0 0 1000 none with
  | some (b, some op, s) => (GQCSLoop.complete s op true 0 16).map fun r => (b, r.2)
  | _ => none

/-- The same call with `ReadFile` failing at once with the error 5. -/
def blobReadFailed : Option (Nat × AioState) :=
  match File.ReadToFutureBlob {} 7 16 0 0 1000 (some 5) with
  | some (b, _, s) => some (b, s)
  | none => none

/-- The call `ReadAbs(p, 16, 0)` on the same file with the event 3, completed with
success and 16 bytes. -/
def syncRead : Option (Nat × AioState) := File.ReadAbs {} 7 3 1000 16 0 none true 0 16

/-- A new channel after `chan_push` of the one-byte messages "a" and "b". -/
def twoMessages : LuaChannel :=
  (chan_push.enqueue (chan_push.enqueue {} [97] 1).2 [98] 1).2

/-! ## `worker.cc`: the callback of a barrier, and the frames a worker has ended -/

/-- Line 13 of `WorkSyncThreads` for whatever `common->update_fn` holds: `none` is
the empty `std::function`, whose call throws `std::bad_function_call` and so leaves
`WorkSyncThreads` before line 14 (the step is `none`); `some f` is a target, called
with `subseq`. -/
def WorkSyncThreads.call_update_fn (update_fn : Option (World → Nat → Option World))
    (w : World) (t : Nat) (th : PoolThreadInfo) : Option World :=
  match update_fn with
  | none => none
  | some f =>
    match f w th.subseq with
    | none => none
    | some w1 =>
      some { w1 with
        threads := w1.threads.set t { th with pc := Pc.sync_signal }
        trace := w1.trace ++ [Ev.update t th.subseq] }

/-- Whether an event is worker `u` reaching lines 41-43 of `WorkFrameEnd`: as a
follower right after its `fetch_add`, as the leader right after `on_frame_done()`. -/
def Ev.endsFrame (u : Nat) : Ev → Bool
  | Ev.end_arrive t prev expected => decide (t = u) && !decide (prev = expected)
  | Ev.frame_done t => decide (t = u)
  | _ => false

/-- How many calls of `WorkFrameEnd` worker `u` has completed. -/
def frameEnds (tr : List Ev) (u : Nat) : Nat := tr.countP (Ev.endsFrame u)

/-! ## `lune.cc`: the events of a new frame -/

/-- The globals `g_PrevFrameTimestamp` and `g_CurrentFrameTimestamp`. -/
structure FrameClock where
  g_PrevFrameTimestamp : Nat := 0
  g_CurrentFrameTimestamp : Nat := 0
  deriving DecidableEq, Repr

/-- The function `LuneNewFrame()` (lines 154-188). `now` is what `ClkUpdateTime()`
returned, `pumped` the calls of `PostEvent` made by the handlers that
`g_messageloop.RunUntilIdle()` ran; `toDouble` is the conversion
`uint64_t → double` and `divMillion` the division by `1000000.0`. The sleep on a
short frame changes none of the globals. -/
def LuneNewFrame (toDouble : Nat → Double) (divMillion : Double → Double) (q : EventQueue)
    (c : FrameClock) (now : Nat) (pumped : List PostArgs) : EventQueue × FrameClock :=
  let raw_dt := toDouble now
  let c : FrameClock :=
    { g_PrevFrameTimestamp := c.g_CurrentFrameTimestamp, g_CurrentFrameTimestamp := now }
  let dt := divMillion
    (toDouble (wrap64 (c.g_CurrentFrameTimestamp + 2 ^ 64 - c.g_PrevFrameTimestamp)))
  let q := postAll q pumped
  ({ q with
      g_pendingEvents := q.g_pendingEvents ++
        [LuaEvent.new LuneToLuaEv.UserUpdate dt ⟨0⟩ ⟨0⟩ ⟨0⟩ ⟨0⟩,
         LuaEvent.new LuneToLuaEv.SysUpdate raw_dt ⟨0⟩ ⟨0⟩ ⟨0⟩ ⟨0⟩,
         LuaEvent.new LuneToLuaEv.UserDraw dt ⟨0⟩ ⟨0⟩ ⟨0⟩ ⟨0⟩,
         LuaEvent.new LuneToLuaEv.Swap raw_dt ⟨0⟩ ⟨0⟩ ⟨0⟩ ⟨0⟩,
         LuaEvent.new LuneToLuaEv.LateUserUpdate dt ⟨0⟩ ⟨0⟩ ⟨0⟩ ⟨0⟩] }, c)

/-! ## `io/file.cc`: the prefixes of the split VFS -/

/-- Method `SafeVFSSplit::Add(prefix, vfs)` (lines 431-441): `none` when the prefix
does not fit the 16 bytes of `Entry::prefix`. -/
def SafeVFSSplit.Add (s : SafeVFSSplit) (pre : List Char) (vfs : VFSImpl) :
    Option SafeVFSSplit :=
  if pre.length < 16 then some { s with custom_ := s.custom_ ++ [(pre, vfs)] } else none

/-- The registered prefixes in the order `Lookup` tries them: the four standard
roots, then the custom entries. -/
def SafeVFSSplit.entries (s : SafeVFSSplit) : List (List Char × VFSImpl) :=
  [("/game/".toList, s.game_vfs_), ("/data/".toList, s.data_vfs_),
   ("/save/".toList, s.save_vfs_), ("/temp/".toList, s.temp_vfs_)] ++ s.custom_

/-- The better of the entry found so far and the entry `e`, for the path `p`: `e`
replaces it when `e` matches `p` and is longer. -/
def longerMatch (p : List Char) (best : Option (List Char × VFSImpl))
    (e : List Char × VFSImpl) : Option (List Char × VFSImpl) :=
  if e.1.isPrefixOf p then
    match best with
    | none => some e
    | some b => if b.1.length < e.1.length then some e else some b
  else best

/-- Longest-prefix lookup as the property words it: the VFS registered under the
longest registered prefix that is a prefix of `p`, and `p` without that prefix; the
null VFS and `p` itself when no registered prefix matches. -/
def longestPrefixLookup (es : List (List Char × VFSImpl)) (p : List Char) :
    VFSImpl × List Char :=
  match es.foldl (longerMatch p) none with
  | none => (VFSImpl.null, p)
  | some e => (e.2, p.drop e.1.length)

/-- First-match lookup: the first entry, in order, whose prefix is a prefix of `p`. -/
def firstMatchLookup (es : List (List Char × VFSImpl)) (p : List Char) :
    VFSImpl × List Char :=
  match es.find? (fun e => e.1.isPrefixOf p) with
  | none => (VFSImpl.null, p)
  | some e => (e.2, p.drop e.1.length)

/-- The split VFS `saveSplit` after `Add("/a/", os)` and then `Add("/a/b/", mods)`,
`mods` a `SafeVFSImpl`. -/
def nestedSplit : SafeVFSSplit :=
  { saveSplit with
    custom_ := [("/a/".toList, VFSImpl.os),
      ("/a/b/".toList, VFSImpl.safe VFSImpl.os "D:/mods/".toList)] }

/-! ## `engine.cc`: the fixed-step accumulator, in exact arithmetic

The `double`s of `Engine::WorldInfo` are rational numbers; `floor` is exact; `steps`
is an `int`. -/

/-- The calls a `World` receives from `Engine::SysUpdate`. -/
inductive WorldCall
  | Step (dt : ℚ) (steps : Int)
  | SetPhysicsOffset (offset : ℚ)
  deriving DecidableEq

/-- Struct `Engine::WorldInfo` (engine.h lines 46-54); `w` is the world, seen as the
calls it has received. -/
structure Engine.WorldInfo where
  w : List WorldCall := []
  tNow : ℚ := 0
  physics_step : ℚ := 16666
  world_speed : ℚ := 1
  physics_accum : ℚ := 0
  update_enabled : Bool := true
  deriving DecidableEq

/-- The conversion `(int)x` of an integral `double`: undefined (`none`) when the
value is outside the range of `int`. -/
def toInt? (z : Int) : Option Int :=
  if -2 ^ 31 ≤ z ∧ z < 2 ^ 31 then some z else none

/-- The body of the loop over `worlds_` in `Engine::SysUpdate(dt)` (lines 76-87). -/
def Engine.SysUpdate.world (dt : ℚ) (e : Engine.WorldInfo) : Option Engine.WorldInfo :=
  if !e.update_enabled then some e
  else
    let wt := dt * e.world_speed
    let tNow := e.tNow + wt
    let accum := e.physics_accum + wt
    match toInt? ⌊accum / e.physics_step⌋ with
    | none => none
    | some steps =>
      let accum := accum - steps * e.physics_step
      some { e with
        tNow := tNow
        physics_accum := accum
        w := e.w ++ [WorldCall.Step e.physics_step steps, WorldCall.SetPhysicsOffset accum] }

/-- The loop over `worlds_` in `Engine::SysUpdate(dt)`. -/
def Engine.SysUpdate.worlds (dt : ℚ) (worlds_ : List Engine.WorldInfo) :
    Option (List Engine.WorldInfo) :=
  worlds_.mapM (Engine.SysUpdate.world dt)

/-- The physics steps a world was asked to perform, over all calls of `Step`. -/
def stepsDone (calls : List WorldCall) : Int :=
  (calls.map fun c => match c with
    | WorldCall.Step _ n => n
    | WorldCall.SetPhysicsOffset _ => 0).sum

/-! ## `sys/thread_win32.cc`: the task thread -/

/-- A task: a function pointer with its context, or a `std::function`. -/
inductive Task
  | fn (f context : Nat)
  | std_fn (g : Nat)
  deriving DecidableEq, Repr

/-- Struct `TaskEntry` (lines 11-17), as `new TaskEntry()` makes it. -/
structure TaskEntry where
  std_fn : Option Nat := none
  fn : Option Nat := none
  context : Nat := 0
  deriving DecidableEq, Repr

/-- The class `TaskThread`: the two interlocked lists (head first), whether
`event_` is set, and the tasks run so far, in order. -/
structure TaskThread where
  queue_ : List TaskEntry := []
  free_ : List TaskEntry := []
  event_ : Bool := false
  ran : List Task := []
  deriving DecidableEq, Repr

namespace TaskThread

/-- The entry `PostTask` takes: popped from `free_`, or a new one. -/
def takeEntry (s : TaskThread) : TaskEntry × TaskThread :=
  match s.free_ with
  | [] => ({}, s)
  | e :: rest => (e, { s with free_ := rest })

/-- Method `PostTask(std::function<void()> fn)` (lines 101-110). -/
def PostTask (s : TaskThread) (g : Nat) : TaskThread :=
  let (e, s) := s.takeEntry
  { s with queue_ := { e with std_fn := some g } :: s.queue_, event_ := true }

/-- Method `PostTask(void (*fn)(void *), void *context)` (lines 112-122). -/
def PostTaskFn (s : TaskThread) (f context : Nat) : TaskThread :=
  let (e, s) := s.takeEntry
  { s with queue_ := { e with fn := some f, context := context } :: s.queue_, event_ := true }

/-- Either `PostTask`, by the kind of the task. -/
def post (s : TaskThread) : Task → TaskThread
  | Task.fn f c => s.PostTaskFn f c
  | Task.std_fn g => s.PostTask g

/-- The body of the loop `while(i-- > 0)` in `ThreadMain` (lines 140-146) on one
entry: the task that runs and the entry afterwards; `none` when both `fn` and
`std_fn` are empty (the call throws). -/
def runEntry (e : TaskEntry) : Option (Task × TaskEntry) :=
  match e.fn with
  | some f => some (Task.fn f e.context, { e with fn := none })
  | none =>
    match e.std_fn with
    | some g => some (Task.std_fn g, { e with std_fn := none })
    | none => none

/-- The loop `while(i-- > 0)` of `ThreadMain` over the entries in the order they
are run; it ends at the first entry that throws. -/
def runAll : List TaskEntry → Option (List (Task × TaskEntry))
  | [] => some []
  | e :: rest =>
    match runEntry e with
    | none => none
    | some r => (runAll rest).map (r :: ·)

/-- One round of the loop of `ThreadMain` (lines 126-149): `none` while the thread
waits for `event_`, when the batch does not fit `entries[4096]`, or when an entry
throws. The list is flushed, copied to `entries` from its head, run from
`entries[n - 1]` down to `entries[0]`, and pushed on `free_`. -/
def ThreadMain.round (s : TaskThread) : Option TaskThread :=
  if !s.event_ then none
  else
    let list := s.queue_
    let s := { s with queue_ := [], event_ := false }
    if list.isEmpty then some s
    else if list.length > 4096 then none
    else
      match runAll list.reverse with
      | none => none
      | some rs =>
        some { s with
          ran := s.ran ++ rs.map (·.1)
          free_ := (rs.map (·.2)).reverse ++ s.free_ }

end TaskThread

/-! ## `io/file.h`: the read-only subset of a file -/

/-- The class `IoROSubsetFile`: the file `f_` and the window `[start_, start_ + size_)`. -/
structure IoROSubsetFile where
  f_ : Nat
  start_ : Nat
  size_ : Nat
  deriving DecidableEq, Repr

/-- The loop of `IoROSubsetFile::BeginRead` (lines 161-166) from the running
`total`; `BufLen` is `unsigned long`, 32 bits wide. -/
def IoROSubsetFile.clamp (size_ : Nat) : Nat → List SGBuf → List SGBuf
  | _, [] => []
  | total, b :: rest =>
    let len := if wrap64 (total + b.len) > size_ then wrap32 (wrap64 (size_ + 2 ^ 64 - total))
      else b.len
    { b with len := len } :: IoROSubsetFile.clamp size_ (wrap64 (total + len)) rest

/-- Method `IoROSubsetFile::BeginRead(op)` (lines 158-168): the op handed to
`f_->BeginRead`; `none` when `nsg` exceeds the array `sg`. -/
def IoROSubsetFile.BeginRead (s : IoROSubsetFile) (op : AsyncOp) : Option AsyncOp :=
  if op.nsg ≤ op.sg.length then
    some { op with
      offset := wrap64 (op.offset + s.start_)
      sg := IoROSubsetFile.clamp s.size_ 0 (op.sg.take op.nsg) ++ op.sg.drop op.nsg }
  else none

/-- The byte range `[offset, offset + sum of the segment lengths)` of a read op. -/
def readRange (op : AsyncOp) : Nat × Nat :=
  (op.offset, op.offset + ((op.sg.take op.nsg).map (·.len)).sum)

/-- What one step of thread `t` (whose record was `th`) does to the frame counters:
the other workers keep their record and their count of ended frames, and worker `t`
either keeps `next_frame` and its count, or ends a frame and has `next_frame`
incremented. -/
def FrameStep (w w1 : World) (t : Nat) (th : PoolThreadInfo) : Prop :=
  (∀ u, u ≠ t → w1.threads[u]? = w.threads[u]? ∧ frameEnds w1.trace u = frameEnds w.trace u) ∧
    ∃ th1, w1.threads[t]? = some th1 ∧
      ((frameEnds w1.trace t = frameEnds w.trace t ∧ th1.next_frame = th.next_frame) ∨
        (frameEnds w1.trace t = frameEnds w.trace t + 1 ∧
          th1.next_frame = wrap64 (th.next_frame + 1)))

/-- The pool `twoWorkers` once both workers have passed `WorkFrameStart` and done the
`fetch_add` of `WorkSyncThreads`: worker 1 is the leader of barrier 0, about to call
`update_fn`. -/
def leaderAt : World := (runSched twoWorkers [0, 1, 0, 1]).getD {}

/-- The window `[start_, start_ + size_)` of a subset file. -/
def IoROSubsetFile.window (s : IoROSubsetFile) : Nat × Nat := (s.start_, s.start_ + s.size_)

/-- Whether the byte range `r` lies inside the window `win`. -/
def rangeInside (r win : Nat × Nat) : Bool := decide (win.1 ≤ r.1) && decide (r.2 ≤ win.2)

/-! # Theorems -/

/-! ## Barriers (`WorkSyncThreads`) -/

/-- C1 (phase lockstep) fails on the code.  With two workers and the phase
program `[WorkSyncThreads, WorkFrameEnd]`, worker 0 alone takes four steps: it
arrives at barrier 0 as a follower (`fetch_add` returns 0, `expected_seq` is 1),
its `wait_for(subseq)` with `subseq = 0` returns at once, and it executes
`ThreadSequence[1]` (the `fetch_add` of `WorkFrameEnd`), while worker 1 has not
taken a single step, nobody has called `update_fn` and `seq_wait` is still 0.
In every state the follower's wait at barrier 0 is no wait at all. -/
theorem phase_lockstep_broken :
    (∃ w, runSched twoWorkers [0, 0, 0, 0] = some w ∧
      w.trace = [Ev.ret 0 false, Ev.arrive 0 0 0 1, Ev.ret 0 false, Ev.end_arrive 0 1 3,
        Ev.ret 0 false] ∧
      arrivals w.trace 0 = [0] ∧ updates w.trace = [] ∧ w.common.seq_wait.data_ = 0 ∧
      w.threads[1]? = some ({} : PoolThreadInfo)) ∧
    ∀ (w : World) (t : Nat) (th : PoolThreadInfo),
      WorkSyncThreads.follower_wait w t { th with subseq := 0 } =
        WorkSyncThreads.finish w t { th with subseq := 0 } := by
  refine ⟨⟨_, rfl, ?_⟩, ?_⟩
  · decide
  · intro w t th
    simp [WorkSyncThreads.follower_wait, SeqEvent.wait_for]

/-- C2 (barrier leader uniqueness) fails on the code.  In the interleaving where
worker 0 runs its whole frame before worker 1 starts, both workers pass barrier
0 and complete the frame, yet neither `fetch_add` at barrier 0 returned the
worker's `expected_seq` (0 and 2 against 1): barrier 0 has no leader and
`update_fn(0)` is never called. -/
theorem barrier_without_leader :
    ∃ w, runSched twoWorkers [0, 0, 0, 0, 1, 1, 1, 1, 1, 1, 1] = some w ∧
      w.trace = [Ev.ret 0 false, Ev.arrive 0 0 0 1, Ev.ret 0 false, Ev.end_arrive 0 1 3,
        Ev.ret 0 false, Ev.ret 1 false, Ev.arrive 1 0 2 1, Ev.ret 1 false,
        Ev.end_arrive 1 3 3, Ev.frame_done 1, Ev.ret 1 false] ∧
      arrivals w.trace 0 = [0, 1] ∧ leaders w.trace 0 = [] ∧ updates w.trace = [] ∧
      w.threads.map (fun th => (th.pc, th.fn, th.next_frame, th.subseq)) =
        [(Pc.run, PhaseFn.WorkFrameStart, 2, 1), (Pc.run, PhaseFn.WorkFrameStart, 2, 1)] := by
  refine ⟨_, rfl, ?_⟩
  decide

/-! ## Work-unit dispatch (`WorkDoWork`) -/

theorem filterMap_set_same {α β : Type} (f : α → Option β) :
    ∀ (l : List α) (t : Nat) (a b : α), l[t]? = some a → f b = f a →
      (l.set t b).filterMap f = l.filterMap f
  | [], t, a, b, h, _ => by simp at h
  | x :: l, 0, a, b, h, hb => by
    simp at h; subst h
    simp [List.filterMap_cons, hb]
  | x :: l, t + 1, a, b, h, hb => by
    simp at h
    simp [List.filterMap_cons, filterMap_set_same f l t a b h hb]

theorem filterMap_set_add {α β : Type} (f : α → Option β) (y : β) :
    ∀ (l : List α) (t : Nat) (a b : α), l[t]? = some a → f a = none → f b = some y →
      ((l.set t b).filterMap f).Perm (y :: l.filterMap f)
  | [], t, a, b, h, _, _ => by simp at h
  | x :: l, 0, a, b, h, ha, hb => by
    simp at h; subst h
    simp [List.filterMap_cons, ha, hb]
  | x :: l, t + 1, a, b, h, ha, hb => by
    simp at h
    have ih := filterMap_set_add f y l t a b h ha hb
    simp only [List.set_cons_succ, List.filterMap_cons]
    cases hx : f x with
    | none => simpa using ih
    | some z => exact (List.Perm.cons z ih).trans (List.Perm.swap y z _)

theorem filterMap_set_remove {α β : Type} (f : α → Option β) (y : β) :
    ∀ (l : List α) (t : Nat) (a b : α), l[t]? = some a → f a = some y → f b = none →
      (l.filterMap f).Perm (y :: (l.set t b).filterMap f)
  | [], t, a, b, h, _, _ => by simp at h
  | x :: l, 0, a, b, h, ha, hb => by
    simp at h; subst h
    simp [List.filterMap_cons, ha, hb]
  | x :: l, t + 1, a, b, h, ha, hb => by
    simp at h
    have ih := filterMap_set_remove f y l t a b h ha hb
    simp only [List.set_cons_succ, List.filterMap_cons]
    cases hx : f x with
    | none => simpa using ih
    | some z => exact (List.Perm.cons z ih).trans (List.Perm.swap y z _)

theorem countP_set_of_not {α : Type} (p : α → Bool) :
    ∀ (l : List α) (t : Nat) (a b : α), l[t]? = some a → p a = false →
      (l.set t b).countP p = l.countP p + (if p b then 1 else 0)
  | [], t, a, b, h, _ => by simp at h
  | x :: l, 0, a, b, h, ha => by
    simp at h; subst h
    simp [List.countP_cons, ha]
  | x :: l, t + 1, a, b, h, ha => by
    simp at h
    simp only [List.set_cons_succ, List.countP_cons, countP_set_of_not p l t a b h ha]
    omega

theorem countP_lt_length_of_not {α : Type} (p : α → Bool) (l : List α) (t : Nat) (a : α)
    (h : l[t]? = some a) (ha : p a = false) : l.countP p < l.length := by
  have hle := List.countP_le_length p (l := l)
  rcases Nat.lt_or_ge (l.countP p) l.length with h1 | h1
  · exact h1
  · have heq : l.countP p = l.length := le_antisymm hle h1
    rw [List.countP_eq_length] at heq
    have hmem : a ∈ l := List.mem_iff_getElem?.2 ⟨t, h⟩
    have := heq a hmem
    simp [ha] at this

theorem claimed_append (a b : List Ev) : claimed (a ++ b) = claimed a ++ claimed b := by
  simp [claimed]

theorem started_append (a b : List Ev) : started (a ++ b) = started a ++ started b := by
  simp [started]

theorem countP_leftLoop_set {l : List PoolThreadInfo} {t : Nat} {a : PoolThreadInfo}
    (ht : l[t]? = some a) (ha : a.pc ≠ Pc.work_sync) (b : PoolThreadInfo) :
    (l.set t b).countP leftLoop = l.countP leftLoop + (if b.pc = Pc.work_sync then 1 else 0) := by
  rw [countP_set_of_not leftLoop l t a b ht (by simp [leftLoop, ha])]
  simp [leftLoop]

theorem pending_set_same {l : List PoolThreadInfo} {t : Nat} {a : PoolThreadInfo}
    (ht : l[t]? = some a) (ha : ∀ i, a.pc ≠ Pc.work_exec i) (b : PoolThreadInfo)
    (hb : ∀ i, b.pc ≠ Pc.work_exec i) : pending (l.set t b) = pending l := by
  unfold pending
  apply filterMap_set_same _ _ t a b ht
  cases hpa : a.pc <;> cases hpb : b.pc <;> simp_all

theorem pending_set_add {l : List PoolThreadInfo} {t : Nat} {a : PoolThreadInfo}
    (ht : l[t]? = some a) (ha : ∀ i, a.pc ≠ Pc.work_exec i) (b : PoolThreadInfo) (i : Nat)
    (hb : b.pc = Pc.work_exec i) : (pending (l.set t b)).Perm (i :: pending l) := by
  unfold pending
  apply filterMap_set_add _ _ _ t a b ht
  · cases hpa : a.pc <;> simp_all
  · simp [hb]

theorem pending_set_remove {l : List PoolThreadInfo} {t : Nat} {a : PoolThreadInfo} (i : Nat)
    (ht : l[t]? = some a) (ha : a.pc = Pc.work_exec i) (b : PoolThreadInfo)
    (hb : ∀ j, b.pc ≠ Pc.work_exec j) : (pending l).Perm (i :: pending (l.set t b)) := by
  unfold pending
  apply filterMap_set_remove _ _ _ t a b ht
  · simp [ha]
  · cases hpb : b.pc <;> simp_all

theorem loaded_set {gi : Nat} {l : List PoolThreadInfo} {t : Nat} {b : PoolThreadInfo}
    (h : ∀ th ∈ l, (th.pc = Pc.work_claim ∨ ∃ i, th.pc = Pc.work_exec i) → th.g = some gi)
    (hb : (b.pc = Pc.work_claim ∨ ∃ i, b.pc = Pc.work_exec i) → b.g = some gi) :
    ∀ th ∈ l.set t b, (th.pc = Pc.work_claim ∨ ∃ i, th.pc = Pc.work_exec i) → th.g = some gi := by
  intro th1 hmem hp
  rcases List.mem_or_eq_of_mem_set hmem with h1 | h1
  · exact h th1 h1 hp
  · subst h1; exact hb hp

theorem set_ne_nil {α : Type} {l : List α} {t : Nat} {b : α} (h : l ≠ []) : l.set t b ≠ [] := by
  intro h1
  have := congrArg List.length h1
  simp at this
  exact h this

theorem getElem?_lt_of_some {α : Type} {l : List α} {i : Nat} {a : α} (h : l[i]? = some a) :
    i < l.length := by
  rcases Nat.lt_or_ge i l.length with h1 | h1
  · exact h1
  · rw [List.getElem?_eq_none h1] at h; cases h

theorem inv_load {gi nv : Nat} {w w1 : World} {t : Nat} {th : PoolThreadInfo}
    (h : WorkInv gi nv w) (ht : w.threads[t]? = some th) (hpc : th.pc = Pc.run)
    (hs : WorkDoWork.load w t th = some w1) : WorkInv gi nv w1 := by
  simp only [WorkDoWork.load, Option.some.injEq] at hs
  subst hs
  obtain ⟨grp, hg, hnv, hlen, hcl, hle, hperm, hdone⟩ := h.grp
  have hne : th.pc ≠ Pc.work_sync := by simp [hpc]
  have hnx : ∀ i, th.pc ≠ Pc.work_exec i := by simp [hpc]
  refine ⟨h.cur, ⟨grp, hg, hnv, hlen, hcl, ?_, ?_, ?_⟩, ?_, ?_, ?_⟩
  · simp only [countP_leftLoop_set ht hne]; simpa using hle
  · simp only []
    rw [pending_set_same ht hnx _ (by simp)]; exact hperm
  · simp only [countP_leftLoop_set ht hne]; simpa using hdone
  · exact loaded_set h.loaded (fun _ => h.cur)
  · simpa using h.bound
  · exact set_ne_nil h.nonempty

theorem inv_claim {gi nv : Nat} {w w1 : World} {t : Nat} {th : PoolThreadInfo}
    (h : WorkInv gi nv w) (ht : w.threads[t]? = some th) (hpc : th.pc = Pc.work_claim)
    (hs : WorkDoWork.claim w t th = some w1) : WorkInv gi nv w1 := by
  obtain ⟨grp, hg, hnv, hlen, hcl, hle, hperm, hdone⟩ := h.grp
  have hmem : th ∈ w.threads := List.mem_iff_getElem?.2 ⟨t, ht⟩
  have hgth : th.g = some gi := h.loaded th hmem (Or.inl hpc)
  have hne : th.pc ≠ Pc.work_sync := by simp [hpc]
  have hnx : ∀ i, th.pc ≠ Pc.work_exec i := by simp [hpc]
  have hlt := countP_lt_length_of_not leftLoop w.threads t th ht (by simp [leftLoop, hne])
  have hb := h.bound
  have hwrap : wrap32 (grp.current_frame_index + 1) = grp.current_frame_index + 1 := by
    unfold wrap32
    apply Nat.mod_eq_of_lt
    omega
  have hgi : gi < w.groups.length := getElem?_lt_of_some hg
  rw [WorkDoWork.claim, hgth] at hs
  simp only [hg, Option.some.injEq, hwrap] at hs
  subst hs
  have hcl1 : claimed (w.trace ++ [Ev.claim t gi grp.current_frame_index]) =
      List.range (grp.current_frame_index + 1) := by
    rw [claimed_append, hcl, List.range_succ]; rfl
  have hst1 : started (w.trace ++ [Ev.claim t gi grp.current_frame_index]) = started w.trace := by
    rw [started_append]; simp [started]
  by_cases hc : grp.current_frame_index ≥ grp.num_valid
  · -- the loop is left
    simp only [hc, if_true]
    refine ⟨h.cur, ⟨{ grp with current_frame_index := grp.current_frame_index + 1 }, ?_, hnv, hlen,
      hcl1, ?_, ?_, ?_⟩, ?_, ?_, ?_⟩
    · simp [hgi]
    · simp only [countP_leftLoop_set ht hne, if_true]; omega
    · simp only [hst1]
      rw [pending_set_same ht hnx _ (by simp)]
      have hmin : min (grp.current_frame_index + 1) nv = min grp.current_frame_index nv := by
        omega
      rw [hmin]; exact hperm
    · intro _; simp only; omega
    · exact loaded_set h.loaded (by simp)
    · simpa using hb
    · exact set_ne_nil h.nonempty
  · -- index claimed
    simp only [hc, if_false]
    refine ⟨h.cur, ⟨{ grp with current_frame_index := grp.current_frame_index + 1 }, ?_, hnv, hlen,
      hcl1, ?_, ?_, ?_⟩, ?_, ?_, ?_⟩
    · simp [hgi]
    · simp only; omega
    · simp only [hst1]
      have hmin : min (grp.current_frame_index + 1) nv = grp.current_frame_index + 1 := by
        omega
      have hmin2 : min grp.current_frame_index nv = grp.current_frame_index := by omega
      rw [hmin, List.range_succ]
      rw [hmin2] at hperm
      refine (List.Perm.append_left _ (pending_set_add ht hnx _ _ rfl)).trans ?_
      refine List.perm_middle.trans ?_
      exact (List.Perm.cons _ hperm).trans (List.perm_append_singleton _ _).symm
    · simp only [countP_leftLoop_set ht hne]
      intro h0
      have := hdone (by simpa using h0)
      omega
    · exact loaded_set h.loaded (fun _ => rfl)
    · simpa using hb
    · exact set_ne_nil h.nonempty

theorem mem_pending_of {l : List PoolThreadInfo} {t : Nat} {a : PoolThreadInfo} {i : Nat}
    (ht : l[t]? = some a) (ha : a.pc = Pc.work_exec i) : i ∈ pending l := by
  unfold pending
  rw [List.mem_filterMap]
  exact ⟨a, List.mem_iff_getElem?.2 ⟨t, ht⟩, by simp [ha]⟩

theorem inv_exec {gi nv : Nat} {w w1 : World} {t i : Nat} {th : PoolThreadInfo}
    (h : WorkInv gi nv w) (ht : w.threads[t]? = some th) (hpc : th.pc = Pc.work_exec i)
    (hs : WorkDoWork.exec w t th i = some w1) : WorkInv gi nv w1 := by
  obtain ⟨grp, hg, hnv, hlen, hcl, hle, hperm, hdone⟩ := h.grp
  have hmem : th ∈ w.threads := List.mem_iff_getElem?.2 ⟨t, ht⟩
  have hgth : th.g = some gi := h.loaded th hmem (Or.inr ⟨i, hpc⟩)
  have hne : th.pc ≠ Pc.work_sync := by simp [hpc]
  have hgi : gi < w.groups.length := getElem?_lt_of_some hg
  have hi : i < min grp.current_frame_index nv := by
    have h1 : i ∈ started w.trace ++ pending w.threads :=
      List.mem_append_right _ (mem_pending_of ht hpc)
    simpa using (hperm.mem_iff.1 h1)
  have hil : i < grp.work_units.length := by omega
  have hwu : grp.work_units[i]? = some grp.work_units[i] := List.getElem?_eq_getElem hil
  rw [WorkDoWork.exec, hgth] at hs
  simp only [hg, hwu] at hs
  have hrem : ∀ b : PoolThreadInfo, (∀ j, b.pc ≠ Pc.work_exec j) → ∀ tr : List Ev, started tr = [] →
      (started (w.trace ++ [Ev.exec t gi i (grp.work_units[i].exec).1] ++ tr) ++
        pending (w.threads.set t b)).Perm (List.range (min grp.current_frame_index nv)) := by
    intro b hb tr htr
    rw [started_append, started_append, htr, List.append_nil]
    have h2 : started [Ev.exec t gi i (grp.work_units[i].exec).1] = [i] := rfl
    rw [h2, List.append_assoc]
    refine (List.Perm.append_left _ ?_).trans hperm
    exact (pending_set_remove i ht hpc b hb).symm
  by_cases hid : (grp.work_units[i].exec).1 ≠ 0
  · simp only [hid, ne_eq, not_false_eq_true, if_true, Option.some.injEq, leave] at hs
    subst hs
    refine ⟨h.cur, ⟨{ grp with work_units := grp.work_units.set i (grp.work_units[i].exec).2 },
      ?_, hnv, ?_, ?_, ?_, ?_, ?_⟩, ?_, ?_, ?_⟩
    · simp only [List.getElem?_set_self hgi]
    · simpa using hlen
    · simp only [claimed_append, hcl]; simp [claimed]
    · simp only [countP_leftLoop_set ht hne]; simpa using hle
    · exact hrem _ (by simp) [Ev.ret t true] rfl
    · simp only [countP_leftLoop_set ht hne]; simpa using hdone
    · exact loaded_set h.loaded (by simp)
    · simpa using h.bound
    · exact set_ne_nil h.nonempty
  · simp only [hid, if_false, Option.some.injEq] at hs
    subst hs
    refine ⟨h.cur, ⟨{ grp with work_units := grp.work_units.set i (grp.work_units[i].exec).2 },
      ?_, hnv, ?_, ?_, ?_, ?_, ?_⟩, ?_, ?_, ?_⟩
    · simp only [List.getElem?_set_self hgi]
    · simpa using hlen
    · simp only [claimed_append, hcl]; simp [claimed]
    · simp only [countP_leftLoop_set ht hne]; simpa using hle
    · simpa using hrem _ (by simp) [] rfl
    · simp only [countP_leftLoop_set ht hne]; simpa using hdone
    · exact loaded_set h.loaded (fun _ => rfl)
    · simpa using h.bound
    · exact set_ne_nil h.nonempty

theorem inv_continue {gi nv : Nat} {w w1 : World} {t : Nat} {th : PoolThreadInfo}
    (h : WorkInv gi nv w) (ht : w.threads[t]? = some th) (hpc : th.pc = Pc.run)
    (hs : WorkContinueWork w t th = some w1) : WorkInv gi nv w1 := by
  obtain ⟨grp, hg, hnv, hlen, hcl, hle, hperm, hdone⟩ := h.grp
  have hne : th.pc ≠ Pc.work_sync := by simp [hpc]
  have hnx : ∀ i, th.pc ≠ Pc.work_exec i := by simp [hpc]
  unfold WorkContinueWork at hs
  split at hs
  · cases hs
  · rename_i gj j hwu
    split at hs
    · cases hs
    · rename_i grp1 hg1
      split at hs
      · cases hs
      · rename_i wu hwu1
        have hgj : gj < w.groups.length := getElem?_lt_of_some hg1
        -- the group `gi` after the unit of group `gj` was updated
        have hgrp : ∃ grp2, (w.groups.set gj
            { grp1 with work_units := grp1.work_units.set j wu.exec.2 })[gi]? = some grp2 ∧
            grp2.num_valid = nv ∧ nv ≤ grp2.work_units.length ∧
            grp2.current_frame_index = grp.current_frame_index := by
          by_cases heq : gj = gi
          · subst heq
            rw [hg] at hg1
            cases hg1
            exact ⟨_, List.getElem?_set_self hgj, hnv, by simpa using hlen, rfl⟩
          · exact ⟨grp, by rw [List.getElem?_set_ne heq]; exact hg, hnv, hlen, rfl⟩
        obtain ⟨grp2, hg2, hnv2, hlen2, hcfi⟩ := hgrp
        dsimp only at hs
        split at hs
        · simp only [Option.some.injEq, leave] at hs
          subst hs
          refine ⟨h.cur, ⟨grp2, hg2, hnv2, hlen2, ?_, ?_, ?_, ?_⟩, ?_, ?_, ?_⟩
          · simp only [claimed_append, hcl, hcfi]; simp [claimed]
          · simp only [countP_leftLoop_set ht hne, hcfi]; simpa using hle
          · simp only [started_append, hcfi]
            rw [pending_set_same ht hnx _ (by simp)]
            simpa [started] using hperm
          · simp only [countP_leftLoop_set ht hne, hcfi]; simpa using hdone
          · exact loaded_set h.loaded (by simp)
          · simpa using h.bound
          · exact set_ne_nil h.nonempty
        · simp only [Option.some.injEq, leave, Bool.false_eq_true, if_false] at hs
          subst hs
          cases hex : th.exit <;>
          · simp only [Bool.false_eq_true, if_false, if_true]
            refine ⟨h.cur, ⟨grp2, hg2, hnv2, hlen2, ?_, ?_, ?_, ?_⟩, ?_, ?_, ?_⟩
            · simp only [claimed_append, hcl, hcfi]; simp [claimed]
            · simp only [countP_leftLoop_set ht hne, hcfi]; simpa using hle
            · simp only [started_append, hcfi]
              rw [pending_set_same ht hnx _ (by simp)]
              simpa [started] using hperm
            · simp only [countP_leftLoop_set ht hne, hcfi]; simpa using hdone
            · exact loaded_set h.loaded (by simp)
            · simpa using h.bound
            · exact set_ne_nil h.nonempty

theorem inv_stepWork {gi nv : Nat} {w w1 : World} {t : Nat}
    (h : WorkInv gi nv w) (hs : stepWork w t = some w1) : WorkInv gi nv w1 := by
  unfold stepWork at hs
  split at hs
  · cases hs
  · rename_i th ht
    split at hs
    · rename_i hin
      unfold step at hs
      simp only [ht] at hs
      unfold inDispatch at hin
      split at hs
      · -- Pc.run
        rename_i hpc
        simp only [hpc] at hin
        split at hs
        · rename_i hfn; simp [hfn] at hin
        · rename_i hfn; simp [hfn] at hin
        · rename_i hfn; simp [hfn] at hin
        · exact inv_load h ht hpc hs
        · exact inv_continue h ht hpc hs
      all_goals first
        | (rename_i hpc; simp [hpc] at hin; done)
        | (rename_i hpc; exact inv_claim h ht hpc hs)
        | (rename_i hpc; exact inv_exec h ht hpc hs)
    · cases hs

theorem inv_runWork {gi nv : Nat} : ∀ (sched : List Nat) {w w1 : World},
    WorkInv gi nv w → runWork w sched = some w1 → WorkInv gi nv w1
  | [], w, w1, h, hs => by
    simp only [runWork, Option.some.injEq] at hs
    subst hs; exact h
  | t :: rest, w, w1, h, hs => by
    unfold runWork at hs
    split at hs
    · cases hs
    · rename_i w2 h2
      exact inv_runWork rest (inv_stepWork h h2) hs

theorem pending_eq_nil {l : List PoolThreadInfo} (h : ∀ th ∈ l, th.pc = Pc.work_sync) :
    pending l = [] := by
  unfold pending
  rw [List.filterMap_eq_nil_iff]
  intro th hmem
  simp [h th hmem]

theorem countP_leftLoop_pos {l : List PoolThreadInfo} (hne : l ≠ [])
    (h : ∀ th ∈ l, th.pc = Pc.work_sync) : 0 < l.countP leftLoop := by
  cases l with
  | nil => exact absurd rfl hne
  | cons a l =>
    have ha : leftLoop a = true := by simp [leftLoop, h a (List.mem_cons_self _ _)]
    rw [List.countP_cons_of_pos _ _ ha]
    omega

/-- C3 (work-unit dispatch).  Workers, all about to call their phase function,
run `WorkDoWork` and `WorkContinueWork` in any interleaving `sched` on a group
released at index 0 whose `num_valid` units exist (`num_valid` plus the number
of workers stays below `2 ^ 32`, so the 32-bit counter cannot wrap).  Then, in
the state reached: the `fetch_add` results handed out are `0, 1, ..., c - 1` in
that order; `exec` was started at most once per index, only on claimed indices
and on none `≥ num_valid`; and once every worker has left the loop, all of
`0 .. num_valid - 1` were claimed and `exec` was started exactly once on each. -/
theorem work_dispatch (w w1 : World) (gi : Nat) (grp : PoolWorkGroup) (sched : List Nat)
    (hcur : w.common.current_work_group = some gi)
    (hgrp : w.groups[gi]? = some grp)
    (hrel : grp.current_frame_index = 0)
    (hunits : grp.num_valid ≤ grp.work_units.length)
    (hthreads : ∀ th ∈ w.threads, th.pc = Pc.run)
    (hne : w.threads ≠ [])
    (hbound : grp.num_valid + w.threads.length < 2 ^ 32)
    (htrace : w.trace = [])
    (hrun : runWork w sched = some w1) :
    ∃ c, claimed w1.trace = List.range c ∧
      (started w1.trace).Nodup ∧
      (∀ i ∈ started w1.trace, i < c ∧ i < grp.num_valid) ∧
      ((∀ th ∈ w1.threads, th.pc = Pc.work_sync) →
        grp.num_valid ≤ c ∧ (started w1.trace).Perm (List.range grp.num_valid)) := by
  have h0 : WorkInv gi grp.num_valid w := by
    have hp : pending w.threads = [] := by
      unfold pending
      rw [List.filterMap_eq_nil_iff]
      intro th hmem
      simp [hthreads th hmem]
    have hc : w.threads.countP leftLoop = 0 := by
      rw [List.countP_eq_zero]
      intro th hmem
      simp [leftLoop, hthreads th hmem]
    refine ⟨hcur, ⟨grp, hgrp, rfl, hunits, ?_, ?_, ?_, ?_⟩, ?_, hbound, hne⟩
    · simp [htrace, hrel, claimed]
    · simp [hrel]
    · simp [htrace, hrel, started, hp]
    · simp [hc]
    · intro th hmem hp1
      rcases hp1 with hp1 | ⟨i, hp1⟩ <;> simp [hthreads th hmem] at hp1
  have h1 := inv_runWork sched h0 hrun
  obtain ⟨grp1, _, _, _, hcl, _, hperm, hdone⟩ := h1.grp
  have hnd : (started w1.trace ++ pending w1.threads).Nodup :=
    hperm.nodup_iff.2 (List.nodup_range _)
  refine ⟨grp1.current_frame_index, hcl, (List.nodup_append.1 hnd).1, ?_, ?_⟩
  · intro i hi
    have h2 : i ∈ List.range (min grp1.current_frame_index grp.num_valid) :=
      hperm.mem_iff.1 (List.mem_append_left _ hi)
    simp only [List.mem_range] at h2
    omega
  · intro hall
    have hpos := countP_leftLoop_pos h1.nonempty hall
    have hge := hdone hpos
    refine ⟨hge, ?_⟩
    rw [pending_eq_nil hall, List.append_nil, Nat.min_eq_right hge] at hperm
    exact hperm

/-- Witness for C3: two workers, three units, the second unit yielding once; the
workers start the units in the order 1, 0, 2 and both leave the loop. -/
theorem work_dispatch_witness :
    (∀ th ∈ dispatchDone.threads, th.pc = Pc.work_sync) ∧
    ∃ c, claimed dispatchDone.trace = List.range c ∧
      (started dispatchDone.trace).Nodup ∧
      (∀ i ∈ started dispatchDone.trace, i < c ∧ i < 3) ∧
      ((∀ th ∈ dispatchDone.threads, th.pc = Pc.work_sync) →
        3 ≤ c ∧ (started dispatchDone.trace).Perm (List.range 3)) :=
  ⟨by decide,
    work_dispatch dispatchWorld dispatchDone 0
      { num_valid := 3, guid := 9, work_units := [{}, { exec_results := [7] }, {}] }
      dispatchSched rfl rfl rfl (by decide) (by decide) (by decide) (by decide) rfl rfl⟩

/-! ## One worker, one frame -/

theorem run_cons {w w1 : World} {t f : Nat} (hs : step w t = some w1)
    (hn : atFrameStart w1 t = false) :
    runUntilFrameStart t (f + 1) w = runUntilFrameStart t f w1 := by
  simp [runUntilFrameStart, hs, hn]

theorem st_frameStart {w : World} {c : PoolThreadCommon} {th : PoolThreadInfo} {tr : List Ev}
    (h : OneThread w c th tr) (hpc : th.pc = Pc.run) (hfn : th.fn = PhaseFn.WorkFrameStart)
    (hex : th.exit = false) (hfw : th.next_frame ≤ c.frame_wait.data_)
    (hnum : c.num_threads = 1) :
    ∃ w1, step w 0 = some w1 ∧ w1.groups = w.groups ∧ atFrameStart w1 0 = false ∧
      OneThread w1 c { th with subseq := 0, expected_seq := 0, fn := PhaseFn.WorkDoWork }
        (tr ++ [Ev.ret 0 false]) := by
  obtain ⟨rfl, ht, rfl, hp, hn⟩ := h
  have hw : SeqEvent.wait_for w.common.frame_wait th.next_frame = true := by
    simp [SeqEvent.wait_for]; omega
  simp [step, ht, hpc, hfn, WorkFrameStart, hw, hp, leave, hex, atFrameStart, hnum, wrap32,
    OneThread, hn]

theorem st_load {w : World} {c : PoolThreadCommon} {th : PoolThreadInfo} {tr : List Ev}
    (h : OneThread w c th tr) (hpc : th.pc = Pc.run) (hfn : th.fn = PhaseFn.WorkDoWork) :
    ∃ w1, step w 0 = some w1 ∧ w1.groups = w.groups ∧ atFrameStart w1 0 = false ∧
      OneThread w1 c { th with g := c.current_work_group, pc := Pc.work_claim } tr := by
  obtain ⟨rfl, ht, rfl, hp, hn⟩ := h
  simp [step, ht, hpc, hfn, WorkDoWork.load, hp, atFrameStart, OneThread, hn]

theorem st_unit {w : World} {c : PoolThreadCommon} {th : PoolThreadInfo} {tr : List Ev}
    {gi i n : Nat}
    (h : OneThread w c th tr) (hg : GroupAt w gi i n) (hpc : th.pc = Pc.work_claim)
    (hgl : th.g = some gi) (hi : i < n) (hn32 : n < 2 ^ 32) :
    ∃ w1 w2, step w 0 = some w1 ∧ atFrameStart w1 0 = false ∧ step w1 0 = some w2 ∧
      atFrameStart w2 0 = false ∧ GroupAt w2 gi (i + 1) n ∧
      OneThread w2 c th (tr ++ [Ev.claim 0 gi i, Ev.exec 0 gi i 0]) := by
  obtain ⟨rfl, ht, rfl, hp, hn⟩ := h
  obtain ⟨grp, hgrp, rfl, rfl, hlen, hz⟩ := hg
  have hgi : gi < w.groups.length := by
    rcases Nat.lt_or_ge gi w.groups.length with h1 | h1
    · exact h1
    · rw [List.getElem?_eq_none h1] at hgrp; cases hgrp
  have hil : grp.current_frame_index < grp.work_units.length := by omega
  have hu : grp.work_units[grp.current_frame_index]? =
      some grp.work_units[grp.current_frame_index] := List.getElem?_eq_getElem hil
  have hz0 := hz _ _ (Nat.le_refl _) hi hu
  have hwrap : wrap32 (grp.current_frame_index + 1) = grp.current_frame_index + 1 := by
    unfold wrap32; apply Nat.mod_eq_of_lt; omega
  have hnot : ¬ grp.current_frame_index ≥ grp.num_valid := by omega
  have hs1 : step w 0 = some
      { w with
        groups := w.groups.set gi
          { grp with current_frame_index := grp.current_frame_index + 1 }
        threads := [{ th with pc := Pc.work_exec grp.current_frame_index }]
        trace := w.trace ++ [Ev.claim 0 gi grp.current_frame_index] } := by
    simp only [step, ht, List.getElem?_cons_zero, hpc, WorkDoWork.claim, hgl, hgrp, hwrap, hnot,
      if_false, List.set_cons_zero]
  have hs2 : step
      { w with
        groups := w.groups.set gi
          { grp with current_frame_index := grp.current_frame_index + 1 }
        threads := [{ th with pc := Pc.work_exec grp.current_frame_index }]
        trace := w.trace ++ [Ev.claim 0 gi grp.current_frame_index] } 0 = some
      { w with
        groups := w.groups.set gi
          { grp with
            current_frame_index := grp.current_frame_index + 1
            work_units := grp.work_units.set grp.current_frame_index
              (grp.work_units[grp.current_frame_index].exec).2 }
        threads := [{ th with pc := Pc.work_claim }]
        trace := w.trace ++ [Ev.claim 0 gi grp.current_frame_index,
          Ev.exec 0 gi grp.current_frame_index 0] } := by
    simp only [step, List.getElem?_cons_zero, WorkDoWork.exec, hgl,
      List.getElem?_set_self hgi, hu, hz0, ne_eq, not_true_eq_false, if_false, List.set_set,
      List.set_cons_zero, List.append_assoc, List.singleton_append]
  refine ⟨_, _, hs1, ?_, hs2, ?_, ?_, ?_⟩
  · simp [atFrameStart]
  · simp [atFrameStart]
  · refine ⟨_, List.getElem?_set_self hgi, rfl, rfl, ?_, ?_⟩
    · simpa using hlen
    · intro j u hj1 hj2 hju
      have hne : grp.current_frame_index ≠ j := by omega
      simp only [List.getElem?_set_ne hne] at hju
      exact hz j u (by omega) hj2 hju
  · refine ⟨rfl, ?_, rfl, hp, hn⟩
    simp only [List.cons.injEq, and_true]
    cases th
    simp_all

theorem st_loop {c : PoolThreadCommon} {th : PoolThreadInfo} {gi n : Nat}
    (hpc : th.pc = Pc.work_claim) (hgl : th.g = some gi) (hn32 : n < 2 ^ 32) :
    ∀ (k i : Nat) (w : World) (tr : List Ev), i + k = n →
      OneThread w c th (tr ++ unitTrace 0 gi i) → GroupAt w gi i n →
      ∃ w1, (∀ f, runUntilFrameStart 0 (f + 2 * k) w = runUntilFrameStart 0 f w1) ∧
        GroupAt w1 gi n n ∧ OneThread w1 c th (tr ++ unitTrace 0 gi n)
  | 0, i, w, tr, hik, h, hg => by
    have : i = n := by omega
    subst this
    exact ⟨w, fun f => rfl, hg, h⟩
  | k + 1, i, w, tr, hik, h, hg => by
    obtain ⟨w1, w2, hs1, hn1, hs2, hn2, hg2, h2⟩ := st_unit h hg hpc hgl (by omega) hn32
    have h2' : OneThread w2 c th (tr ++ unitTrace 0 gi (i + 1)) := by
      simpa [unitTrace, List.append_assoc] using h2
    obtain ⟨w3, hrun, hg3, h3⟩ := st_loop hpc hgl hn32 k (i + 1) w2 tr (by omega) h2' hg2
    refine ⟨w3, ?_, hg3, h3⟩
    intro f
    have e : f + 2 * (k + 1) = (f + 2 * k + 1) + 1 := by omega
    rw [e, run_cons hs1 hn1, run_cons hs2 hn2]
    exact hrun f

theorem st_tail {w : World} {c : PoolThreadCommon} {th : PoolThreadInfo} {tr : List Ev}
    {gi n : Nat}
    (h : OneThread w c th tr) (hg : GroupAt w gi n n) (hpc : th.pc = Pc.work_claim)
    (hgl : th.g = some gi) (hex : th.exit = false) (hsub : th.subseq = 0)
    (hexp : th.expected_seq = 0) (hseq : c.seq = 0) (hnum : c.num_threads = 1)
    (hsw : th.next_frame ≤ c.swap_wait.data_) (hnf : th.next_frame + 1 < 2 ^ 64) :
    ∃ w1, runUntilFrameStart 0 8 w = some w1 ∧
      w1.common = { c with seq := 0, seq_wait := c.seq_wait.signal_inc 1,
                           current_work_group := none } ∧
      w1.threads = [{ th with pc := Pc.run, fn := PhaseFn.WorkFrameStart,
                              next_frame := th.next_frame + 1, subseq := 1,
                              expected_seq := 1 }] ∧
      w1.trace = tr ++ [Ev.claim 0 gi n, Ev.arrive 0 0 0 0, Ev.update 0 0, Ev.ret 0 false,
        Ev.end_arrive 0 1 1, Ev.frame_done 0, Ev.ret 0 false] := by
  obtain ⟨rfl, ht, rfl, hp, hn⟩ := h
  obtain ⟨grp, hgrp, hcfi, hnv, hlen, hz⟩ := hg
  have hw : SeqEvent.wait_for w.common.swap_wait th.next_frame = true := by
    simp [SeqEvent.wait_for]; omega
  have hwrap : wrap64 (th.next_frame + 1) = th.next_frame + 1 := by
    unfold wrap64; exact Nat.mod_eq_of_lt hnf
  simp [runUntilFrameStart, step, ht, hpc, WorkDoWork.claim, hgl, hgrp, atFrameStart,
    WorkSyncThreads.arrive, hseq, hexp, WorkSyncThreads.leader_update, Engine.OnWorkDone, hsub,
    wrap32, hn, WorkSyncThreads.leader_signal, WorkSyncThreads.finish, hp, leave, hex, hnum,
    WorkFrameEnd.arrive, WorkFrameEnd.leader_wait, hw, WorkFrameEnd.leader_store,
    WorkFrameEnd.leader_done, WorkFrameEnd.finish, hwrap, hcfi, hnv]

theorem filterMap_unitTrace {β : Type} (f : Ev → Option β) (t gi : Nat)
    (h1 : ∀ i, f (Ev.claim t gi i) = none) (h2 : ∀ i, f (Ev.exec t gi i 0) = none) :
    ∀ n, (unitTrace t gi n).filterMap f = []
  | 0 => rfl
  | n + 1 => by
    simp [unitTrace, List.filterMap_append, filterMap_unitTrace f t gi h1 h2 n, h1, h2]

theorem started_unitTrace (t gi : Nat) : ∀ n, started (unitTrace t gi n) = List.range n
  | 0 => rfl
  | n + 1 => by
    have ih := started_unitTrace t gi n
    unfold started at ih ⊢
    simp [unitTrace, List.filterMap_append, ih, List.range_succ]

theorem frameTrace_facts (gi n : Nat) :
    started (frameTrace gi n) = List.range n ∧ leaders (frameTrace gi n) 0 = [0] ∧
      updates (frameTrace gi n) = [0] ∧ endLeaders (frameTrace gi n) = [0] ∧
      frameDones (frameTrace gi n) = [0] ∧ returns (frameTrace gi n) = [false, false, false] := by
  refine ⟨?_, ?_, ?_, ?_, ?_, ?_⟩
  · have := started_unitTrace 0 gi n
    unfold started at this ⊢
    simp [frameTrace, List.filterMap_append, this]
  · simp [leaders, frameTrace, List.filterMap_append, filterMap_unitTrace]
  · simp [updates, frameTrace, List.filterMap_append, filterMap_unitTrace]
  · simp [endLeaders, frameTrace, List.filterMap_append, filterMap_unitTrace]
  · simp [frameDones, frameTrace, List.filterMap_append, filterMap_unitTrace]
  · simp [returns, frameTrace, List.filterMap_append, filterMap_unitTrace]

/-- C5 (single-threaded frame).  One worker (`num_threads = 1`, `exit` not set) with
the phase program `[WorkDoWork, WorkFrameEnd]`, the current group released at
index 0 with `num_valid < 2 ^ 32` existing units whose `exec` returns 0, `seq = 0`,
`frame_wait` and `swap_wait` at least `next_frame` (below `2 ^ 64 - 1`), and no
further group for `update_fn(0)` to publish.  Running the worker from
`WorkFrameStart` until `fn` is `WorkFrameStart` again succeeds in
`2 * num_valid + 10` steps; `exec` was called on units `0, 1, ..., num_valid - 1` in
that order, once each; the worker was leader of barrier 0 and of the frame end;
`update_fn(0)` and `on_frame_done` were called exactly once; every phase
function returned `false`; `seq` is 0 and `next_frame` went up by one. -/
theorem single_thread_frame (w : World) (th : PoolThreadInfo) (gi : Nat) (grp : PoolWorkGroup)
    (hthreads : w.threads = [th]) (hpc : th.pc = Pc.run)
    (hfn : th.fn = PhaseFn.WorkFrameStart) (hexit : th.exit = false)
    (hnum : w.common.num_threads = 1)
    (hprog : w.g_ThreadSequence = [PhaseFn.WorkDoWork, PhaseFn.WorkFrameEnd])
    (hcur : w.common.current_work_group = some gi) (hgrp : w.groups[gi]? = some grp)
    (hrel : grp.current_frame_index = 0) (hunits : grp.num_valid ≤ grp.work_units.length)
    (hzero : ∀ u ∈ grp.work_units.take grp.num_valid, u.exec.1 = 0)
    (hn32 : grp.num_valid < 2 ^ 32)
    (hfw : th.next_frame ≤ w.common.frame_wait.data_)
    (hsw : th.next_frame ≤ w.common.swap_wait.data_)
    (hseq : w.common.seq = 0) (hnf : th.next_frame + 1 < 2 ^ 64)
    (hlist : w.work_group_list_[1]? = some none) (htrace : w.trace = []) :
    ∃ w1 th1, runUntilFrameStart 0 (2 * grp.num_valid + 10) w = some w1 ∧
      w1.threads = [th1] ∧ th1.pc = Pc.run ∧ th1.fn = PhaseFn.WorkFrameStart ∧
      th1.next_frame = th.next_frame + 1 ∧ w1.common.seq = 0 ∧
      w1.trace = frameTrace gi grp.num_valid ∧
      started w1.trace = List.range grp.num_valid ∧ leaders w1.trace 0 = [0] ∧
      updates w1.trace = [0] ∧ endLeaders w1.trace = [0] ∧ frameDones w1.trace = [0] ∧
      returns w1.trace = [false, false, false] := by
  have h0 : OneThread w w.common th [] := ⟨rfl, hthreads, htrace, hprog, hlist⟩
  obtain ⟨w1, hs1, hg1, hn1, h1⟩ := st_frameStart h0 hpc hfn hexit hfw hnum
  obtain ⟨w2, hs2, hg2, hn2, h2⟩ := st_load h1 hpc rfl
  have hgroup : GroupAt w2 gi 0 grp.num_valid := by
    refine ⟨grp, by rw [hg2, hg1]; exact hgrp, hrel, rfl, hunits, ?_⟩
    intro j u _ hj hju
    apply hzero u
    rw [List.mem_iff_getElem?]
    exact ⟨j, by rw [List.getElem?_take]; simp [hj, hju]⟩
  have h2' : OneThread w2 w.common
      { th with subseq := 0, expected_seq := 0, fn := PhaseFn.WorkDoWork,
                g := w.common.current_work_group, pc := Pc.work_claim }
      ([Ev.ret 0 false] ++ unitTrace 0 gi 0) := by
    simpa [unitTrace] using h2
  obtain ⟨w3, hrun, hg3, h3⟩ := st_loop (c := w.common) rfl hcur hn32 grp.num_valid 0 w2
    [Ev.ret 0 false] (by omega) h2' hgroup
  obtain ⟨w4, hrun4, hc4, ht4, htr4⟩ :=
    st_tail h3 hg3 rfl hcur hexit rfl rfl hseq hnum hsw hnf
  have htrace4 : w4.trace = frameTrace gi grp.num_valid := by
    rw [htr4]; simp [frameTrace]
  have hfacts := frameTrace_facts gi grp.num_valid
  refine ⟨w4, _, ?_, ht4, rfl, rfl, rfl, by rw [hc4], htrace4, ?_⟩
  · have e : 2 * grp.num_valid + 10 = (8 + 2 * grp.num_valid + 1) + 1 := by omega
    rw [e, run_cons hs1 hn1, run_cons hs2 hn2, hrun 8]
    exact hrun4
  · rw [htrace4]; exact hfacts

/-- Witness for C5 with `n = 3`: the frame takes 16 steps and leaves the trace
`frameTrace 0 3`. -/
theorem single_thread_frame_witness :
    ∃ w1 th1, runUntilFrameStart 0 16 frameWorld = some w1 ∧
      w1.threads = [th1] ∧ th1.pc = Pc.run ∧ th1.fn = PhaseFn.WorkFrameStart ∧
      th1.next_frame = 2 ∧ w1.common.seq = 0 ∧
      w1.trace = frameTrace 0 3 ∧
      started w1.trace = [0, 1, 2] ∧ leaders w1.trace 0 = [0] ∧
      updates w1.trace = [0] ∧ endLeaders w1.trace = [0] ∧ frameDones w1.trace = [0] ∧
      returns w1.trace = [false, false, false] :=
  single_thread_frame frameWorld {} 0 { num_valid := 3, guid := 5, work_units := [{}, {}, {}] }
    rfl rfl rfl rfl rfl rfl rfl rfl rfl (by decide) (by decide) (by decide) (by decide)
    (by decide) rfl (by decide) rfl rfl

/-! ## Yield and resume -/

theorem doubleShift_of_lt {n : Nat} (h : n < 2 ^ 53) : doubleShift n 11 0 = 0 := by
  unfold doubleShift
  simp only [Nat.add_zero, h, if_true]

theorem u64ToDouble_exact {n : Nat} (h : n < 2 ^ 53) : u64ToDouble n = n := by
  simp [u64ToDouble, doubleShift_of_lt h, Nat.mod_one]

theorem runSched_append (a b : List Nat) : ∀ w : World,
    runSched w (a ++ b) = (runSched w a).bind (fun w1 => runSched w1 b) := by
  induction a with
  | nil => intro w; rfl
  | cons t a ih =>
    intro w
    simp only [List.cons_append, runSched]
    cases step w t with
    | none => rfl
    | some w1 => exact ih w1

theorem solo_unit {w : World} {th : PoolThreadInfo} {t gi i n : Nat}
    (ht : w.threads[t]? = some th) (hg : GroupAt w gi i n) (hpc : th.pc = Pc.work_claim)
    (hgl : th.g = some gi) (hi : i < n) (hn32 : n < 2 ^ 32) :
    ∃ w2, runSched w [t, t] = some w2 ∧ w2.threads[t]? = some th ∧ GroupAt w2 gi (i + 1) n ∧
      w2.common = w.common ∧
      w2.trace = w.trace ++ [Ev.claim t gi i, Ev.exec t gi i 0] := by
  obtain ⟨grp, hgrp, rfl, rfl, hlen, hz⟩ := hg
  have htl : t < w.threads.length := getElem?_lt_of_some ht
  have hgi : gi < w.groups.length := getElem?_lt_of_some hgrp
  have hil : grp.current_frame_index < grp.work_units.length := by omega
  have hu : grp.work_units[grp.current_frame_index]? =
      some grp.work_units[grp.current_frame_index] := List.getElem?_eq_getElem hil
  have hz0 := hz _ _ (Nat.le_refl _) hi hu
  have hwrap : wrap32 (grp.current_frame_index + 1) = grp.current_frame_index + 1 := by
    unfold wrap32; apply Nat.mod_eq_of_lt; omega
  have hnot : ¬ grp.current_frame_index ≥ grp.num_valid := by omega
  have hth : ({ th with pc := Pc.work_claim, g := some gi } : PoolThreadInfo) = th := by
    cases th; simp_all
  have hrun : runSched w [t, t] = some
      { w with
        groups := w.groups.set gi
          { grp with
            current_frame_index := grp.current_frame_index + 1
            work_units := grp.work_units.set grp.current_frame_index
              (grp.work_units[grp.current_frame_index].exec).2 }
        threads := w.threads.set t th
        trace := w.trace ++ [Ev.claim t gi grp.current_frame_index,
          Ev.exec t gi grp.current_frame_index 0] } := by
    simp only [runSched, step, ht, hpc, WorkDoWork.claim, hgl, hgrp, hwrap, hnot, if_false,
      List.getElem?_set_self htl, WorkDoWork.exec, List.getElem?_set_self hgi, hu, hz0, ne_eq,
      not_true_eq_false, List.set_set, List.append_assoc, List.singleton_append, hth]
  refine ⟨_, hrun, List.getElem?_set_self htl, ?_, rfl, rfl⟩
  refine ⟨_, List.getElem?_set_self hgi, rfl, rfl, ?_, ?_⟩
  · simpa using hlen
  · intro j u hj1 hj2 hju
    have hne : grp.current_frame_index ≠ j := by omega
    simp only [List.getElem?_set_ne hne] at hju
    exact hz j u (by omega) hj2 hju

theorem solo_loop {th : PoolThreadInfo} {t gi n : Nat}
    (hpc : th.pc = Pc.work_claim) (hgl : th.g = some gi) (hn32 : n < 2 ^ 32) :
    ∀ (k i : Nat) (w : World), i + k = n → w.threads[t]? = some th → GroupAt w gi i n →
      ∃ w1, runSched w (List.replicate (2 * k) t) = some w1 ∧ w1.threads[t]? = some th ∧
        GroupAt w1 gi n n ∧ w1.common = w.common ∧
        w1.trace = w.trace ++ unitTraceFrom t gi i k
  | 0, i, w, hik, ht, hg => by
    have : i = n := by omega
    subst this
    exact ⟨w, rfl, ht, hg, rfl, by simp [unitTraceFrom]⟩
  | k + 1, i, w, hik, ht, hg => by
    obtain ⟨w2, hr2, ht2, hg2, hc2, htr2⟩ := solo_unit ht hg hpc hgl (by omega) hn32
    obtain ⟨w3, hr3, ht3, hg3, hc3, htr3⟩ :=
      solo_loop hpc hgl hn32 k (i + 1) w2 (by omega) ht2 hg2
    refine ⟨w3, ?_, ht3, hg3, by rw [hc3, hc2], ?_⟩
    · have e : List.replicate (2 * (k + 1)) t = [t, t] ++ List.replicate (2 * k) t := by
        rw [show 2 * (k + 1) = 2 * k + 1 + 1 by omega]
        simp [List.replicate_succ]
      rw [e, runSched_append, hr2]
      exact hr3
    · rw [htr3, htr2]
      simp [unitTraceFrom]

theorem solo_after {t gi c n : Nat} (w3 : World) (th3 : PoolThreadInfo)
    (ht : w3.threads[t]? = some th3) (hpc : th3.pc = Pc.work_claim) (hgl : th3.g = some gi)
    (hg : GroupAt w3 gi c n) (hc : c ≤ n) (hn32 : n < 2 ^ 32) :
    ∃ w5, runSched w3 (List.replicate (2 * (n - c)) t) = some w5 ∧
      w5.trace = w3.trace ++ unitTraceFrom t gi c (n - c) := by
  obtain ⟨w5, hr, _, _, _, htr⟩ := solo_loop hpc hgl hn32 (n - c) c w3 (by omega) ht hg
  exact ⟨w5, hr, htr⟩

/-- C4 (yield and resume), amended.  Worker `t` has claimed unit `i` of the current
group and calls `exec`, which returns a token `tok ≠ 0` and would return 0 on
the next call.  Then `WorkDoWork` returns `true` at once (no further claim) with
`fn = WorkContinueWork`, `wu` the unit, `event.type` the group's guid and
`event.id` the token converted to `double`, which is the token itself when
`tok < 2 ^ 53`; re-entering calls `exec` on that same unit, which returns 0, so
`WorkContinueWork` returns `false` with `fn = WorkDoWork`; the worker then
reloads the group and its next `fetch_add` claims the group's next index.
Running alone from there, with the remaining units returning 0, it claims and
executes every remaining index up to `num_valid - 1`, in order. -/
theorem yield_and_resume (w : World) (t i gi tok : Nat) (th : PoolThreadInfo)
    (grp : PoolWorkGroup) (wu : PoolWorkUnit)
    (hcur : w.common.current_work_group = some gi)
    (hth : w.threads[t]? = some th) (hpc : th.pc = Pc.work_exec i) (hg : th.g = some gi)
    (hexit : th.exit = false)
    (hgrp : w.groups[gi]? = some grp) (hwu : grp.work_units[i]? = some wu)
    (hfirst : wu.exec.1 = tok) (htok : tok ≠ 0) (hsecond : wu.exec.2.exec.1 = 0) :
    ∃ w1 w2 w3 w4 th1 th2,
      step w t = some w1 ∧ w1.trace = w.trace ++ [Ev.exec t gi i tok, Ev.ret t true] ∧
      w1.threads[t]? = some th1 ∧ th1.pc = Pc.run ∧ th1.fn = PhaseFn.WorkContinueWork ∧
      th1.event = { type := (grp.guid : Int), id := (u64ToDouble tok : Int) } ∧
      (tok < 2 ^ 53 → th1.event.id = (tok : Int)) ∧
      th1.wu = some (gi, i) ∧
      step w1 t = some w2 ∧ w2.trace = w1.trace ++ [Ev.resume t gi i 0, Ev.ret t false] ∧
      w2.threads[t]? = some th2 ∧ th2.pc = Pc.run ∧ th2.fn = PhaseFn.WorkDoWork ∧
      step w2 t = some w3 ∧ w3.trace = w2.trace ∧
      step w3 t = some w4 ∧
      w4.trace = w2.trace ++ [Ev.claim t gi grp.current_frame_index] ∧
      (i < grp.current_frame_index → grp.current_frame_index ≤ grp.num_valid →
        grp.num_valid ≤ grp.work_units.length → grp.num_valid < 2 ^ 32 →
        (∀ u ∈ (grp.work_units.take grp.num_valid).drop grp.current_frame_index,
          u.exec.1 = 0) →
        ∃ w5, runSched w3 (List.replicate (2 * (grp.num_valid - grp.current_frame_index)) t) =
            some w5 ∧
          w5.trace = w2.trace ++
            unitTraceFrom t gi grp.current_frame_index
              (grp.num_valid - grp.current_frame_index)) := by
  have ht : t < w.threads.length := by
    rcases Nat.lt_or_ge t w.threads.length with h1 | h1
    · exact h1
    · rw [List.getElem?_eq_none h1] at hth; cases hth
  have hgi : gi < w.groups.length := by
    rcases Nat.lt_or_ge gi w.groups.length with h1 | h1
    · exact h1
    · rw [List.getElem?_eq_none h1] at hgrp; cases hgrp
  have hi : i < grp.work_units.length := by
    rcases Nat.lt_or_ge i grp.work_units.length with h1 | h1
    · exact h1
    · rw [List.getElem?_eq_none h1] at hwu; cases hwu
  subst hfirst
  refine ⟨?w1, ?w2, ?w3, ?w4, ?th1, ?th2, ?_, ?_, ?_, ?_, ?_, ?_, ?_, ?_, ?_, ?_, ?_, ?_, ?_, ?_, ?_, ?_, ?_, ?_⟩
  case refine_1 =>
    simp only [step, hth, hpc, WorkDoWork.exec, hg, hgrp, hwu, htok, ne_eq, not_false_eq_true,
      if_true, leave, hexit]
    exact rfl
  case refine_3 => exact List.getElem?_set_self ht
  case refine_9 =>
    simp only [step, List.getElem?_set_self ht, WorkContinueWork, List.getElem?_set_self hgi,
      List.getElem?_set_self hi, hsecond, ne_eq, not_true_eq_false, if_false, leave, hexit]
    exact rfl
  case refine_11 =>
    simp only [List.set_set]
    exact List.getElem?_set_self ht
  case refine_14 =>
    simp only [step, List.set_set, List.getElem?_set_self ht, WorkDoWork.load, Bool.false_eq_true,
      if_false]
    exact rfl
  case refine_16 =>
    simp only [step, List.set_set, List.getElem?_set_self ht, WorkDoWork.claim, hcur,
      List.getElem?_set_self hgi]
    exact rfl
  case refine_7 => intro h; simp [u64ToDouble_exact h]
  case refine_18 =>
    intro hi1 hc1 hlen1 hn32 hz
    refine solo_after _ _ (List.getElem?_set_self ht) rfl hcur ?_ hc1 hn32
    refine ⟨_, List.getElem?_set_self hgi, rfl, rfl, by simpa using hlen1, ?_⟩
    intro j u hj1 hj2 hju
    have hne : i ≠ j := by omega
    simp only [List.getElem?_set_ne hne] at hju
    apply hz u
    rw [List.mem_iff_getElem?]
    refine ⟨j - grp.current_frame_index, ?_⟩
    rw [List.getElem?_drop, List.getElem?_take,
      show grp.current_frame_index + (j - grp.current_frame_index) = j by omega, if_pos hj2]
    exact hju
  all_goals first | rfl | simp

/-- Witness for C4: eight units, unit 3 returns 42 then 0; worker 3 suspends with
`event = {17, 42}`, is re-entered, resumes unit 3, and then claims and executes
the remaining indices 4, 5, 6 and 7. -/
theorem yield_and_resume_witness :
    ∃ w1 w2 w3 w4 w5 th1,
      step yieldAt 3 = some w1 ∧ w1.threads[3]? = some th1 ∧
      th1.fn = PhaseFn.WorkContinueWork ∧ th1.event = { type := 17, id := 42 } ∧
      th1.wu = some (0, 3) ∧
      step w1 3 = some w2 ∧ step w2 3 = some w3 ∧ step w3 3 = some w4 ∧
      w4.trace = yieldAt.trace ++
        [Ev.exec 3 0 3 42, Ev.ret 3 true, Ev.resume 3 0 3 0, Ev.ret 3 false, Ev.claim 3 0 4] ∧
      runSched w3 [3, 3, 3, 3, 3, 3, 3, 3] = some w5 ∧
      w5.trace = yieldAt.trace ++
        [Ev.exec 3 0 3 42, Ev.ret 3 true, Ev.resume 3 0 3 0, Ev.ret 3 false,
          Ev.claim 3 0 4, Ev.exec 3 0 4 0, Ev.claim 3 0 5, Ev.exec 3 0 5 0,
          Ev.claim 3 0 6, Ev.exec 3 0 6 0, Ev.claim 3 0 7, Ev.exec 3 0 7 0] := by
  obtain ⟨w1, w2, w3, w4, th1, th2, h1, h2, h3, _, h5, h6, _, h8, h9, h10, _, _, _, h14, _, h16,
      h17, h18⟩ :=
    yield_and_resume yieldAt 3 3 0 42 _ _ _ rfl rfl rfl rfl rfl rfl rfl rfl (by decide) rfl
  have hc : yieldAt.groups[0].current_frame_index = 4 := by decide
  have hn : yieldAt.groups[0].num_valid = 8 := by decide
  obtain ⟨w5, h19, h20⟩ := h18 (by decide) (by decide) (by decide) (by decide) (by decide)
  refine ⟨w1, w2, w3, w4, w5, th1, h1, h3, h5, ?_, h8, h9, h14, h16, ?_, ?_, ?_⟩
  · rw [h6]; decide
  · rw [h17, h10, h2, hc]; simp
  · rw [hc, hn] at h19; exact h19
  · rw [h20, h10, h2, hc, hn]; simp [unitTraceFrom]

/-- Counterexample to C4 as stated: a unit returns the token `2 ^ 53 + 1`;
`WorkDoWork` suspends and leaves `event.id = 2 ^ 53`, not the token. -/
theorem yield_token_rounded :
    ∃ w1 th1, runSched bigTokenWorld [0, 0, 0] = some w1 ∧
      w1.trace = [Ev.claim 0 0 0, Ev.exec 0 0 0 9007199254740993, Ev.ret 0 true] ∧
      w1.threads[0]? = some th1 ∧ th1.fn = PhaseFn.WorkContinueWork ∧
      th1.event.id = 9007199254740992 ∧ th1.event.id ≠ 9007199254740993 := by
  refine ⟨_, _, rfl, ?_, rfl, ?_⟩ <;> decide

/-! ## Promises (`Promise<T>`) -/

/-- C6 (future linearity).  For a promise from `Make` with no runner: whether
`Resolve(v)` comes before or after `Then(fn)`, all that happens is one call
`fn(v, true)` followed by one `delete`; with `ResolveNull` in place of
`Resolve` it is one call `fn(value_, false)`, `value_` default-constructed,
followed by one `delete`. -/
theorem future_linearity {α : Type} [Inhabited α] (v : α) (fn : Nat) :
    (((Promise.Make : Promise α).Resolve v).Then fn).log =
        [PromiseEv.call fn v true, PromiseEv.delete] ∧
    (((Promise.Make : Promise α).Then fn).Resolve v).log =
        [PromiseEv.call fn v true, PromiseEv.delete] ∧
    (((Promise.Make : Promise α).ResolveNull).Then fn).log =
        [PromiseEv.call fn default false, PromiseEv.delete] ∧
    (((Promise.Make : Promise α).Then fn).ResolveNull).log =
        [PromiseEv.call fn default false, PromiseEv.delete] := by
  simp [Promise.Make, Promise.Resolve, Promise.ResolveNull, Promise.Then,
    Promise.PostResolveLocked, Promise.Run]

/-! ## Promisables (`Promisable<T>`) -/

theorem foldl_Then_unresolved (fs : List Nat) :
    ∀ p : Promisable, p.resolved_ = false →
      fs.foldl Promisable.Then p = { p with then_ := p.then_ ++ fs.map (fun f => (none, f)) } := by
  induction fs with
  | nil => intro p _; simp
  | cons f fs ih =>
    intro p hp
    rw [List.foldl_cons, ih (p.Then f) (by simp [Promisable.Then, hp])]
    simp [Promisable.Then, hp]

theorem foldl_fire_none (error : Bool) (fs : List Nat) :
    ∀ p : Promisable,
      (fs.map (fun f => ((none : Option Nat), f))).foldl (Promisable.fire error) p =
        { p with log := p.log ++ fs.map (fun f => PromisableEv.call f (!error)) } := by
  induction fs with
  | nil => intro p; simp
  | cons f fs ih =>
    intro p
    rw [List.map_cons, List.foldl_cons, ih]
    simp [Promisable.fire]

/-- C7 (promisable listeners).  Continuations `fs` are registered with `Then` (no
runner) on a fresh, unresolved promisable.  `Resolved(error)` calls each of
them exactly once, in registration order, with `ok = !error`, and leaves
`then_` empty; a continuation `g` registered afterwards is called at once,
exactly once, with the same flag, and is not stored. -/
theorem promisable_listeners (fs : List Nat) (error : Bool) (g : Nat) :
    ((fs.foldl Promisable.Then {}).Resolved error).log =
        fs.map (fun f => PromisableEv.call f (!error)) ∧
    ((fs.foldl Promisable.Then {}).Resolved error).then_ = [] ∧
    (((fs.foldl Promisable.Then {}).Resolved error).Then g).log =
        fs.map (fun f => PromisableEv.call f (!error)) ++ [PromisableEv.call g (!error)] ∧
    (((fs.foldl Promisable.Then {}).Resolved error).Then g).then_ = [] := by
  rw [foldl_Then_unresolved fs {} rfl]
  simp [Promisable.Resolved, foldl_fire_none, Promisable.Then]

/-! ## The path filter (`SafeVFSImpl::CheckPath`) -/

theorem pathSegments_eq_cons (p : List Char) :
    pathSegments p = (pathSegments p).headD [] :: (pathSegments p).tail := by
  cases p with
  | nil => rfl
  | cons c rest =>
    unfold pathSegments
    split
    · rfl
    · split <;> rfl

theorem pathSegments_sep (c : Char) (rest : List Char) (h : c = '\\' ∨ c = '/') :
    pathSegments (c :: rest) = [] :: pathSegments rest := by
  simp [pathSegments, h]

theorem pathSegments_other (c : Char) (rest : List Char) (h : ¬ (c = '\\' ∨ c = '/')) :
    pathSegments (c :: rest) =
      (c :: (pathSegments rest).headD []) :: (pathSegments rest).tail := by
  rw [pathSegments, if_neg h]
  rw [pathSegments_eq_cons rest]
  rfl

theorem dots_eq_iff (k : Nat) : List.replicate k '.' = ['.', '.'] ↔ k = 2 := by
  constructor
  · intro h
    have := congrArg List.length h
    simpa using this
  · rintro rfl; rfl

theorem dots_other_ne (k : Nat) (c : Char) (l : List Char) (hc : c ≠ '.') :
    List.replicate k '.' ++ c :: l ≠ ['.', '.'] := by
  intro he
  have hmem : c ∈ List.replicate k '.' ++ c :: l := by simp
  rw [he] at hmem
  simp at hmem
  exact hc hmem

theorem wrapInt32_small (x : Int) (h0 : 0 ≤ x) (h1 : x < 2 ^ 31) : wrapInt32 x = x := by
  unfold wrapInt32
  omega

theorem wrapInt32_top : wrapInt32 (2 ^ 31) ≤ 0 := by
  decide

theorem CheckPath_loop_spec : ∀ p : List Char,
    (∀ s : Int, s ≤ 0 →
      (SafeVFSImpl.CheckPath.loop s p = false ↔ ['.', '.'] ∈ (pathSegments p).tail)) ∧
    (∀ k : Nat, k + 1 < 2 ^ 31 →
      (SafeVFSImpl.CheckPath.loop ((k : Int) + 1) p = false ↔
        (List.replicate k '.' ++ (pathSegments p).headD [] = ['.', '.'] ∨
          ['.', '.'] ∈ (pathSegments p).tail)))
  | [] => by
    constructor
    · intro s hs
      simp [SafeVFSImpl.CheckPath.loop, pathSegments]
      omega
    · intro k _
      simp only [SafeVFSImpl.CheckPath.loop, pathSegments, List.headD_cons, List.append_nil,
        List.tail_cons, List.not_mem_nil, or_false, dots_eq_iff]
      simp
      omega
  | c :: rest => by
    obtain ⟨ih0, ihk⟩ := CheckPath_loop_spec rest
    have ih1 := ihk 0 (by norm_num)
    simp only [Nat.cast_zero, zero_add, List.replicate_zero, List.nil_append] at ih1
    have hmem : ['.', '.'] ∈ pathSegments rest ↔
        ((pathSegments rest).headD [] = ['.', '.'] ∨ ['.', '.'] ∈ (pathSegments rest).tail) := by
      conv_lhs => rw [pathSegments_eq_cons rest]
      simp [eq_comm]
    by_cases hsep : c = '\\' ∨ c = '/'
    · -- a separator
      rw [pathSegments_sep c rest hsep]
      constructor
      · intro s hs
        have h3 : s ≠ 3 := by omega
        simp only [SafeVFSImpl.CheckPath.loop, hsep, if_true, h3, if_false, List.tail_cons]
        rw [ih1, hmem]
      · intro k _
        simp only [SafeVFSImpl.CheckPath.loop, hsep, if_true, List.headD_cons, List.append_nil,
          List.tail_cons, dots_eq_iff]
        by_cases hk : k = 2
        · subst hk; simp
        · have h3 : ((k : Int) + 1 = 3) ↔ False := by
            constructor
            · intro h; omega
            · exact False.elim
          simp only [h3, if_false, hk, false_or]
          rw [ih1, hmem]
    · rw [pathSegments_other c rest hsep]
      by_cases hdot : c = '.'
      · -- a dot
        subst hdot
        constructor
        · intro s hs
          have hpos : ¬ s > 0 := by omega
          simp only [SafeVFSImpl.CheckPath.loop, hsep, if_false, if_true, hpos, List.tail_cons]
          exact ih0 s hs
        · intro k hk
          have hpos : (k : Int) + 1 > 0 := by omega
          simp only [SafeVFSImpl.CheckPath.loop, hsep, if_false, if_true, hpos, List.headD_cons,
            List.tail_cons]
          by_cases htop : k + 2 < 2 ^ 31
          · rw [wrapInt32_small _ (by omega) (by omega)]
            have := ihk (k + 1) htop
            simp only [Nat.cast_add, Nat.cast_one] at this
            rw [this, List.replicate_succ', List.append_assoc]
            rfl
          · have hk2 : (k : Int) + 1 + 1 = 2 ^ 31 := by omega
            rw [hk2, ih0 _ wrapInt32_top]
            have hne : List.replicate k '.' ++ '.' :: (pathSegments rest).headD [] ≠ ['.', '.'] := by
              intro he
              have := congrArg List.length he
              simp at this
              omega
            constructor
            · intro h; exact Or.inr h
            · rintro (h | h)
              · exact absurd h hne
              · exact h
      · -- any other character
        constructor
        · intro s _
          simp only [SafeVFSImpl.CheckPath.loop, hsep, if_false, hdot, List.tail_cons]
          exact ih0 0 (le_refl _)
        · intro k _
          simp only [SafeVFSImpl.CheckPath.loop, hsep, if_false, hdot, List.headD_cons,
            List.tail_cons]
          rw [ih0 0 (le_refl _)]
          simp [dots_other_ne k c _ hdot]

theorem CheckPath_eq_false_iff (p : List Char) :
    SafeVFSImpl.CheckPath p = false ↔ hasDotDotSegment p := by
  have h := (CheckPath_loop_spec p).2 0 (by norm_num)
  simp only [Nat.cast_zero, zero_add, List.replicate_zero, List.nil_append] at h
  unfold SafeVFSImpl.CheckPath hasDotDotSegment
  rw [h]
  conv_rhs => rw [pathSegments_eq_cons p]
  simp [eq_comm]

/-- C8 (path filter).  `CheckPath(p)` returns `false` exactly when `p`, split at
every `/` and `\`, has a segment that is exactly `..`.  A path of `.` segments,
segments of three or more dots and segments with `..` next to another
character is accepted; `..` as a middle or last segment is rejected. -/
theorem path_filter :
    (∀ p : List Char, SafeVFSImpl.CheckPath p = false ↔ hasDotDotSegment p) ∧
    SafeVFSImpl.CheckPath "./a/.../..b/c../d..e/....".toList = true ∧
    SafeVFSImpl.CheckPath "a/../b".toList = false ∧
    SafeVFSImpl.CheckPath "a\\..".toList = false :=
  ⟨CheckPath_eq_false_iff, by decide, by decide, by decide⟩

/-! ## Traversal through the split VFS -/

/-- C9 (traversal rejection).  When `Lookup` resolves `path` to a root backed by a
`SafeVFSImpl` and the remainder `rest` after the root has a `..` segment,
`SafeVFSSplit::OpenFile` returns null and the operating system's `OpenFile` is
not invoked. -/
theorem traversal_rejected (osOpen : List Char → Nat → Nat → Option Nat) (s : SafeVFSSplit)
    (path : List Char) (flags mode : Nat) (real : VFSImpl) (root rest : List Char)
    (hl : s.Lookup path = (VFSImpl.safe real root, rest)) (hdd : hasDotDotSegment rest) :
    s.OpenFile osOpen path flags mode = { file := none, os_calls := [] } := by
  have hc : SafeVFSImpl.CheckPath rest = false := (CheckPath_eq_false_iff rest).2 hdd
  simp [SafeVFSSplit.OpenFile, hl, VFSImpl.OpenFile, hc]

/-- Witness for C9: `/save/../etc/passwd` on a split VFS whose `/save` root is a
`SafeVFSImpl`, with an operating system that would open anything. -/
theorem traversal_rejected_witness :
    saveSplit.Lookup "/save/../etc/passwd".toList =
        (VFSImpl.safe VFSImpl.os "C:/Users/u/AppData/Local/app/".toList,
          "../etc/passwd".toList) ∧
    hasDotDotSegment "../etc/passwd".toList ∧
    saveSplit.OpenFile openAnything "/save/../etc/passwd".toList 1 0 =
        { file := none, os_calls := [] } :=
  ⟨by decide, by decide,
    traversal_rejected openAnything saveSplit "/save/../etc/passwd".toList 1 0 VFSImpl.os
      "C:/Users/u/AppData/Local/app/".toList "../etc/passwd".toList (by decide) (by decide)⟩

/-! ## The host event queue -/

theorem postAll_pending (posts : List PostArgs) :
    ∀ q : EventQueue, (postAll q posts).g_pendingEvents =
      q.g_pendingEvents ++ posts.map PostArgs.event := by
  induction posts with
  | nil => intro q; simp [postAll]
  | cons a rest ih =>
    intro q
    rw [postAll, ih]
    simp [PostEvent, PostArgs.event]

/-- C10 (event batch handoff).  With `g_pendingEvents` empty (as the previous pop
left it), `n ≥ 1` calls of `PostEvent` (`n < 2 ^ 32`, the range of `valid`)
followed by `LunePopEvents()`: the call returns, the view has `valid = n` and
holds exactly the posted events in posting order, each with its type, flags 0
and its five arguments, and `g_pendingEvents` is empty again. -/
theorem event_batch_handoff (q : EventQueue) (posts : List PostArgs)
    (hq : q.g_pendingEvents = []) (hne : posts ≠ []) (hlen : posts.length < 2 ^ 32) :
    ∃ q1, LunePopEvents (postAll q posts) = some q1 ∧
      q1.g_eventList.valid = posts.length ∧
      q1.g_eventList.ev = posts.map PostArgs.event ∧
      q1.g_currentEvents = posts.map PostArgs.event ∧
      q1.g_pendingEvents = [] ∧
      (∀ a ∈ posts, a.event.type = a.ev ∧ a.event.arg = [a.a0, a.a1, a.a2, a.a3, a.a4]) := by
  have hp := postAll_pending posts q
  rw [hq, List.nil_append] at hp
  have hne2 : (postAll q posts).g_pendingEvents.isEmpty = false := by
    rw [hp]; cases posts with
    | nil => exact absurd rfl hne
    | cons a rest => rfl
  refine ⟨_, by simp only [LunePopEvents, hne2, Bool.false_eq_true, if_false]; exact rfl,
    ?_, ?_, ?_, ?_, ?_⟩
  · simp only [hp, wrap32, List.length_map]; exact Nat.mod_eq_of_lt hlen
  · simp [hp]
  · simp [hp]
  · rfl
  · intro a _; exact ⟨rfl, rfl⟩

/-- Witness for C10: two events posted to the initial queue. -/
theorem event_batch_handoff_witness :
    ∃ q1, LunePopEvents (postAll {} twoPosts) = some q1 ∧
      q1.g_eventList.valid = 2 ∧
      q1.g_eventList.ev = twoPosts.map PostArgs.event ∧
      q1.g_currentEvents = twoPosts.map PostArgs.event ∧
      q1.g_pendingEvents = [] ∧
      (∀ a ∈ twoPosts, a.event.type = a.ev ∧ a.event.arg = [a.a0, a.a1, a.a2, a.a3, a.a4]) :=
  event_batch_handoff {} twoPosts rfl (by decide) (by decide)

/-! ## The coalesced channel event -/

theorem getLast?_append_singleton {α : Type} (l : List α) (a : α) :
    (l ++ [a]).getLast? = some a := by
  simp

/-- C11 (PendingChannelMessages coalescing): for every state of the event queue,
`PostPendingMessage()` leaves the pending queue as it is when its last event already
is a `PendingChannelMessages` event, and otherwise (the queue is empty or ends in
another event) appends exactly one `PendingChannelMessages` event with five zero
arguments; it posts a halt exactly when the pending queue was empty, touches nothing
else, and calling it a second time changes nothing. -/
theorem pending_message_coalesced (q : EventQueue) :
    (PostPendingMessage q).g_pendingEvents =
        (if q.g_pendingEvents.getLast?.map LuaEvent.type =
            some LuneToLuaEv.PendingChannelMessages then q.g_pendingEvents
         else q.g_pendingEvents ++
            [LuaEvent.new LuneToLuaEv.PendingChannelMessages ⟨0⟩ ⟨0⟩ ⟨0⟩ ⟨0⟩ ⟨0⟩]) ∧
      (PostPendingMessage q).halts =
        (if q.g_pendingEvents = [] then q.halts + 1 else q.halts) ∧
      (PostPendingMessage q).g_currentEvents = q.g_currentEvents ∧
      (PostPendingMessage q).g_eventList = q.g_eventList ∧
      PostPendingMessage (PostPendingMessage q) = PostPendingMessage q := by
  rcases q with ⟨p, c, e, h⟩
  cases p with
  | nil => simp [PostPendingMessage, LuaEvent.new]
  | cons a l =>
    by_cases hl : ((a :: l).getLast?.map LuaEvent.type) =
        some LuneToLuaEv.PendingChannelMessages
    · simp [PostPendingMessage, hl]
    · have hlast : (a :: (l ++ [LuaEvent.new LuneToLuaEv.PendingChannelMessages
          ⟨0⟩ ⟨0⟩ ⟨0⟩ ⟨0⟩ ⟨0⟩])).getLast? =
          some (LuaEvent.new LuneToLuaEv.PendingChannelMessages ⟨0⟩ ⟨0⟩ ⟨0⟩ ⟨0⟩ ⟨0⟩) := by
        rw [← List.cons_append]
        exact getLast?_append_singleton _ _
      simp [PostPendingMessage, hl, hlast]
      simp [LuaEvent.new]

/-! ## Completion of an `AsyncOp` -/

/-- C12 (completion routing): for every op and heap, `Complete()` does exactly one of
three things, seen as what it appends to the log: with no completion function it
releases the op; with a completion and a runner it posts to that runner one task
binding `completion(completion_context, op)`; with a completion and no runner it
calls `completion(completion_context, op)` at once on the current thread (the
one-shot completion then signals its event). It allocates nothing.
`Complete(n)` is `Complete()` on the op with `err = 0` and `transferred = n`, and
`CompleteErr(e)` is `Complete()` on the op with `transferred = 0` and `err = e`. -/
theorem completion_routing (s : AioState) (op : AsyncOp) (n : Nat) (e : Int) :
    (AsyncOp.Complete s op).log = s.log ++
        (match op.completion, op.runner with
         | none, _ => [AioEv.release op.id]
         | some f, some r => [AioEv.post r f op.completion_context op.id]
         | some f, none =>
           AioEv.call f op.completion_context op.id ::
             (if f = Completion.signalOneshot then [AioEv.signal op.completion_context]
              else [])) ∧
      (AsyncOp.Complete s op).allocated = s.allocated ∧
      (AsyncOp.CompleteN s op n).1 = { op with err := 0, transferred := n } ∧
      (AsyncOp.CompleteN s op n).2 = AsyncOp.Complete s { op with err := 0, transferred := n } ∧
      (AsyncOp.CompleteErr s op e).1 = { op with err := e, transferred := 0 } ∧
      (AsyncOp.CompleteErr s op e).2 =
        AsyncOp.Complete s { op with err := e, transferred := 0 } := by
  refine ⟨?_, ?_, rfl, rfl, rfl, rfl⟩
  · unfold AsyncOp.Complete
    cases hc : op.completion with
    | none => simp [AsyncOp.Release]
    | some f =>
      cases hr : op.runner with
      | some r => simp
      | none =>
        cases f <;> simp [Completion.invoke]
        split <;> simp
  · unfold AsyncOp.Complete
    cases hc : op.completion with
    | none => simp [AsyncOp.Release]
    | some f =>
      cases hr : op.runner with
      | some r => simp
      | none =>
        cases f <;> simp [Completion.invoke]
        split <;> simp

/-! ## The lifetime of the op of a blob read -/

/-- C13 (op lifetime), evaluated at the failing input: `ReadToFutureBlob(0, 0)` on a
file of 16 bytes allocates one op; when the read completes (from the completion
port, or at once with an error) the completion of the op resolves the blob, and the
op is never released: the log has no release, where the synchronous `ReadAbs` on the
same file releases its op exactly once. -/
theorem blob_read_op_leaked :
    blobReadPending.map (fun r => r.2.log) =
        some [AioEv.alloc 0, AioEv.addRef 7, AioEv.call Completion.resolveBlob 0 0,
          AioEv.unref 7] ∧
      blobReadPending.map (fun r => r.2.blobs[r.1]?.map (·.resolved_)) = some (some true) ∧
      blobReadPending.map (fun r => (r.2.allocs, r.2.releases)) = some ([0], []) ∧
      blobReadFailed.map (fun r => r.2.blobs[r.1]?.map (·.resolved_)) = some (some true) ∧
      blobReadFailed.map (fun r => (r.2.allocs, r.2.releases)) = some ([0], []) ∧
      syncRead.map (fun r => (r.2.allocs, r.2.releases)) = some ([0], [0]) := by
  decide

/-! ## The contents of a blob -/

theorem foldl_apply_contents (ops : List BlobOp) :
    ∀ b : Blob, (∀ op ∈ ops, op.isSetter = false) →
      (ops.foldl BlobOp.apply b).GetContents = b.GetContents := by
  induction ops with
  | nil => intro b _; rfl
  | cons op ops ih =>
    intro b h
    rw [List.foldl_cons, ih _ (fun o ho => h o (List.mem_cons_of_mem _ ho))]
    have hop := h op (List.mem_cons_self _ _)
    cases op <;> first | rfl | simp [BlobOp.isSetter] at hop

/-- C14 (blob immutability after resolution) fails: a `DynamicBlob` resolved by
`Set(1000, 4)` has the contents `(1000, 4)`, and a second `Set(2000, 8)` on the
resolved blob makes `GetContents()` return `(2000, 8)`. -/
theorem blob_contents_overwritten :
    (Blob.DynamicBlob.Set 1000 4 false).resolved_ = true ∧
      (Blob.DynamicBlob.Set 1000 4 false).GetContents = (1000, 4) ∧
      (BlobOp.apply (Blob.DynamicBlob.Set 1000 4 false) (BlobOp.Set 2000 8 false)).GetContents =
        (2000, 8) := by
  decide

/-- C14, amended: the `(pointer, size)` pair of a blob is changed only by the setters
of `DynamicBlob`. After every sequence of operations with no setter in it (`Then`,
`Resolved`, `GetContents`), `GetContents()` returns the pair it returned before, be
the blob resolved or not; and after a setter it returns the pair of that setter
(`Set`: the pointer given; `Copy` and the string forms: the copy) until the next
one. -/
theorem blob_contents_stable (b : Blob) (ops : List BlobOp)
    (h : ∀ op ∈ ops, op.isSetter = false) :
    (ops.foldl BlobOp.apply b).GetContents = b.GetContents ∧
      ∀ p sz err q,
        (ops.foldl BlobOp.apply (b.Set p sz err)).GetContents = (p, sz) ∧
        (ops.foldl BlobOp.apply (b.Copy p sz err q)).GetContents = (q, sz) ∧
        (ops.foldl BlobOp.apply (b.SetString sz err q)).GetContents = (q, sz) := by
  refine ⟨foldl_apply_contents ops b h, fun p sz err q => ⟨?_, ?_, ?_⟩⟩ <;>
    rw [foldl_apply_contents ops _ h] <;> rfl

/-- Witness of C14: an `OwnedMemoryBlob` after `Then`, `GetContents`, `Then` on a
runner. -/
theorem blob_contents_stable_witness :
    (∀ op ∈ [BlobOp.Then 1, BlobOp.GetContents, BlobOp.ThenOn 2 3], op.isSetter = false) ∧
      ([BlobOp.Then 1, BlobOp.GetContents, BlobOp.ThenOn 2 3].foldl BlobOp.apply
        (Blob.OwnedMemoryBlob 1000 4)).GetContents = (1000, 4) :=
  ⟨by decide, (blob_contents_stable (Blob.OwnedMemoryBlob 1000 4)
    [BlobOp.Then 1, BlobOp.GetContents, BlobOp.ThenOn 2 3] (by decide)).1⟩

/-! ## The cursors of an `IoBuffer` -/

/-- C15 (cursor ordering) fails: on the buffer `rd = wr = 0`, `end = 4` the call
`Read(1)` leaves `rd = 1 > wr = 0`, and on the buffer `rd = 0`, `wr = end = 4` the
call `Write(1)` leaves `wr = 5 > end = 4`. -/
theorem cursor_overrun :
    IoBuffer.Valid ⟨0, 0, 0, 4⟩ ∧
      ¬ (IoBufferOp.apply ⟨0, 0, 0, 4⟩ (IoBufferOp.Read 1)).Valid ∧
      IoBuffer.Valid ⟨0, 0, 4, 4⟩ ∧
      ¬ (IoBufferOp.apply ⟨0, 0, 4, 4⟩ (IoBufferOp.Write 1)).Valid := by
  decide

/-- C15, amended: on a buffer with `rd ≤ wr ≤ end`, every operation whose argument
stays inside the buffer (`Read(n)` with `n ≤ wr - rd`, `Write(n)` with
`n ≤ end - wr`; `Reset`, `AllocRead`, `AllocWrite`, `FillReadArea` and
`GetValidArea` with any argument) leaves `rd ≤ wr ≤ end`. -/
theorem cursor_ordering (b : IoBuffer) (op : IoBufferOp) (hv : b.Valid)
    (hr : op.inRange b) : (op.apply b).Valid := by
  obtain ⟨h1, h2, h3⟩ := hv
  cases op with
  | Read n =>
    have hn : n ≤ b.wr - b.rd := hr
    have : wrap32 (b.rd + n) = b.rd + n := Nat.mod_eq_of_lt (by omega)
    simp only [IoBufferOp.apply, IoBuffer.Read, IoBuffer.Valid, this]
    omega
  | Write n =>
    have hn : n ≤ b.end_ - b.wr := hr
    have : wrap32 (b.wr + n) = b.wr + n := Nat.mod_eq_of_lt (by omega)
    simp only [IoBufferOp.apply, IoBuffer.Write, IoBuffer.Valid, this]
    omega
  | Reset =>
    simp only [IoBufferOp.apply, IoBuffer.Reset, IoBuffer.Valid]
    omega
  | AllocRead _ => exact ⟨h1, h2, h3⟩
  | AllocWrite _ => exact ⟨h1, h2, h3⟩
  | FillReadArea => exact ⟨h1, h2, h3⟩
  | GetValidArea => exact ⟨h1, h2, h3⟩

/-- Witness of C15: `Read(2)` on the buffer `rd = 1`, `wr = 3`, `end = 8`. -/
theorem cursor_ordering_witness :
    IoBuffer.Valid ⟨0, 1, 3, 8⟩ ∧ (IoBufferOp.Read 2).inRange ⟨0, 1, 3, 8⟩ ∧
      (IoBufferOp.apply ⟨0, 1, 3, 8⟩ (IoBufferOp.Read 2)).Valid ∧
      (IoBufferOp.apply ⟨0, 1, 3, 8⟩ (IoBufferOp.Read 2)) = ⟨0, 3, 3, 8⟩ :=
  ⟨by decide, by decide, cursor_ordering ⟨0, 1, 3, 8⟩ (IoBufferOp.Read 2) (by decide) (by decide),
    by decide⟩

/-- C16 (alloc calls are non-mutating and bounded): on a buffer with
`rd ≤ wr ≤ end`, `AllocRead(data, req, bytes)` returns false exactly when
`rd = wr`, and otherwise yields `*data = ptr + rd` and
`*bytes = min(req, wr - rd)`; `AllocWrite` returns false exactly when `end = wr`,
and otherwise yields `ptr + wr` and `min(req, end - wr)`; both leave the buffer
unchanged. -/
theorem alloc_calls (b : IoBuffer) (req : Nat) (hv : b.Valid) :
    b.AllocRead req =
        (if b.rd = b.wr then none else some (b.ptr + b.rd, min req (b.wr - b.rd))) ∧
      b.AllocWrite req =
        (if b.end_ = b.wr then none else some (b.ptr + b.wr, min req (b.end_ - b.wr))) ∧
      IoBufferOp.apply b (IoBufferOp.AllocRead req) = b ∧
      IoBufferOp.apply b (IoBufferOp.AllocWrite req) = b := by
  obtain ⟨h1, h2, h3⟩ := hv
  have e1 : wrap32 (b.wr + 2 ^ 32 - b.rd) = b.wr - b.rd := by
    unfold wrap32
    omega
  have e2 : wrap32 (b.end_ + 2 ^ 32 - b.wr) = b.end_ - b.wr := by
    unfold wrap32
    omega
  refine ⟨?_, ?_, rfl, rfl⟩
  · unfold IoBuffer.AllocRead
    split
    · rfl
    · simp only [e1, gt_iff_lt]
      congr 2
      split <;> omega
  · unfold IoBuffer.AllocWrite
    split
    · rfl
    · simp only [e2, gt_iff_lt]
      congr 2
      split <;> omega

/-- Witness of C16: the buffer at 100 with `rd = 2`, `wr = 7`, `end = 16`. -/
theorem alloc_calls_witness :
    IoBuffer.Valid ⟨100, 2, 7, 16⟩ ∧
      IoBuffer.AllocRead ⟨100, 2, 7, 16⟩ 3 = some (102, 3) ∧
      IoBuffer.AllocWrite ⟨100, 2, 7, 16⟩ 0xFFFFFFFF = some (107, 9) := by
  have h := alloc_calls ⟨100, 2, 7, 16⟩ 3 (by decide)
  have h2 := alloc_calls ⟨100, 2, 7, 16⟩ 0xFFFFFFFF (by decide)
  exact ⟨by decide, h.1.trans (by decide), h2.2.1.trans (by decide)⟩

/-- C17 (fill then drain returns to empty): if `rd = wr`, then after `Write(n)`
followed by `Read(n)` the cursors are equal again, and the read left `wr` and `end`
as the write had set them; `Reset()` makes the cursors equal. -/
theorem fill_then_drain (b : IoBuffer) (n : Nat) (h : b.rd = b.wr) :
    ((b.Write n).Read n).rd = ((b.Write n).Read n).wr ∧
      ((b.Write n).Read n).wr = (b.Write n).wr ∧
      ((b.Write n).Read n).end_ = b.end_ ∧
      b.Reset.rd = b.Reset.wr := by
  simp [IoBuffer.Write, IoBuffer.Read, IoBuffer.Reset, h]

/-- Witness of C17: five bytes through an empty buffer of eight. -/
theorem fill_then_drain_witness :
    ((IoBuffer.Write ⟨0, 0, 0, 8⟩ 5).Read 5).rd = 5 ∧
      ((IoBuffer.Write ⟨0, 0, 0, 8⟩ 5).Read 5).wr = 5 := by
  have h := fill_then_drain ⟨0, 0, 0, 8⟩ 5 rfl
  exact ⟨h.1.trans (by decide), by decide⟩

/-! ## Lua channels -/

/-- C18 (channel FIFO order), evaluated at the failing input: after `chan_push` of
"a" and then "b" on a new channel, `chan_peek_str` returns "a"; after `chan_read` it
still returns "a" (not "b") and `chan_get_count` is still 2: `chan_read` never
removes a message, for any channel. -/
theorem read_keeps_front_message :
    chan_peek_str twoMessages = some [97] ∧
      chan_peek_str (chan_read twoMessages) = some [97] ∧
      chan_peek_sz (chan_read twoMessages) = some 1 ∧
      chan_get_count twoMessages = 2 ∧
      chan_get_count (chan_read twoMessages) = 2 ∧
      ∀ c : LuaChannel, (chan_read c).messages = c.messages := by
  refine ⟨by decide, by decide, by decide, by decide, by decide, fun c => rfl⟩

theorem wait_direct_true (b : Bool) : CondVarImpl.wait_direct b = true := by
  cases b <;> decide

theorem quiet_messages (ops : List ChanOp) :
    ∀ c : LuaChannel, pushes ops = 0 → c.messages = [] →
      (ops.foldl ChanOp.apply c).messages = [] := by
  induction ops with
  | nil => intro c _ h; exact h
  | cons op ops ih =>
    intro c hp hc
    cases op with
    | push v l => simp [pushes, ChanOp.isPush] at hp
    | read =>
      have hp2 : pushes ops = 0 := by simpa [pushes, ChanOp.isPush] using hp
      exact ih _ hp2 hc
    | clear =>
      have hp2 : pushes ops = 0 := by simpa [pushes, ChanOp.isPush] using hp
      exact ih _ hp2 rfl

theorem demand_loop_waiting (target : Nat) (ticks : List WaitTick) :
    ∀ c : LuaChannel, c.messages = [] → (∀ t ∈ ticks, pushes t.during = 0) →
      chan_demand.loop target c ticks =
        { result := none, waits := ticks.map fun t => chan_wait_ms target t.now } := by
  induction ticks with
  | nil =>
    intro c hc _
    simp [chan_demand.loop, hc]
  | cons t ticks ih =>
    intro c hc h
    have hrest := ih (t.during.foldl ChanOp.apply c)
      (quiet_messages _ _ (h t (List.mem_cons_self _ _)) hc)
      (fun u hu => h u (List.mem_cons_of_mem _ hu))
    rw [chan_demand.loop]
    simp only [hc, List.isEmpty_nil, Bool.not_true, Bool.false_eq_true, if_false,
      wait_direct_true, if_true, hrest, List.map_cons]

theorem toUInt64?_natCast (n : Nat) (h : n < 2 ^ 64) : toUInt64? (n : ℚ) = some n := by
  unfold toUInt64?
  have h1 : (-1 : ℚ) < (n : ℚ) := by
    have : (0 : ℚ) ≤ (n : ℚ) := Nat.cast_nonneg n
    linarith
  have h2 : (n : ℚ) < 2 ^ 64 := by exact_mod_cast h
  rw [if_pos ⟨h1, h2⟩, Int.floor_natCast, Int.toNat_ofNat]

theorem chan_target_one : chan_target 0 (DoubleVal.num 1) = some 1000 := by
  have h : ((1 : ℚ) * 1000) = ((1000 : Nat) : ℚ) := by norm_num
  simp only [chan_target, h, toUInt64?_natCast 1000 (by norm_num), Option.map_some']
  rfl

theorem chan_target_half : chan_target 0 (DoubleVal.num (1 / 2)) = some 500 := by
  have h : ((1 / 2 : ℚ) * 1000) = ((500 : Nat) : ℚ) := by norm_num
  simp only [chan_target, h, toUInt64?_natCast 500 (by norm_num), Option.map_some']
  rfl

theorem isZero_one : DoubleVal.isZero (DoubleVal.num 1) = false := by
  simp [DoubleVal.isZero]

/-- C20 (channel timeouts), evaluated at the failing input: `wait_direct` returns
`SleepConditionVariableCS(...) != ERROR_TIMEOUT`, the comparison of a `BOOL` with
1460, which is true whether the wait was notified or timed out. So
`chan_demand(c, 1)` on an empty channel that stays empty, with the clock at 0, never
returns false: however many waits time out, it is still in its loop. Its deadline is
1000 microseconds (not 1,000,000) and its first wait is 1 millisecond (not 1000); for
the timeout 0.5 they are 500 microseconds and 0 milliseconds. `chan_push` with the
timeout 1 behind an unread message is given the same 1 millisecond and does not
return either when its waits time out. -/
theorem demand_never_times_out :
    (∀ woken : Bool, CondVarImpl.wait_direct woken = true) ∧
      (∀ nows : List Nat,
        chan_demand {} (DoubleVal.num 1) 0 (nows.map fun n => { now := n, woken := false }) =
          some { result := none, waits := nows.map (chan_wait_ms 1000) }) ∧
      chan_target 0 (DoubleVal.num 1) = some 1000 ∧
      chan_wait_ms 1000 0 = 1 ∧
      chan_target 0 (DoubleVal.num (1 / 2)) = some 500 ∧
      chan_wait_ms 500 0 = 0 ∧
      (chan_push { wr := 1, messages := [⟨[97], 1⟩] } {} [98] 1 (DoubleVal.num 1) 0
          [{ now := 0, woken := false }, { now := 5000, woken := false }]).map
        (fun r => (r.id, r.waits)) = some (none, [1, chan_wait_ms 1000 5000]) := by
  refine ⟨wait_direct_true, fun nows => ?_, chan_target_one, by decide, chan_target_half,
    by decide, ?_⟩
  · simp only [chan_demand, isZero_one, Bool.false_eq_true, if_false, chan_target_one,
      Option.map_some']
    rw [demand_loop_waiting 1000 _ {} rfl (by simp [pushes])]
    simp [List.map_map, Function.comp]
  · simp only [chan_push, isZero_one, Bool.false_eq_true, if_false, chan_target_one,
      Option.map_some']
    decide

/-! ## The sequence event -/

/-- C21 (`SeqEvent` is monotonic) fails for `signal_at`: on an event of value 5,
`signal_at(3)` leaves the value 3, and `wait_for(4)`, which returned at once before,
blocks afterwards; `signal_inc(1)` on the value `2 ^ 64 - 1` wraps to 0. -/
theorem signal_at_goes_back :
    (SeqEvent.signal_at ⟨5⟩ 3).data_ = 3 ∧
      SeqEvent.wait_for ⟨5⟩ 4 = true ∧
      SeqEvent.wait_for (SeqEvent.signal_at ⟨5⟩ 3) 4 = false ∧
      (SeqEvent.signal_inc ⟨2 ^ 64 - 1⟩ 1).data_ = 0 := by
  decide

/-- C21, amended: `signal_at(seq)` stores `seq`, so the value does not decrease
exactly when `seq` is at least the current value; `signal_inc(delta)` adds `delta`,
and the value does not decrease as long as the sum stays below `2 ^ 64`. After such
a signal a `wait_for(s)` that would return at once still returns at once. -/
theorem seq_event_monotonic (e : SeqEvent) (seq delta s : Nat) (hseq : e.data_ ≤ seq)
    (hs64 : seq < 2 ^ 64) (hinc : e.data_ + delta < 2 ^ 64) (hw : e.wait_for s = true) :
    (e.signal_at seq).data_ = seq ∧
      e.data_ ≤ (e.signal_at seq).data_ ∧
      (e.signal_inc delta).data_ = e.data_ + delta ∧
      e.data_ ≤ (e.signal_inc delta).data_ ∧
      (e.signal_at seq).wait_for s = true ∧
      (e.signal_inc delta).wait_for s = true := by
  have h1 : (e.signal_at seq).data_ = seq := Nat.mod_eq_of_lt hs64
  have h2 : (e.signal_inc delta).data_ = e.data_ + delta := Nat.mod_eq_of_lt hinc
  have hs : s ≤ e.data_ := by
    simpa [SeqEvent.wait_for] using hw
  refine ⟨h1, by omega, h2, by omega, ?_, ?_⟩
  · simp only [SeqEvent.wait_for, h1, Bool.not_eq_true', decide_eq_false_iff_not, not_lt]
    omega
  · simp only [SeqEvent.wait_for, h2, Bool.not_eq_true', decide_eq_false_iff_not, not_lt]
    omega

/-- Witness of C21: the value 5, `signal_at(7)` and `signal_inc(2)`, `wait_for(4)`. -/
theorem seq_event_monotonic_witness :
    (SeqEvent.signal_at ⟨5⟩ 7).wait_for 4 = true ∧ (SeqEvent.signal_inc ⟨5⟩ 2).data_ = 7 := by
  have h := seq_event_monotonic ⟨5⟩ 7 2 4 (by decide) (by decide) (by decide) (by decide)
  exact ⟨h.2.2.2.2.1, h.2.2.1⟩

/-! ## The frame counter of a worker -/

theorem frameStep_mk {w w1 : World} {t : Nat} {th : PoolThreadInfo} (th1 : PoolThreadInfo)
    (evs : List Ev) (hlt : t < w.threads.length)
    (hthreads : w1.threads = w.threads.set t th1) (htrace : w1.trace = w.trace ++ evs)
    (hother : ∀ u, u ≠ t → evs.countP (Ev.endsFrame u) = 0)
    (hself : (evs.countP (Ev.endsFrame t) = 0 ∧ th1.next_frame = th.next_frame) ∨
      (evs.countP (Ev.endsFrame t) = 1 ∧ th1.next_frame = wrap64 (th.next_frame + 1))) :
    FrameStep w w1 t th := by
  refine ⟨fun u hu => ⟨?_, ?_⟩, th1, ?_, ?_⟩
  · rw [hthreads, List.getElem?_set_ne (Ne.symm hu)]
  · rw [frameEnds, htrace, List.countP_append, hother u hu]; rfl
  · rw [hthreads, List.getElem?_set_self hlt]
  · rcases hself with ⟨h1, h2⟩ | ⟨h1, h2⟩
    · left; exact ⟨by rw [frameEnds, htrace, List.countP_append, h1]; rfl, h2⟩
    · right; exact ⟨by rw [frameEnds, htrace, List.countP_append, h1]; rfl, h2⟩

theorem frameStep_mk2 {w w1 : World} {t : Nat} {th : PoolThreadInfo} (th1 : PoolThreadInfo)
    (evs1 evs2 : List Ev) (hlt : t < w.threads.length)
    (hthreads : w1.threads = w.threads.set t th1)
    (htrace : w1.trace = w.trace ++ evs1 ++ evs2)
    (hother : ∀ u, u ≠ t → (evs1 ++ evs2).countP (Ev.endsFrame u) = 0)
    (hself : ((evs1 ++ evs2).countP (Ev.endsFrame t) = 0 ∧ th1.next_frame = th.next_frame) ∨
      ((evs1 ++ evs2).countP (Ev.endsFrame t) = 1 ∧
        th1.next_frame = wrap64 (th.next_frame + 1))) :
    FrameStep w w1 t th :=
  frameStep_mk th1 (evs1 ++ evs2) hlt hthreads (by rw [htrace, List.append_assoc]) hother hself

theorem OnWorkDone_keeps {w w1 : World} {id : Nat} (h : Engine.OnWorkDone w id = some w1) :
    w1.threads = w.threads ∧ w1.trace = w.trace ∧ w1.g_ThreadSequence = w.g_ThreadSequence ∧
      w1.common.seq_wait = w.common.seq_wait ∧ w1.common.num_threads = w.common.num_threads := by
  unfold Engine.OnWorkDone at h
  split at h
  · cases h
  · simp only [Option.some.injEq] at h
    subst h
    simp
  · split at h
    · cases h
    · simp only [Option.some.injEq] at h
      subst h
      simp

theorem frame_finish {w w0 w1 : World} {t : Nat} {th th0 : PoolThreadInfo}
    (hlt : t < w.threads.length) (h0t : w0.threads = w.threads) (h0r : w0.trace = w.trace)
    (hnf : th0.next_frame = th.next_frame)
    (hs : WorkSyncThreads.finish w0 t th0 = some w1) : FrameStep w w1 t th := by
  unfold WorkSyncThreads.finish at hs
  dsimp only at hs
  split at hs
  · cases hs
  · rename_i f hf
    simp only [Option.some.injEq] at hs
    subst hs
    exact frameStep_mk
      { th0 with
        expected_seq := wrap32 (th0.expected_seq + w0.common.num_threads)
        subseq := wrap32 (th0.subseq + 1)
        fn := f
        pc := if th0.exit then Pc.exited else Pc.run }
      [Ev.ret t false] hlt (by rw [← h0t]; simp [leave]) (by rw [← h0r]; rfl)
      (fun u hu => by simp [Ev.endsFrame]) (Or.inl ⟨by simp [Ev.endsFrame], hnf⟩)

theorem step_frames {w w1 : World} {t : Nat} {th : PoolThreadInfo}
    (ht : w.threads[t]? = some th) (hs : step w t = some w1) : FrameStep w w1 t th := by
  have hlt : t < w.threads.length := getElem?_lt_of_some ht
  unfold step at hs
  simp only [ht] at hs
  split at hs
  · -- Pc.run
    split at hs
    · -- WorkFrameStart
      unfold WorkFrameStart at hs
      split at hs
      · split at hs
        · cases hs
        · simp only [Option.some.injEq] at hs
          subst hs
          exact frameStep_mk _ [Ev.ret t false] hlt rfl rfl
            (fun u hu => by simp [Ev.endsFrame]) (Or.inl ⟨by simp [Ev.endsFrame], rfl⟩)
      · cases hs
    · -- WorkFrameEnd.arrive
      unfold WorkFrameEnd.arrive at hs
      dsimp only at hs
      split at hs
      · rename_i heq
        simp only [Option.some.injEq] at hs
        subst hs
        exact frameStep_mk _ [Ev.end_arrive t w.common.seq th.expected_seq] hlt rfl rfl
          (fun u hu => by simp [Ev.endsFrame, Ne.symm hu])
          (Or.inl ⟨by simp [Ev.endsFrame, heq], rfl⟩)
      · rename_i hne
        simp only [WorkFrameEnd.finish, Option.some.injEq] at hs
        subst hs
        exact frameStep_mk _ [Ev.end_arrive t w.common.seq th.expected_seq, Ev.ret t false] hlt
          rfl (by simp [leave])
          (fun u hu => by simp [Ev.endsFrame, Ne.symm hu])
          (Or.inr ⟨by simp [Ev.endsFrame, hne], rfl⟩)
    · -- WorkSyncThreads.arrive
      simp only [WorkSyncThreads.arrive, Option.some.injEq] at hs
      subst hs
      exact frameStep_mk _ [Ev.arrive t th.subseq w.common.seq th.expected_seq] hlt rfl rfl
        (fun u hu => by simp [Ev.endsFrame]) (Or.inl ⟨by simp [Ev.endsFrame], by split <;> rfl⟩)
    · -- WorkDoWork.load
      simp only [WorkDoWork.load, Option.some.injEq] at hs
      subst hs
      exact frameStep_mk _ [] hlt rfl (by simp)
        (fun u hu => by simp) (Or.inl ⟨by simp, rfl⟩)
    · -- WorkContinueWork
      unfold WorkContinueWork at hs
      split at hs
      · cases hs
      · split at hs
        · cases hs
        · split at hs
          · cases hs
          · dsimp only at hs
            split at hs
            · simp only [Option.some.injEq] at hs
              subst hs
              exact frameStep_mk2 _ _ _ hlt rfl rfl
                (fun u hu => by simp [Ev.endsFrame]) (Or.inl ⟨by simp [Ev.endsFrame], rfl⟩)
            · simp only [Option.some.injEq] at hs
              subst hs
              exact frameStep_mk2 _ _ _ hlt rfl rfl
                (fun u hu => by simp [Ev.endsFrame]) (Or.inl ⟨by simp [Ev.endsFrame], rfl⟩)
  · -- sync_update
    unfold WorkSyncThreads.leader_update at hs
    split at hs
    · cases hs
    · rename_i w0 h0
      obtain ⟨k1, k2, -, -, -⟩ := OnWorkDone_keeps h0
      simp only [Option.some.injEq] at hs
      subst hs
      exact frameStep_mk { th with pc := Pc.sync_signal } [Ev.update t th.subseq] hlt
        (by simp only [k1]) (by simp only [k2])
        (fun u hu => by simp [Ev.endsFrame]) (Or.inl ⟨by simp [Ev.endsFrame], rfl⟩)
  · -- sync_signal
    unfold WorkSyncThreads.leader_signal at hs
    refine frame_finish hlt ?_ ?_ ?_ hs <;> rfl
  · -- sync_wait
    unfold WorkSyncThreads.follower_wait at hs
    split at hs
    · refine frame_finish hlt ?_ ?_ ?_ hs <;> rfl
    · cases hs
  · -- end_swap
    unfold WorkFrameEnd.leader_wait at hs
    split at hs
    · simp only [Option.some.injEq] at hs
      subst hs
      exact frameStep_mk _ [] hlt rfl (by simp)
        (fun u hu => by simp) (Or.inl ⟨by simp, rfl⟩)
    · cases hs
  · -- end_store
    simp only [WorkFrameEnd.leader_store, Option.some.injEq] at hs
    subst hs
    exact frameStep_mk _ [] hlt rfl (by simp)
      (fun u hu => by simp) (Or.inl ⟨by simp, rfl⟩)
  · -- end_done
    simp only [WorkFrameEnd.leader_done, WorkFrameEnd.finish, Option.some.injEq] at hs
    subst hs
    exact frameStep_mk _ [Ev.frame_done t, Ev.ret t false] hlt rfl (by simp [leave])
      (fun u hu => by simp [Ev.endsFrame, Ne.symm hu])
      (Or.inr ⟨by simp [Ev.endsFrame], rfl⟩)
  · -- work_claim
    unfold WorkDoWork.claim at hs
    split at hs
    · cases hs
    · split at hs
      · cases hs
      · simp only [Option.some.injEq] at hs
        subst hs
        exact frameStep_mk _ _ hlt rfl rfl
          (fun u hu => by simp [Ev.endsFrame])
          (Or.inl ⟨by simp [Ev.endsFrame], by split <;> rfl⟩)
  · -- work_exec
    unfold WorkDoWork.exec at hs
    split at hs
    · cases hs
    · split at hs
      · cases hs
      · split at hs
        · cases hs
        · dsimp only at hs
          split at hs
          · simp only [Option.some.injEq] at hs
            subst hs
            exact frameStep_mk2 _ _ _ hlt rfl rfl
              (fun u hu => by simp [Ev.endsFrame]) (Or.inl ⟨by simp [Ev.endsFrame], rfl⟩)
          · simp only [Option.some.injEq] at hs
            subst hs
            exact frameStep_mk _ _ hlt rfl rfl
              (fun u hu => by simp [Ev.endsFrame]) (Or.inl ⟨by simp [Ev.endsFrame], rfl⟩)
  · -- work_sync
    simp only [WorkSyncThreads.arrive, Option.some.injEq] at hs
    subst hs
    exact frameStep_mk _ [Ev.arrive t th.subseq w.common.seq th.expected_seq] hlt rfl rfl
      (fun u hu => by simp [Ev.endsFrame]) (Or.inl ⟨by simp [Ev.endsFrame], by split <;> rfl⟩)
  · cases hs
theorem run_frames : ∀ (sched : List Nat) (w w1 : World), runSched w sched = some w1 →
    ∀ (u : Nat) (th : PoolThreadInfo), w.threads[u]? = some th → th.next_frame < 2 ^ 64 →
      ∃ th1, w1.threads[u]? = some th1 ∧ frameEnds w.trace u ≤ frameEnds w1.trace u ∧
        th1.next_frame = wrap64 (th.next_frame + (frameEnds w1.trace u - frameEnds w.trace u))
  | [], w, w1, hs, u, th, hu, hnf => by
    simp only [runSched, Option.some.injEq] at hs
    subst hs
    refine ⟨th, hu, le_refl _, ?_⟩
    unfold wrap64
    omega
  | t :: rest, w, w1, hs, u, th, hu, hnf => by
    unfold runSched at hs
    split at hs
    · cases hs
    · rename_i w2 h2
      have hstep : ∃ th2, w2.threads[u]? = some th2 ∧ th2.next_frame < 2 ^ 64 ∧
          ((frameEnds w2.trace u = frameEnds w.trace u ∧ th2.next_frame = th.next_frame) ∨
            (frameEnds w2.trace u = frameEnds w.trace u + 1 ∧
              th2.next_frame = wrap64 (th.next_frame + 1))) := by
        cases ht : w.threads[t]? with
        | none => simp [step, ht] at h2
        | some tht =>
          obtain ⟨hother, th2, hth2, hcase⟩ := step_frames ht h2
          by_cases hut : u = t
          · subst hut
            rw [ht] at hu
            cases hu
            refine ⟨th2, hth2, ?_, hcase⟩
            rcases hcase with ⟨-, h⟩ | ⟨-, h⟩
            · rw [h]; exact hnf
            · rw [h]; exact Nat.mod_lt _ (by norm_num)
          · obtain ⟨ha, hb⟩ := hother u hut
            exact ⟨th, by rw [ha, hu], hnf, Or.inl ⟨hb, rfl⟩⟩
      obtain ⟨th2, hth2, hnf2, hcase⟩ := hstep
      obtain ⟨th1, hth1, hle, heq⟩ := run_frames rest w2 w1 hs u th2 hth2 hnf2
      refine ⟨th1, hth1, ?_, ?_⟩
      · rcases hcase with ⟨h, -⟩ | ⟨h, -⟩ <;> omega
      · rw [heq]
        unfold wrap64
        rcases hcase with ⟨h, hn⟩ | ⟨h, hn⟩
        · rw [h, hn]
        · rw [hn]
          unfold wrap64
          omega

/-- C22 (frame monotonicity): a worker is constructed with `next_frame = 1`. In every
interleaving of the workers from the start of the pool, at every two points of the
run, one after the other, the `next_frame` of a worker is 1 plus the number of calls
of `WorkFrameEnd` it has completed; so it never decreases, and between the two
points it grows by exactly the number of calls of `WorkFrameEnd` the worker completed
there (as long as fewer than `2 ^ 64 - 1` frames have ended). -/
theorem frame_monotonic (w0 w1 w2 : World) (s1 s2 : List Nat) (t : Nat) (th0 : PoolThreadInfo)
    (htr : w0.trace = []) (ht : w0.threads[t]? = some th0) (hnew : th0.next_frame = 1)
    (h1 : runSched w0 s1 = some w1) (h2 : runSched w1 s2 = some w2)
    (hb : frameEnds w2.trace t < 2 ^ 64 - 1) :
    ({} : PoolThreadInfo).next_frame = 1 ∧
    ∃ th1 th2, w1.threads[t]? = some th1 ∧ w2.threads[t]? = some th2 ∧
      th1.next_frame = 1 + frameEnds w1.trace t ∧
      th2.next_frame = 1 + frameEnds w2.trace t ∧
      th1.next_frame ≤ th2.next_frame ∧
      th2.next_frame - th1.next_frame = frameEnds w2.trace t - frameEnds w1.trace t := by
  have h0 : frameEnds w0.trace t = 0 := by rw [htr]; rfl
  obtain ⟨th1, hth1, hle1, heq1⟩ := run_frames s1 w0 w1 h1 t th0 ht (by rw [hnew]; norm_num)
  have hnf1 : th1.next_frame < 2 ^ 64 := by
    rw [heq1]; exact Nat.mod_lt _ (by norm_num)
  obtain ⟨th2, hth2, hle2, heq2⟩ := run_frames s2 w1 w2 h2 t th1 hth1 hnf1
  have e1 : th1.next_frame = 1 + frameEnds w1.trace t := by
    rw [heq1, hnew, h0]
    unfold wrap64
    omega
  have e2 : th2.next_frame = 1 + frameEnds w2.trace t := by
    rw [heq2, e1]
    unfold wrap64
    omega
  exact ⟨rfl, th1, th2, hth1, hth2, e1, e2, by omega, by omega⟩

/-- Witness of C22: worker 0 of `twoWorkers` after three steps (inside the first
frame) and after its fourth step and seven steps of worker 1 (first frame ended). -/
theorem frame_monotonic_witness :
    ({} : PoolThreadInfo).next_frame = 1 ∧
    ∃ th1 th2, ((runSched twoWorkers [0, 0, 0]).getD {}).threads[0]? = some th1 ∧
      ((runSched twoWorkers [0, 0, 0, 0, 1, 1, 1, 1, 1, 1, 1]).getD {}).threads[0]? = some th2 ∧
      th1.next_frame = 1 + frameEnds ((runSched twoWorkers [0, 0, 0]).getD {}).trace 0 ∧
      th2.next_frame =
        1 + frameEnds ((runSched twoWorkers [0, 0, 0, 0, 1, 1, 1, 1, 1, 1, 1]).getD {}).trace 0 ∧
      th1.next_frame ≤ th2.next_frame ∧
      th2.next_frame - th1.next_frame =
        frameEnds ((runSched twoWorkers [0, 0, 0, 0, 1, 1, 1, 1, 1, 1, 1]).getD {}).trace 0 -
          frameEnds ((runSched twoWorkers [0, 0, 0]).getD {}).trace 0 :=
  frame_monotonic twoWorkers ((runSched twoWorkers [0, 0, 0]).getD {})
    ((runSched twoWorkers [0, 0, 0, 0, 1, 1, 1, 1, 1, 1, 1]).getD {})
    [0, 0, 0] [0, 1, 1, 1, 1, 1, 1, 1] 0 {} (by decide) (by decide) (by decide) (by decide)
    (by decide) (by decide)

/-! ## The events of a new frame -/

/-- C23 (per-frame event sequence): `LuneNewFrame` leaves in the pending queue what
was there, then the events the message pump posted, then exactly five events in this
order: `UserUpdate(dt)`, `SysUpdate(raw_dt)`, `UserDraw(dt)`, `Swap(raw_dt)`,
`LateUserUpdate(dt)`, with the same `dt` (the time since the previous frame divided
by 1000000) in the three user events, the same `raw_dt` (the clock value as a
double) in the other two, and zero in all other arguments. -/
theorem new_frame_events (toDouble : Nat → Double) (divMillion : Double → Double)
    (q : EventQueue) (c : FrameClock) (now : Nat) (pumped : List PostArgs) :
    (LuneNewFrame toDouble divMillion q c now pumped).1.g_pendingEvents =
        q.g_pendingEvents ++ pumped.map PostArgs.event ++
          [LuaEvent.new LuneToLuaEv.UserUpdate
              (divMillion (toDouble (wrap64 (now + 2 ^ 64 - c.g_CurrentFrameTimestamp))))
              ⟨0⟩ ⟨0⟩ ⟨0⟩ ⟨0⟩,
           LuaEvent.new LuneToLuaEv.SysUpdate (toDouble now) ⟨0⟩ ⟨0⟩ ⟨0⟩ ⟨0⟩,
           LuaEvent.new LuneToLuaEv.UserDraw
              (divMillion (toDouble (wrap64 (now + 2 ^ 64 - c.g_CurrentFrameTimestamp))))
              ⟨0⟩ ⟨0⟩ ⟨0⟩ ⟨0⟩,
           LuaEvent.new LuneToLuaEv.Swap (toDouble now) ⟨0⟩ ⟨0⟩ ⟨0⟩ ⟨0⟩,
           LuaEvent.new LuneToLuaEv.LateUserUpdate
              (divMillion (toDouble (wrap64 (now + 2 ^ 64 - c.g_CurrentFrameTimestamp))))
              ⟨0⟩ ⟨0⟩ ⟨0⟩ ⟨0⟩] ∧
      (LuneNewFrame toDouble divMillion q c now pumped).2 =
        { g_PrevFrameTimestamp := c.g_CurrentFrameTimestamp, g_CurrentFrameTimestamp := now } := by
  simp only [LuneNewFrame, postAll_pending, and_self]

/-! ## The prefixes of the split VFS -/

theorem firstMatch_cons (e : List Char × VFSImpl) (es : List (List Char × VFSImpl))
    (p : List Char) :
    firstMatchLookup (e :: es) p =
      if e.1.isPrefixOf p then (e.2, p.drop e.1.length) else firstMatchLookup es p := by
  unfold firstMatchLookup
  rw [List.find?_cons]
  cases e.1.isPrefixOf p <;> rfl

theorem lookupCustom_eq_firstMatch (p : List Char) (es : List (List Char × VFSImpl)) :
    SafeVFSSplit.lookupCustom p es = firstMatchLookup es p := by
  induction es with
  | nil => rfl
  | cons e rest ih =>
    rw [firstMatch_cons, SafeVFSSplit.lookupCustom, ih]

theorem Lookup_eq_firstMatch (s : SafeVFSSplit) (p : List Char) :
    s.Lookup p = firstMatchLookup s.entries p := by
  unfold SafeVFSSplit.Lookup SafeVFSSplit.entries
  simp only [List.cons_append, List.nil_append, firstMatch_cons, lookupCustom_eq_firstMatch]
  rfl

theorem foldl_longerMatch_some (p : List Char) (es : List (List Char × VFSImpl))
    (b : List Char × VFSImpl)
    (hall : ∀ e ∈ es, e.1.isPrefixOf p = true → e.1.length ≤ b.1.length) :
    es.foldl (longerMatch p) (some b) = some b := by
  induction es with
  | nil => rfl
  | cons e rest ih =>
    have hrest := ih (fun x hx => hall x (List.mem_cons_of_mem _ hx))
    have he := hall e (List.mem_cons_self _ _)
    rw [List.foldl_cons]
    by_cases h : e.1.isPrefixOf p = true
    · have hle := he h
      have : longerMatch p (some b) e = some b := by
        simp only [longerMatch, h, if_true]
        rw [if_neg (by omega)]
      rw [this, hrest]
    · have : longerMatch p (some b) e = some b := by
        simp only [longerMatch, h, if_false]
        rfl
      rw [this, hrest]

theorem foldl_longerMatch_none (p : List Char) (es : List (List Char × VFSImpl))
    (hsame : ∀ e1 ∈ es, ∀ e2 ∈ es, e1.1.isPrefixOf p = true → e2.1.isPrefixOf p = true →
      e2.1.length ≤ e1.1.length) :
    es.foldl (longerMatch p) none = es.find? fun e => e.1.isPrefixOf p := by
  induction es with
  | nil => rfl
  | cons e rest ih =>
    rw [List.foldl_cons]
    by_cases h : e.1.isPrefixOf p = true
    · have : longerMatch p none e = some e := by simp [longerMatch, h]
      rw [this, foldl_longerMatch_some p rest e
        (fun x hx hxp => hsame e (List.mem_cons_self _ _) x (List.mem_cons_of_mem _ hx) h hxp)]
      simp [List.find?, h]
    · have : longerMatch p none e = none := by simp [longerMatch, h]
      rw [this, ih (fun a ha b hb => hsame a (List.mem_cons_of_mem _ ha) b
        (List.mem_cons_of_mem _ hb))]
      simp [List.find?, h]

/-- C24 (longest-prefix lookup) fails: after `Add("/a/", os)` and then
`Add("/a/b/", mods)`, `Lookup("/a/b/c")` returns the VFS of `/a/` with the remainder
`b/c`, where the longest registered prefix of the path is `/a/b/`, with the VFS
`mods` and the remainder `c`. -/
theorem lookup_not_longest :
    ((saveSplit.Add "/a/".toList VFSImpl.os).bind fun s =>
        s.Add "/a/b/".toList (VFSImpl.safe VFSImpl.os "D:/mods/".toList)) = some nestedSplit ∧
      nestedSplit.Lookup "/a/b/c".toList = (VFSImpl.os, "b/c".toList) ∧
      longestPrefixLookup nestedSplit.entries "/a/b/c".toList =
        (VFSImpl.safe VFSImpl.os "D:/mods/".toList, "c".toList) := by
  decide

/-- C24, amended: `Lookup` is a first-match lookup, for every set of registered
prefixes, overlapping or not: it resolves `p` to the VFS of the first registered
prefix, in the order `/game/`, `/data/`, `/save/`, `/temp/`, then the custom prefixes
in the order they were added, that is a prefix of `p` (no entry before it matches),
and strips exactly that prefix; it returns the null VFS and `p` unchanged when no
registered prefix matches. When no registered prefix is a proper prefix of another
one, this is the longest registered prefix of `p`. -/
theorem lookup_first_match (s : SafeVFSSplit) (p : List Char) :
    s.Lookup p = firstMatchLookup s.entries p ∧
      (∀ (pre post : List (List Char × VFSImpl)) (e : List Char × VFSImpl),
        s.entries = pre ++ e :: post → (∀ x ∈ pre, x.1.isPrefixOf p = false) →
        e.1.isPrefixOf p = true → s.Lookup p = (e.2, p.drop e.1.length)) ∧
      ((∀ e ∈ s.entries, e.1.isPrefixOf p = false) → s.Lookup p = (VFSImpl.null, p)) ∧
      ((∀ e1 ∈ s.entries, ∀ e2 ∈ s.entries, e1.1.isPrefixOf e2.1 = true → e1.1 = e2.1) →
        s.Lookup p = longestPrefixLookup s.entries p) := by
  refine ⟨Lookup_eq_firstMatch s p, ?_, ?_, ?_⟩
  · intro pre post e hsplit hpre he
    rw [Lookup_eq_firstMatch, hsplit]
    clear hsplit
    induction pre with
    | nil => rw [List.nil_append, firstMatch_cons, if_pos he]
    | cons x rest ih =>
      rw [List.cons_append, firstMatch_cons, hpre x (List.mem_cons_self _ _)]
      exact ih (fun y hy => hpre y (List.mem_cons_of_mem _ hy))
  · intro hnone
    rw [Lookup_eq_firstMatch]
    generalize s.entries = es at hnone
    induction es with
    | nil => rfl
    | cons x rest ih =>
      rw [firstMatch_cons, hnone x (List.mem_cons_self _ _)]
      exact ih (fun y hy => hnone y (List.mem_cons_of_mem _ hy))
  · intro hfree
    rw [Lookup_eq_firstMatch]
    unfold firstMatchLookup longestPrefixLookup
    rw [foldl_longerMatch_none]
    intro e1 h1 e2 h2 hp1 hp2
    rw [List.isPrefixOf_iff_prefix] at hp1 hp2
    by_cases hle : e2.1.length ≤ e1.1.length
    · exact hle
    · have hpre : e1.1 <+: e2.1 :=
        List.prefix_of_prefix_length_le hp1 hp2 (by omega)
      have := hfree e1 h1 e2 h2 (List.isPrefixOf_iff_prefix.2 hpre)
      rw [this]

/-- Witness of C24: the overlapping prefixes `/a/` and `/a/b/` of `nestedSplit`,
where the first match is not the longest, and the four standard roots, none a prefix
of another. -/
theorem lookup_first_match_witness :
    nestedSplit.Lookup "/a/b/c".toList = (VFSImpl.os, "b/c".toList) ∧
      nestedSplit.Lookup "/a/b/c".toList = firstMatchLookup nestedSplit.entries "/a/b/c".toList ∧
      saveSplit.Lookup "/save/slot1".toList =
        longestPrefixLookup saveSplit.entries "/save/slot1".toList :=
  ⟨(lookup_first_match nestedSplit "/a/b/c".toList).2.1
      [("/game/".toList, nestedSplit.game_vfs_), ("/data/".toList, nestedSplit.data_vfs_),
        ("/save/".toList, nestedSplit.save_vfs_), ("/temp/".toList, nestedSplit.temp_vfs_)]
      [("/a/b/".toList, VFSImpl.safe VFSImpl.os "D:/mods/".toList)]
      ("/a/".toList, VFSImpl.os) (by decide) (by decide) (by decide),
    (lookup_first_match nestedSplit "/a/b/c".toList).1,
    (lookup_first_match saveSplit "/save/slot1".toList).2.2.2 (by decide)⟩

/-- C25 (lookup versus the path filter) fails in both directions: the path
`/save/../x` is rejected by `CheckPath` and `Lookup` returns the `/save/` root, not
the null VFS; the path `foo` is accepted by `CheckPath` and `Lookup` returns the null
VFS. -/
theorem lookup_ignores_filter :
    SafeVFSImpl.CheckPath "/save/../x".toList = false ∧
      (saveSplit.Lookup "/save/../x".toList).1 ≠ VFSImpl.null ∧
      SafeVFSImpl.CheckPath "foo".toList = true ∧
      (saveSplit.Lookup "foo".toList).1 = VFSImpl.null := by
  decide

/-- C25, amended: when none of the registered roots is itself the null VFS,
`Lookup(p)` returns the null VFS if and only if no registered prefix is a prefix of
`p`, and then it leaves `p` as it is; the path filter plays no part in `Lookup`. -/
theorem lookup_null_iff (s : SafeVFSSplit) (p : List Char)
    (hnn : ∀ e ∈ s.entries, e.2 ≠ VFSImpl.null) :
    ((s.Lookup p).1 = VFSImpl.null ↔ ∀ e ∈ s.entries, e.1.isPrefixOf p = false) ∧
      ((∀ e ∈ s.entries, e.1.isPrefixOf p = false) → s.Lookup p = (VFSImpl.null, p)) := by
  rw [Lookup_eq_firstMatch]
  unfold firstMatchLookup
  cases hf : s.entries.find? (fun e => e.1.isPrefixOf p) with
  | none =>
    have hall : ∀ e ∈ s.entries, e.1.isPrefixOf p = false := by
      intro e he
      have := List.find?_eq_none.1 hf e he
      exact Bool.eq_false_iff.2 this
    exact ⟨⟨fun _ => hall, fun _ => rfl⟩, fun _ => rfl⟩
  | some e =>
    have hmem : e ∈ s.entries := List.mem_of_find?_eq_some hf
    have hmatch : e.1.isPrefixOf p = true := by
      have := List.find?_some hf
      simpa using this
    refine ⟨⟨fun h => absurd h (hnn e hmem), fun h => ?_⟩, fun h => ?_⟩
    · rw [h e hmem] at hmatch; cases hmatch
    · rw [h e hmem] at hmatch; cases hmatch

/-- Witness of C25: the path `foo` on `saveSplit`. -/
theorem lookup_null_iff_witness :
    (∀ e ∈ saveSplit.entries, e.2 ≠ VFSImpl.null) ∧
      saveSplit.Lookup "foo".toList = (VFSImpl.null, "foo".toList) :=
  ⟨by decide, (lookup_null_iff saveSplit "foo".toList (by decide)).2 (by decide)⟩

/-! ## The callback of a barrier -/

/-- C26 (unset barrier callback) fails: `WorkSyncThreads` calls `update_fn` whether
it is set or not. With worker 1 of `leaderAt` the leader of barrier 0, an empty
`update_fn` makes the call throw: the step has no successor state, so `seq_wait` is
not advanced and `expected_seq`, `subseq` and `fn` are not moved; with the function
that `Engine::InitWorkers` installs the step goes through. -/
theorem empty_update_fn_throws :
    leaderAt.threads[1]?.map (·.pc) = some Pc.sync_update ∧
      (leaderAt.threads[1]?.bind fun th =>
        WorkSyncThreads.call_update_fn none leaderAt 1 th) = none ∧
      (leaderAt.threads[1]?.bind fun th =>
        WorkSyncThreads.call_update_fn (some Engine.OnWorkDone) leaderAt 1 th).isSome = true ∧
      ∀ (w : World) (t : Nat) (th : PoolThreadInfo),
        WorkSyncThreads.call_update_fn none w t th = none := by
  refine ⟨by decide, by decide, by decide, fun _ _ _ => rfl⟩

/-- C26, amended: the leader of a barrier calls `update_fn(subseq)` unconditionally.
With `update_fn` set (to `Engine::OnWorkDone`, which returns), the leader calls it
once with `subseq`, then advances `seq_wait` by one, adds `num_threads` to
`expected_seq` and moves `fn` to `ThreadSequence[subseq + 1]`. -/
theorem leader_calls_update_fn (w w1 : World) (t : Nat) (th : PoolThreadInfo) (next : PhaseFn)
    (ht : w.threads[t]? = some th) (hpc : th.pc = Pc.sync_update)
    (hfn : Engine.OnWorkDone w th.subseq = some w1)
    (hseq : w.g_ThreadSequence[wrap32 (th.subseq + 1)]? = some next) :
    step w t = WorkSyncThreads.call_update_fn (some Engine.OnWorkDone) w t th ∧
      ∃ w3 th3, runSched w [t, t] = some w3 ∧ w3.threads[t]? = some th3 ∧
        updates w3.trace = updates w.trace ++ [th.subseq] ∧
        w3.common.seq_wait.data_ = wrap64 (w.common.seq_wait.data_ + 1) ∧
        th3.expected_seq = wrap32 (th.expected_seq + w.common.num_threads) ∧
        th3.subseq = wrap32 (th.subseq + 1) ∧
        th3.fn = next := by
  obtain ⟨k1, k2, k3, k4, k5⟩ := OnWorkDone_keeps hfn
  have hlt : t < w.threads.length := getElem?_lt_of_some ht
  have hs1 : step w t = WorkSyncThreads.call_update_fn (some Engine.OnWorkDone) w t th := by
    unfold step
    simp only [ht, hpc]
    rfl
  refine ⟨hs1, ?_⟩
  have hs2 : step w t = some { w1 with
      threads := w1.threads.set t { th with pc := Pc.sync_signal }
      trace := w1.trace ++ [Ev.update t th.subseq] } := by
    rw [hs1]
    simp only [WorkSyncThreads.call_update_fn, hfn]
  simp only [runSched, hs2]
  have hget : (w1.threads.set t { th with pc := Pc.sync_signal })[t]? =
      some { th with pc := Pc.sync_signal } := by
    rw [k1, List.getElem?_set_self hlt]
  simp only [step, hget, WorkSyncThreads.leader_signal, WorkSyncThreads.finish, k3, hseq, leave]
  refine ⟨_, { th with
      expected_seq := wrap32 (th.expected_seq + w.common.num_threads)
      subseq := wrap32 (th.subseq + 1)
      fn := next
      pc := if th.exit then Pc.exited else Pc.run }, rfl, ?_, ?_, ?_, rfl, rfl, rfl⟩
  · simp only [List.set_set]
    rw [List.getElem?_set_self (by rw [k1]; exact hlt)]
    simp [k5]
  · simp [updates, k2, List.filterMap_append]
  · simp [SeqEvent.signal_inc, k4]

/-- Witness of C26: worker 1 of `leaderAt`. -/
theorem leader_calls_update_fn_witness :
    step leaderAt 1 = WorkSyncThreads.call_update_fn (some Engine.OnWorkDone) leaderAt 1
        { fn := PhaseFn.WorkSyncThreads, expected_seq := 1, pc := Pc.sync_update } ∧
      ∃ w3 th3, runSched leaderAt [1, 1] = some w3 ∧ w3.threads[1]? = some th3 ∧
        updates w3.trace = updates leaderAt.trace ++ [0] ∧
        w3.common.seq_wait.data_ = wrap64 (leaderAt.common.seq_wait.data_ + 1) ∧
        th3.expected_seq = wrap32 (1 + leaderAt.common.num_threads) ∧
        th3.subseq = wrap32 (0 + 1) ∧
        th3.fn = PhaseFn.WorkFrameEnd :=
  leader_calls_update_fn leaderAt leaderAt 1
    { fn := PhaseFn.WorkSyncThreads, expected_seq := 1, pc := Pc.sync_update }
    PhaseFn.WorkFrameEnd (by decide) rfl (by decide) (by decide)

/-! ## The fixed-step accumulator -/

theorem toInt?_of_range {z : Int} (h0 : 0 ≤ z) (h1 : z < 2 ^ 31) : toInt? z = some z := by
  unfold toInt?
  rw [if_pos]
  constructor
  · have : (-2 : Int) ^ 31 ≤ 0 := by norm_num
    omega
  · exact h1

theorem toInt?_in_range {z : Int} (h0 : -2 ^ 31 ≤ z) (h1 : z < 2 ^ 31) : toInt? z = some z := by
  unfold toInt?
  rw [if_pos ⟨h0, h1⟩]

theorem world_enabled (dt : ℚ) (e : Engine.WorldInfo) (hen : e.update_enabled = true)
    (hk0 : -2 ^ 31 ≤ ⌊(e.physics_accum + dt * e.world_speed) / e.physics_step⌋)
    (hk1 : ⌊(e.physics_accum + dt * e.world_speed) / e.physics_step⌋ < 2 ^ 31) :
    Engine.SysUpdate.world dt e =
      some { e with
        tNow := e.tNow + dt * e.world_speed
        physics_accum := e.physics_accum + dt * e.world_speed -
          ⌊(e.physics_accum + dt * e.world_speed) / e.physics_step⌋ * e.physics_step
        w := e.w ++
          [WorldCall.Step e.physics_step
            ⌊(e.physics_accum + dt * e.world_speed) / e.physics_step⌋,
           WorldCall.SetPhysicsOffset (e.physics_accum + dt * e.world_speed -
            ⌊(e.physics_accum + dt * e.world_speed) / e.physics_step⌋ * e.physics_step)] } := by
  unfold Engine.SysUpdate.world
  simp [hen, toInt?_in_range hk0 hk1]

theorem world_fields (dt : ℚ) (e : Engine.WorldInfo) (hen : e.update_enabled = true)
    (hk0 : -2 ^ 31 ≤ ⌊(e.physics_accum + dt * e.world_speed) / e.physics_step⌋)
    (hk1 : ⌊(e.physics_accum + dt * e.world_speed) / e.physics_step⌋ < 2 ^ 31) :
    ∃ e1, Engine.SysUpdate.world dt e = some e1 ∧
      e1.physics_accum = e.physics_accum + dt * e.world_speed -
        ⌊(e.physics_accum + dt * e.world_speed) / e.physics_step⌋ * e.physics_step ∧
      e1.w = e.w ++
        [WorldCall.Step e.physics_step ⌊(e.physics_accum + dt * e.world_speed) / e.physics_step⌋,
         WorldCall.SetPhysicsOffset (e.physics_accum + dt * e.world_speed -
          ⌊(e.physics_accum + dt * e.world_speed) / e.physics_step⌋ * e.physics_step)] ∧
      e1.tNow = e.tNow + dt * e.world_speed ∧ e1.physics_step = e.physics_step ∧
      e1.world_speed = e.world_speed ∧ e1.update_enabled = e.update_enabled :=
  ⟨_, world_enabled dt e hen hk0 hk1, rfl, rfl, rfl, rfl, rfl, rfl⟩

theorem stepsDone_append (a b : List WorldCall) : stepsDone (a ++ b) = stepsDone a + stepsDone b := by
  simp [stepsDone]

/-- C27 (fixed-step accumulator) fails when the step count does not fit `int`: with
`physics_step = 1`, `physics_accum = 0`, `world_speed = 1` and `dt = 2 ^ 31` the
floor is `2 ^ 31`, which no `int` holds; the conversion is undefined and `Step` is
not called with that count. -/
theorem steps_exceed_int :
    Engine.SysUpdate.world (2 ^ 31) { physics_step := 1 } = none ∧
      ⌊((0 : ℚ) + 2 ^ 31 * 1) / 1⌋ = 2 ^ 31 := by
  constructor
  · have hf : ⌊((0 : ℚ) + 2 ^ 31 * 1) / 1⌋ = (2 ^ 31 : Int) := by
      rw [Int.floor_eq_iff]; norm_num
    simp only [Engine.SysUpdate.world, Bool.not_true, Bool.false_eq_true, if_false, hf]
    rfl
  · rw [Int.floor_eq_iff]; norm_num

/-- C27, amended: in exact arithmetic, for every world with `physics_step > 0`,
`physics_accum ≥ 0`, `dt * world_speed ≥ 0` and
`floor((physics_accum + dt * world_speed) / physics_step) < 2 ^ 31`, one
`Engine::SysUpdate(dt)` leaves a disabled world untouched, and on an enabled world
calls `Step(physics_step, steps)` with that floor as `steps`, then
`SetPhysicsOffset(a)` with the new accumulator `a`, where
`steps * physics_step + a = physics_accum + dt * world_speed` and
`0 ≤ a < physics_step`. -/
theorem fixed_step_accumulator (dt : ℚ) (e : Engine.WorldInfo) (hstep : 0 < e.physics_step)
    (h0 : 0 ≤ e.physics_accum)
    (hwt : 0 ≤ dt * e.world_speed)
    (hint : ⌊(e.physics_accum + dt * e.world_speed) / e.physics_step⌋ < 2 ^ 31) :
    Engine.SysUpdate.world dt e =
        some (if e.update_enabled then
          { e with
            tNow := e.tNow + dt * e.world_speed
            physics_accum := e.physics_accum + dt * e.world_speed -
              ⌊(e.physics_accum + dt * e.world_speed) / e.physics_step⌋ * e.physics_step
            w := e.w ++
              [WorldCall.Step e.physics_step
                ⌊(e.physics_accum + dt * e.world_speed) / e.physics_step⌋,
               WorldCall.SetPhysicsOffset (e.physics_accum + dt * e.world_speed -
                ⌊(e.physics_accum + dt * e.world_speed) / e.physics_step⌋ * e.physics_step)] }
        else e) ∧
      ⌊(e.physics_accum + dt * e.world_speed) / e.physics_step⌋ * e.physics_step +
          (e.physics_accum + dt * e.world_speed -
            ⌊(e.physics_accum + dt * e.world_speed) / e.physics_step⌋ * e.physics_step) =
        e.physics_accum + dt * e.world_speed ∧
      0 ≤ e.physics_accum + dt * e.world_speed -
          ⌊(e.physics_accum + dt * e.world_speed) / e.physics_step⌋ * e.physics_step ∧
      e.physics_accum + dt * e.world_speed -
          ⌊(e.physics_accum + dt * e.world_speed) / e.physics_step⌋ * e.physics_step <
        e.physics_step := by
  have hk0 : 0 ≤ ⌊(e.physics_accum + dt * e.world_speed) / e.physics_step⌋ :=
    Int.floor_nonneg.2 (div_nonneg (by linarith) hstep.le)
  refine ⟨?_, by ring, Int.sub_floor_div_mul_nonneg _ hstep, Int.sub_floor_div_mul_lt _ hstep⟩
  unfold Engine.SysUpdate.world
  cases hen : e.update_enabled with
  | false => simp
  | true => simp [toInt?_of_range hk0 hint]

/-- Witness of C27: a new world and `dt = 40000`: two steps of 16666, 6668 left. -/
theorem fixed_step_accumulator_witness :
    Engine.SysUpdate.world 40000 {} =
      some { tNow := 40000, physics_accum := 6668,
             w := [WorldCall.Step 16666 2, WorldCall.SetPhysicsOffset 6668] } := by
  have hf : ⌊((0 : ℚ) + 40000 * 1) / 16666⌋ = 2 := by
    rw [Int.floor_eq_iff]; norm_num
  have h := (fixed_step_accumulator 40000 {} (by norm_num) (by norm_num)
    (by norm_num) (by
      show ⌊((0 : ℚ) + 40000 * 1) / 16666⌋ < 2 ^ 31
      rw [hf]; norm_num)).1
  rw [h]
  show some _ = some _
  congr 1
  simp only [if_true]
  have hf2 : ⌊(({} : Engine.WorldInfo).physics_accum + 40000 * ({} : Engine.WorldInfo).world_speed) /
      ({} : Engine.WorldInfo).physics_step⌋ = 2 := hf
  simp only [hf2]
  norm_num

/-- C28 (cadence independence) fails when only the single update exceeds `int`: with
`physics_step = 1` two updates with `dt = 2 ^ 30` each perform `2 ^ 31` steps in all
and end with the accumulator 0, and the single update with `dt = 2 ^ 31` has no
defined step count. -/
theorem split_update_differs :
    ((Engine.SysUpdate.world (2 ^ 30) { physics_step := 1 }).bind
        (Engine.SysUpdate.world (2 ^ 30))).map (fun e => (stepsDone e.w, e.physics_accum)) =
        some (2 ^ 31, 0) ∧
      Engine.SysUpdate.world (2 ^ 30 + 2 ^ 30) { physics_step := 1 } = none := by
  have hf : ⌊((0 : ℚ) + 2 ^ 30 * 1) / 1⌋ = (2 ^ 30 : Int) := by
    rw [Int.floor_eq_iff]; norm_num
  have hf2 : ⌊((0 : ℚ) + (2 ^ 30 + 2 ^ 30) * 1) / 1⌋ = (2 ^ 31 : Int) := by
    rw [Int.floor_eq_iff]; norm_num
  have h1 := world_enabled (2 ^ 30) { physics_step := 1 } rfl
    (by show -2 ^ 31 ≤ ⌊((0 : ℚ) + 2 ^ 30 * 1) / 1⌋; rw [hf]; norm_num)
    (by show ⌊((0 : ℚ) + 2 ^ 30 * 1) / 1⌋ < 2 ^ 31; rw [hf]; norm_num)
  constructor
  · rw [h1]
    have hf' : ⌊(({ physics_step := 1 } : Engine.WorldInfo).physics_accum +
        2 ^ 30 * ({ physics_step := 1 } : Engine.WorldInfo).world_speed) /
        ({ physics_step := 1 } : Engine.WorldInfo).physics_step⌋ = (2 ^ 30 : Int) := hf
    simp only [hf', Option.some_bind]
    have hacc : ((0 : ℚ) + 2 ^ 30 * 1 - ((2 ^ 30 : Int) : ℚ) * 1) = 0 := by norm_num
    have h2 := world_enabled (2 ^ 30)
      { physics_step := 1, tNow := 0 + 2 ^ 30 * 1, physics_accum := 0,
        w := [] ++ [WorldCall.Step 1 (2 ^ 30), WorldCall.SetPhysicsOffset 0] } rfl
      (by show -2 ^ 31 ≤ ⌊((0 : ℚ) + 2 ^ 30 * 1) / 1⌋; rw [hf]; norm_num)
      (by show ⌊((0 : ℚ) + 2 ^ 30 * 1) / 1⌋ < 2 ^ 31; rw [hf]; norm_num)
    simp only [hacc]
    rw [h2]
    simp only [hf', Option.map_some', stepsDone, hacc]
    norm_num
  · simp only [Engine.SysUpdate.world, Bool.not_true, Bool.false_eq_true, if_false, hf2]
    rfl

/-- C28, amended: in exact arithmetic, for every world state with
`0 ≤ physics_accum < physics_step` and all `dt1, dt2 ≥ 0` such that
`floor((physics_accum + (dt1 + dt2) * world_speed) / physics_step)` is in the range
of `int`, the update with `dt1` followed by the update with `dt2` performs the same
total number of physics steps and ends with the same `physics_accum` (and `tNow`) as
the single update with `dt1 + dt2`, whatever the sign of `world_speed`. -/
theorem cadence_independent (dt1 dt2 : ℚ) (e : Engine.WorldInfo)
    (h0 : 0 ≤ e.physics_accum) (h1 : e.physics_accum < e.physics_step)
    (hd1 : 0 ≤ dt1) (hd2 : 0 ≤ dt2)
    (hlo : -2 ^ 31 ≤ ⌊(e.physics_accum + (dt1 + dt2) * e.world_speed) / e.physics_step⌋)
    (hhi : ⌊(e.physics_accum + (dt1 + dt2) * e.world_speed) / e.physics_step⌋ < 2 ^ 31) :
    ∃ e1 e2 e12, Engine.SysUpdate.world dt1 e = some e1 ∧
      Engine.SysUpdate.world dt2 e1 = some e2 ∧
      Engine.SysUpdate.world (dt1 + dt2) e = some e12 ∧
      e2.physics_accum = e12.physics_accum ∧ stepsDone e2.w = stepsDone e12.w ∧
      e2.tNow = e12.tNow := by
  have hstep : 0 < e.physics_step := lt_of_le_of_lt h0 h1
  cases hen : e.update_enabled with
  | false =>
    refine ⟨e, e, e, ?_, ?_, ?_, rfl, rfl, rfl⟩ <;> simp [Engine.SysUpdate.world, hen]
  | true =>
    have hX : e.physics_accum + (dt1 + dt2) * e.world_speed =
        e.physics_accum + dt1 * e.world_speed + dt2 * e.world_speed := by ring
    have hneg : (-2 : Int) ^ 31 ≤ 0 := by norm_num
    have hrange : -2 ^ 31 ≤ ⌊(e.physics_accum + dt1 * e.world_speed) / e.physics_step⌋ ∧
        ⌊(e.physics_accum + dt1 * e.world_speed) / e.physics_step⌋ < 2 ^ 31 ∧
        -2 ^ 31 ≤ ⌊(e.physics_accum + (dt1 + dt2) * e.world_speed) / e.physics_step⌋ -
          ⌊(e.physics_accum + dt1 * e.world_speed) / e.physics_step⌋ ∧
        ⌊(e.physics_accum + (dt1 + dt2) * e.world_speed) / e.physics_step⌋ -
          ⌊(e.physics_accum + dt1 * e.world_speed) / e.physics_step⌋ < 2 ^ 31 := by
      rcases le_or_lt 0 e.world_speed with hsp | hsp
      · have hw1 : 0 ≤ dt1 * e.world_speed := mul_nonneg hd1 hsp
        have hw2 : 0 ≤ dt2 * e.world_speed := mul_nonneg hd2 hsp
        have hk0 : 0 ≤ ⌊(e.physics_accum + dt1 * e.world_speed) / e.physics_step⌋ :=
          Int.floor_nonneg.2 (div_nonneg (by linarith) hstep.le)
        have hkK : ⌊(e.physics_accum + dt1 * e.world_speed) / e.physics_step⌋ ≤
            ⌊(e.physics_accum + (dt1 + dt2) * e.world_speed) / e.physics_step⌋ := by
          apply Int.floor_mono
          apply div_le_div_of_nonneg_right _ hstep.le
          rw [hX]; linarith
        omega
      · have hw1 : dt1 * e.world_speed ≤ 0 := mul_nonpos_of_nonneg_of_nonpos hd1 hsp.le
        have hw2 : dt2 * e.world_speed ≤ 0 := mul_nonpos_of_nonneg_of_nonpos hd2 hsp.le
        have hk0 : ⌊(e.physics_accum + dt1 * e.world_speed) / e.physics_step⌋ < 1 := by
          rw [Int.floor_lt]
          rw [Int.cast_one, div_lt_one hstep]
          linarith
        have hkK : ⌊(e.physics_accum + (dt1 + dt2) * e.world_speed) / e.physics_step⌋ ≤
            ⌊(e.physics_accum + dt1 * e.world_speed) / e.physics_step⌋ := by
          apply Int.floor_mono
          apply div_le_div_of_nonneg_right _ hstep.le
          rw [hX]; linarith
        omega
    obtain ⟨r1, r2, r3, r4⟩ := hrange
    obtain ⟨e1, he1, a1, w1, t1, s1, sp1, en1⟩ := world_fields dt1 e hen r1 r2
    obtain ⟨e12, he12, a12, w12, t12, -, -, -⟩ := world_fields (dt1 + dt2) e hen hlo hhi
    have hk2 : ⌊(e1.physics_accum + dt2 * e1.world_speed) / e1.physics_step⌋ =
        ⌊(e.physics_accum + (dt1 + dt2) * e.world_speed) / e.physics_step⌋ -
          ⌊(e.physics_accum + dt1 * e.world_speed) / e.physics_step⌋ := by
      rw [a1, s1, sp1, ← Int.floor_sub_int]
      congr 1
      field_simp
      ring
    obtain ⟨e2, he2, a2, w2, t2, -, -, -⟩ := world_fields dt2 e1 (en1.trans hen)
      (by rw [hk2]; exact r3) (by rw [hk2]; exact r4)
    refine ⟨e1, e2, e12, he1, he2, he12, ?_, ?_, ?_⟩
    · rw [a2, a12, hk2, a1, s1, sp1]
      push_cast
      ring
    · rw [w2, w12, w1, hk2]
      simp only [stepsDone_append]
      simp [stepsDone]
    · rw [t2, t12, t1, sp1]
      ring

/-- Witness of C28: a world running backwards (`world_speed = -1`) with 5000 in the
accumulator, 10000 then 30000 against 40000. -/
theorem cadence_independent_witness :
    ∃ e1 e2 e12, Engine.SysUpdate.world 10000 { world_speed := -1, physics_accum := 5000 } =
        some e1 ∧
      Engine.SysUpdate.world 30000 e1 = some e2 ∧
      Engine.SysUpdate.world (10000 + 30000) { world_speed := -1, physics_accum := 5000 } =
        some e12 ∧
      e2.physics_accum = e12.physics_accum ∧ stepsDone e2.w = stepsDone e12.w ∧
      e2.tNow = e12.tNow :=
  have hf : ⌊((5000 : ℚ) + (10000 + 30000) * (-1)) / 16666⌋ = -3 := by
    rw [Int.floor_eq_iff]; norm_num
  cadence_independent 10000 30000 { world_speed := -1, physics_accum := 5000 }
    (by norm_num) (by norm_num) (by norm_num) (by norm_num)
    (by
      show -2 ^ 31 ≤ ⌊((5000 : ℚ) + (10000 + 30000) * (-1)) / 16666⌋
      rw [hf]; norm_num)
    (by
      show ⌊((5000 : ℚ) + (10000 + 30000) * (-1)) / 16666⌋ < 2 ^ 31
      rw [hf]; norm_num)

/-! ## The order of the tasks of a task thread -/

theorem runEntry_post (s : TaskThread) (t : Task) (hfree : ∀ e ∈ s.free_, e.fn = none) :
    ∃ e e', (s.post t).queue_ = e :: s.queue_ ∧ TaskThread.runEntry e = some (t, e') ∧
      (∀ x ∈ (s.post t).free_, x.fn = none) ∧ (s.post t).ran = s.ran ∧
      (s.post t).event_ = true := by
  cases hf : s.free_ with
  | nil =>
    cases t with
    | fn f c =>
      refine ⟨{ fn := some f, context := c }, { fn := none, context := c }, by
        simp [TaskThread.post, TaskThread.PostTaskFn, TaskThread.takeEntry, hf],
        rfl, by simp [TaskThread.post, TaskThread.PostTaskFn, TaskThread.takeEntry, hf],
        by simp [TaskThread.post, TaskThread.PostTaskFn, TaskThread.takeEntry, hf],
        by simp [TaskThread.post, TaskThread.PostTaskFn, TaskThread.takeEntry, hf]⟩
    | std_fn g =>
      refine ⟨{ std_fn := some g }, { std_fn := none }, by
        simp [TaskThread.post, TaskThread.PostTask, TaskThread.takeEntry, hf],
        rfl, by simp [TaskThread.post, TaskThread.PostTask, TaskThread.takeEntry, hf],
        by simp [TaskThread.post, TaskThread.PostTask, TaskThread.takeEntry, hf],
        by simp [TaskThread.post, TaskThread.PostTask, TaskThread.takeEntry, hf]⟩
  | cons x rest =>
    have hx : x.fn = none := hfree x (by rw [hf]; exact List.mem_cons_self _ _)
    have hrest : ∀ y ∈ rest, y.fn = none :=
      fun y hy => hfree y (by rw [hf]; exact List.mem_cons_of_mem _ hy)
    cases t with
    | fn f c =>
      refine ⟨{ x with fn := some f, context := c }, { x with fn := none, context := c }, ?_,
        rfl, ?_, ?_, ?_⟩ <;>
        simp [TaskThread.post, TaskThread.PostTaskFn, TaskThread.takeEntry, hf]
      exact hrest
    | std_fn g =>
      refine ⟨{ x with std_fn := some g }, { x with std_fn := none }, ?_, ?_, ?_, ?_, ?_⟩
      · simp [TaskThread.post, TaskThread.PostTask, TaskThread.takeEntry, hf]
      · simp [TaskThread.runEntry, hx]
      · simp [TaskThread.post, TaskThread.PostTask, TaskThread.takeEntry, hf]
        exact hrest
      · simp [TaskThread.post, TaskThread.PostTask, TaskThread.takeEntry, hf]
      · simp [TaskThread.post, TaskThread.PostTask, TaskThread.takeEntry, hf]

theorem foldl_post (tasks : List Task) :
    ∀ s : TaskThread, (∀ e ∈ s.free_, e.fn = none) →
      ∃ es rs, (tasks.foldl TaskThread.post s).queue_ = es ++ s.queue_ ∧
        TaskThread.runAll es.reverse = some rs ∧ rs.map (·.1) = tasks ∧
        es.length = tasks.length ∧
        (tasks.foldl TaskThread.post s).ran = s.ran ∧
        (tasks ≠ [] → (tasks.foldl TaskThread.post s).event_ = true) := by
  induction tasks with
  | nil =>
    intro s _
    exact ⟨[], [], rfl, rfl, rfl, rfl, rfl, fun h => absurd rfl h⟩
  | cons t rest ih =>
    intro s hfree
    obtain ⟨e, e', hq, hrun, hfree1, hran, hev⟩ := runEntry_post s t hfree
    obtain ⟨es, rs, hq2, hruns, hmap, hlen, hran2, hev2⟩ := ih (s.post t) hfree1
    refine ⟨es ++ [e], (t, e') :: rs, ?_, ?_, ?_, ?_, ?_, ?_⟩
    · rw [List.foldl_cons, hq2, hq]; simp
    · rw [List.reverse_append]
      simp [TaskThread.runAll, hrun, hruns]
    · simp [hmap]
    · simp [hlen]
    · rw [List.foldl_cons, hran2, hran]
    · intro _
      rw [List.foldl_cons]
      by_cases hr : rest = []
      · subst hr; exact hev
      · exact hev2 hr

/-- C29 (task thread order) fails: three tasks posted in the order 1, 2, 3 to a new
task thread are run by the next round of `ThreadMain` in the order 1, 2, 3, not
3, 2, 1. -/
theorem tasks_run_in_post_order :
    (TaskThread.ThreadMain.round
        ([Task.std_fn 1, Task.fn 2 0, Task.std_fn 3].foldl TaskThread.post {})).map (·.ran) =
      some [Task.std_fn 1, Task.fn 2 0, Task.std_fn 3] := by
  decide

/-- C29, amended: for tasks `t1, ..., tn` (`1 ≤ n ≤ 4096`) posted in that order to a
task thread whose queue was empty, the next round of `ThreadMain` runs the batch in
posting order, `t1` first and `tn` last, each task exactly once, and leaves the
queue empty. -/
theorem task_thread_fifo (s : TaskThread) (tasks : List Task) (hq : s.queue_ = [])
    (hfree : ∀ e ∈ s.free_, e.fn = none) (hne : tasks ≠ []) (hn : tasks.length ≤ 4096) :
    ∃ s1, TaskThread.ThreadMain.round (tasks.foldl TaskThread.post s) = some s1 ∧
      s1.ran = s.ran ++ tasks ∧ s1.queue_ = [] := by
  obtain ⟨es, rs, hq2, hruns, hmap, hlen, hran, hev⟩ := foldl_post tasks s hfree
  rw [hq, List.append_nil] at hq2
  have hes : es ≠ [] := by
    intro h
    rw [h] at hlen
    exact hne (List.length_eq_zero.1 hlen.symm)
  have hround : TaskThread.ThreadMain.round (tasks.foldl TaskThread.post s) =
      some { tasks.foldl TaskThread.post s with
        queue_ := []
        event_ := false
        ran := (tasks.foldl TaskThread.post s).ran ++ rs.map (·.1)
        free_ := (rs.map (·.2)).reverse ++ (tasks.foldl TaskThread.post s).free_ } := by
    unfold TaskThread.ThreadMain.round
    simp only [hev hne, hq2, Bool.not_true, Bool.false_eq_true, if_false]
    rw [if_neg (by simpa using hes), if_neg (by omega), hruns]
  exact ⟨_, hround, by simp [hran, hmap], rfl⟩

/-- Witness of C29: a `std::function` and a function pointer posted to a new
thread. -/
theorem task_thread_fifo_witness :
    ∃ s1, TaskThread.ThreadMain.round ([Task.std_fn 1, Task.fn 2 0].foldl TaskThread.post {}) =
        some s1 ∧
      s1.ran = ({} : TaskThread).ran ++ [Task.std_fn 1, Task.fn 2 0] ∧ s1.queue_ = [] :=
  task_thread_fifo {} [Task.std_fn 1, Task.fn 2 0] rfl (fun e he => by cases he) (by decide)
    (by decide)

/-! ## The subset of a file -/

/-- C30 (subset confinement), evaluated at the failing input: on the subset
`[100, 110)` of file 7, a read of 10 bytes at offset 5 is forwarded as the range
`[105, 115)`, which leaves the window; the clamp limits the total length to `size_`
without regard to the offset, and only a read at offset 0 is cut to the window. -/
theorem subset_read_escapes :
    (IoROSubsetFile.BeginRead ⟨7, 100, 10⟩
        { id := 0, offset := 5, sg := [⟨10, 1000⟩], nsg := 1 }).map readRange =
        some (105, 115) ∧
      IoROSubsetFile.window ⟨7, 100, 10⟩ = (100, 110) ∧
      rangeInside (105, 115) (100, 110) = false ∧
      (IoROSubsetFile.BeginRead ⟨7, 100, 10⟩
        { id := 0, offset := 0, sg := [⟨20, 1000⟩], nsg := 1 }).map readRange =
        some (100, 110) := by
  decide

end lune
